import Mathlib

/-!
Verification of the `rolldown-plugin-use-client` transform
(`src/rolldown/inline-client-registry.ts`, SWC-based plugin).

JavaScript strings are modeled as their sequences of UTF-16 code units
(`JStr := List Nat`), which makes `slice`, `length`, concatenation and
`includes` exact.  SWC AST values are modeled by the inductive `JVal`
(JSON-like trees); node spans carry the 1-based byte offsets the parser
reports, so structurally equal nodes correspond exactly to identical
parser output.  External collaborators (SWC printer, SHA-1, `path`
resolution, the host's `emitFile`) are abstracted as function parameters,
mirroring the host interface the plugin consumes.
-/

set_option maxRecDepth 4000

namespace UseClient

/-- A JavaScript string: the sequence of its UTF-16 code units. -/
abbrev JStr := List Nat

/-- Embed a Lean string literal (BMP characters only) as a `JStr`. -/
def jstr (s : String) : JStr := s.data.map Char.toNat

/-! ## Byte/Index Mapper (`createByteOffsetLookup`) -/

/-- `utf8ByteLength` from the source: UTF-8 length of one code point. -/
def utf8ByteLength (codePoint : Nat) : Nat :=
  if codePoint ≤ 0x7f then 1
  else if codePoint ≤ 0x7ff then 2
  else if codePoint ≤ 0xffff then 3
  else 4

def isHighSurrogate (u : Nat) : Bool := decide (0xD800 ≤ u ∧ u ≤ 0xDBFF)

def isLowSurrogate (u : Nat) : Bool := decide (0xDC00 ≤ u ∧ u ≤ 0xDFFF)

/-- Recombination performed by JavaScript `codePointAt` on a surrogate pair. -/
def combineSurrogates (hs ls : Nat) : Nat :=
  (hs - 0xD800) * 0x400 + (ls - 0xDC00) + 0x10000

/-- The code point JavaScript `codePointAt` reports at the start of this
suffix of code units (the unit itself unless it heads a surrogate pair). -/
def codePointAtHead (u : Nat) (rest : List Nat) : Nat :=
  if isHighSurrogate u then
    match rest with
    | l :: _ => if isLowSurrogate l then combineSurrogates u l else u
    | [] => u
  else u

/-- The `(byteOffset, nextIndex)` pairs pushed by the loop in
`createByteOffsetLookup`, starting from a given suffix of the code units,
current byte offset, and current code-unit index. -/
def tableEntries : List Nat → Nat → Nat → List (Nat × Nat)
  | [], _, _ => []
  | u :: rest, byteOffset, i =>
    let cp := codePointAtHead u rest
    let bo := byteOffset + utf8ByteLength cp
    if cp > 0xffff then
      (bo, i + 2) :: tableEntries rest.tail bo (i + 2)
    else
      (bo, i + 1) :: tableEntries rest bo (i + 1)
  termination_by units _ _ => units.length
  decreasing_by
    · simp only [List.length_cons, List.length_tail]
      omega
    · simp

/-- The `byteOffsets` array built by `createByteOffsetLookup`. -/
def byteOffsetsOf (code : JStr) : List Nat :=
  0 :: (tableEntries code 0 0).map Prod.fst

/-- The `indices` array built by `createByteOffsetLookup`. -/
def indicesOf (code : JStr) : List Nat :=
  0 :: (tableEntries code 0 0).map Prod.snd

/-- The binary-search loop of the lookup closure.  `lo` starts at 0 and only
grows, so it is a `Nat`; `hi` can reach `-1`, so it is an `Int`.  `mid` is
`(lo + hi) >> 1`, which for the nonnegative values reached here is floor
division by two. -/
def bsearchLoop (byteOffsets indices : List Nat) (target : Int)
    (lo : Nat) (hi : Int) : Nat :=
  if h : (lo : Int) ≤ hi then
    let mid : Nat := (lo + hi.toNat) / 2
    let midOffset : Nat := byteOffsets.getD mid 0
    if (midOffset : Int) = target then indices.getD mid 0
    else if (midOffset : Int) < target then
      bsearchLoop byteOffsets indices target (mid + 1) hi
    else
      bsearchLoop byteOffsets indices target lo ((mid : Int) - 1)
  else indices.getD (max 0 hi).toNat 0
  termination_by (hi + 1 - lo).toNat
  decreasing_by
    · have hlo : lo ≤ hi.toNat := by omega
      have hmid : (lo + hi.toNat) / 2 ≥ lo := by omega
      omega
    · have hlo : lo ≤ hi.toNat := by omega
      have hmid : (lo + hi.toNat) / 2 ≤ hi.toNat := by omega
      omega

/-- `createByteOffsetLookup` from the source: builds the two parallel arrays
and returns the clamped binary-search lookup. -/
def createByteOffsetLookup (code : JStr) : Int → Nat := fun target =>
  let byteOffsets := byteOffsetsOf code
  let indices := indicesOf code
  if target ≤ 0 then 0
  else
    let lastIndex := byteOffsets.length - 1
    if (byteOffsets.getD lastIndex 0 : Int) ≤ target then
      indices.getD lastIndex 0
    else
      bsearchLoop byteOffsets indices target 0 (lastIndex : Int)

/-! ### Correctness of the byte/index mapper -/

/-- A Unicode scalar value: a code point that is not a surrogate. -/
def Scalar (cp : Nat) : Prop := cp < 0x110000 ∧ ¬(0xD800 ≤ cp ∧ cp ≤ 0xDFFF)

instance scalarDecidable : DecidablePred Scalar := fun cp =>
  decidable_of_iff (cp < 0x110000 ∧ ¬(0xD800 ≤ cp ∧ cp ≤ 0xDFFF)) Iff.rfl

/-- UTF-16 encoding of a sequence of code points (one unit for BMP
characters, a surrogate pair for supplementary ones). -/
def encodeUTF16 (cps : List Nat) : List Nat :=
  cps.flatMap fun cp =>
    if cp ≤ 0xffff then [cp]
    else [0xD800 + (cp - 0x10000) / 0x400, 0xDC00 + (cp - 0x10000) % 0x400]

/-- Number of UTF-16 code units occupied by one code point. -/
def cuLen (cp : Nat) : Nat := if cp > 0xffff then 2 else 1

/-- Total UTF-8 byte length of a code-point sequence. -/
def utf8Sum (cps : List Nat) : Nat := (cps.map utf8ByteLength).sum

/-- Total UTF-16 code-unit length of a code-point sequence. -/
def cuSum (cps : List Nat) : Nat := (cps.map cuLen).sum

/-- Reference form of the `(byteOffset, nextIndex)` table: cumulative UTF-8
and UTF-16 lengths per code point. -/
def cumEntries : List Nat → Nat → Nat → List (Nat × Nat)
  | [], _, _ => []
  | cp :: t, bo, i =>
    (bo + utf8ByteLength cp, i + cuLen cp) ::
      cumEntries t (bo + utf8ByteLength cp) (i + cuLen cp)

theorem tableEntries_encode (cps : List Nat) (h : ∀ cp ∈ cps, Scalar cp) :
    ∀ bo i, tableEntries (encodeUTF16 cps) bo i = cumEntries cps bo i := by
  induction cps with
  | nil => intro bo i; simp [encodeUTF16, tableEntries, cumEntries]
  | cons cp t ih =>
    intro bo i
    have hcp : Scalar cp := h cp (List.mem_cons_self cp t)
    have ht : ∀ x ∈ t, Scalar x := fun x hx => h x (List.mem_cons_of_mem cp hx)
    by_cases hbmp : cp ≤ 0xffff
    · have henc : encodeUTF16 (cp :: t) = cp :: encodeUTF16 t := by
        simp [encodeUTF16, hbmp]
      rw [henc, tableEntries]
      have hhs : isHighSurrogate cp = false := by
        simp only [isHighSurrogate, decide_eq_false_iff_not]
        intro hsur
        exact hcp.2 ⟨hsur.1, le_trans hsur.2 (by norm_num)⟩
      have hcpa : codePointAtHead cp (encodeUTF16 t) = cp := by
        simp [codePointAtHead, hhs]
      rw [hcpa, if_neg (by omega)]
      rw [cumEntries]
      have hcl : cuLen cp = 1 := by
        unfold cuLen
        rw [if_neg (show ¬ cp > 0xffff by omega)]
      rw [hcl, ih ht]
    · have hlt : cp < 0x110000 := hcp.1
      set q := (cp - 0x10000) / 0x400 with hq
      set r := (cp - 0x10000) % 0x400 with hr
      have hql : q < 0x400 := by
        apply Nat.div_lt_of_lt_mul; omega
      have hrl : r < 0x400 := Nat.mod_lt _ (by norm_num)
      have hqr : 0x400 * q + r = cp - 0x10000 := Nat.div_add_mod _ _
      have henc : encodeUTF16 (cp :: t) =
          (0xD800 + q) :: (0xDC00 + r) :: encodeUTF16 t := by
        simp [encodeUTF16, hbmp]
      rw [henc, tableEntries]
      have hhs : isHighSurrogate (0xD800 + q) = true := by
        simp only [isHighSurrogate, decide_eq_true_eq]; omega
      have hls : isLowSurrogate (0xDC00 + r) = true := by
        simp only [isLowSurrogate, decide_eq_true_eq]; omega
      have hcomb : combineSurrogates (0xD800 + q) (0xDC00 + r) = cp := by
        simp only [combineSurrogates, Nat.add_sub_cancel_left]
        omega
      have hcpa : codePointAtHead (0xD800 + q) ((0xDC00 + r) :: encodeUTF16 t) = cp := by
        simp [codePointAtHead, hhs, hls, hcomb]
      rw [hcpa, if_pos (by omega)]
      rw [cumEntries]
      have hcl : cuLen cp = 2 := by
        unfold cuLen
        rw [if_pos (show cp > 0xffff by omega)]
      rw [hcl]
      simp only [List.tail_cons]
      rw [ih ht]

theorem cumEntries_length (cps : List Nat) :
    ∀ bo i, (cumEntries cps bo i).length = cps.length := by
  induction cps with
  | nil => intro bo i; simp [cumEntries]
  | cons cp t ih => intro bo i; simp [cumEntries, ih]

theorem cumEntries_fst_getD (cps : List Nat) :
    ∀ k bo i, k < cps.length →
      ((cumEntries cps bo i).map Prod.fst).getD k 0 =
        bo + utf8Sum (cps.take (k + 1)) := by
  induction cps with
  | nil => intro k bo i hk; simp at hk
  | cons cp t ih =>
    intro k bo i hk
    match k with
    | 0 => simp [cumEntries, utf8Sum]
    | Nat.succ k =>
      rw [cumEntries]
      simp only [List.map_cons, List.getD_cons_succ]
      rw [ih k _ _ (by simpa using hk)]
      simp [utf8Sum]
      omega

theorem cumEntries_snd_getD (cps : List Nat) :
    ∀ k bo i, k < cps.length →
      ((cumEntries cps bo i).map Prod.snd).getD k 0 =
        i + cuSum (cps.take (k + 1)) := by
  induction cps with
  | nil => intro k bo i hk; simp at hk
  | cons cp t ih =>
    intro k bo i hk
    match k with
    | 0 => simp [cumEntries, cuSum]
    | Nat.succ k =>
      rw [cumEntries]
      simp only [List.map_cons, List.getD_cons_succ]
      rw [ih k _ _ (by simpa using hk)]
      simp [cuSum]
      omega

theorem byteOffsetsOf_getD (cps : List Nat) (h : ∀ cp ∈ cps, Scalar cp)
    (k : Nat) (hk : k ≤ cps.length) :
    (byteOffsetsOf (encodeUTF16 cps)).getD k 0 = utf8Sum (cps.take k) := by
  match k with
  | 0 => simp [byteOffsetsOf, utf8Sum]
  | Nat.succ k =>
    rw [byteOffsetsOf, tableEntries_encode cps h]
    rw [List.getD_cons_succ, cumEntries_fst_getD cps k 0 0 (by omega)]
    simp [Nat.succ_eq_add_one]

theorem indicesOf_getD (cps : List Nat) (h : ∀ cp ∈ cps, Scalar cp)
    (k : Nat) (hk : k ≤ cps.length) :
    (indicesOf (encodeUTF16 cps)).getD k 0 = cuSum (cps.take k) := by
  match k with
  | 0 => simp [indicesOf, cuSum]
  | Nat.succ k =>
    rw [indicesOf, tableEntries_encode cps h]
    rw [List.getD_cons_succ, cumEntries_snd_getD cps k 0 0 (by omega)]
    simp [Nat.succ_eq_add_one]

theorem byteOffsetsOf_length (cps : List Nat) (h : ∀ cp ∈ cps, Scalar cp) :
    (byteOffsetsOf (encodeUTF16 cps)).length = cps.length + 1 := by
  rw [byteOffsetsOf, tableEntries_encode cps h]
  simp [cumEntries_length]

theorem one_le_utf8ByteLength (cp : Nat) : 1 ≤ utf8ByteLength cp := by
  unfold utf8ByteLength
  repeat' split
  all_goals omega

theorem utf8Sum_take_lt (cps : List Nat) (a b : Nat)
    (hab : a < b) (hb : b ≤ cps.length) :
    utf8Sum (cps.take a) < utf8Sum (cps.take b) := by
  have hstep : ∀ j, j < cps.length →
      utf8Sum (cps.take j) < utf8Sum (cps.take (j + 1)) := by
    intro j hj
    unfold utf8Sum
    rw [List.map_take, List.map_take,
      List.sum_take_succ _ j (by simpa using hj)]
    have hj2 : j < (cps.map utf8ByteLength).length := by simpa using hj
    have h1 : 1 ≤ (cps.map utf8ByteLength)[j] := by
      rw [List.getElem_map]
      exact one_le_utf8ByteLength _
    omega
  have hmono : ∀ d j, j + d ≤ cps.length →
      utf8Sum (cps.take j) ≤ utf8Sum (cps.take (j + d)) := by
    intro d
    induction d with
    | zero => intro j _; simp
    | succ n ih =>
      intro j hj
      have h1 := ih j (by omega)
      have h2 := hstep (j + n) (by omega)
      have h3 : j + n + 1 = j + (n + 1) := by omega
      rw [h3] at h2
      omega
  have h1 : utf8Sum (cps.take a) < utf8Sum (cps.take (a + 1)) :=
    hstep a (by omega)
  have h2 : utf8Sum (cps.take (a + 1)) ≤ utf8Sum (cps.take b) := by
    have h3 := hmono (b - (a + 1)) (a + 1) (by omega)
    have h4 : a + 1 + (b - (a + 1)) = b := by omega
    rwa [h4] at h3
  omega

theorem bsearchLoop_exact (bo idx : List Nat) (target : Int) (k : Nat)
    (hmono : ∀ a b : Nat, a < b → b < bo.length → bo.getD a 0 < bo.getD b 0)
    (hk : k < bo.length)
    (ht : (bo.getD k 0 : Int) = target) :
    ∀ m (lo : Nat) (hi : Int), (hi + 1 - (lo : Int)).toNat ≤ m → lo ≤ k →
      (k : Int) ≤ hi → hi < (bo.length : Int) →
      bsearchLoop bo idx target lo hi = idx.getD k 0 := by
  intro m
  induction m with
  | zero =>
    intro lo hi hm hlo hhi _
    exfalso
    have : (lo : Int) ≤ (k : Int) := by exact_mod_cast hlo
    omega
  | succ n ih =>
    intro lo hi hm hlo hhi hbound
    have hcond : (lo : Int) ≤ hi := le_trans (by exact_mod_cast hlo) hhi
    rw [bsearchLoop, dif_pos hcond]
    have hhi0 : 0 ≤ hi := le_trans (by exact_mod_cast Nat.zero_le k) hhi
    have hhiN : hi = (hi.toNat : Int) := (Int.toNat_of_nonneg hhi0).symm
    set mid := (lo + hi.toNat) / 2 with hmid
    have hmidlo : lo ≤ mid := by
      have : lo ≤ hi.toNat := by omega
      omega
    have hmidhi : mid ≤ hi.toNat := by omega
    have hmidlen : mid < bo.length := by omega
    by_cases heq : ((bo.getD mid 0 : Nat) : Int) = target
    · rw [if_pos heq]
      have hmk : mid = k := by
        by_contra hne
        rcases Nat.lt_or_ge mid k with hlt | hge
        · have := hmono mid k hlt hk; omega
        · have hgt : k < mid := by omega
          have := hmono k mid hgt hmidlen; omega
      rw [hmk]
    · rw [if_neg heq]
      by_cases hlt : ((bo.getD mid 0 : Nat) : Int) < target
      · rw [if_pos hlt]
        have hmk : mid < k := by
          by_contra hge
          push_neg at hge
          rcases Nat.lt_or_ge k mid with h1 | h1
          · have := hmono k mid h1 hmidlen; omega
          · have : mid = k := by omega
            exact heq (this ▸ ht)
        exact ih (mid + 1) hi (by omega) hmk hhi hbound
      · rw [if_neg hlt]
        have hmk : k < mid := by
          by_contra hge
          push_neg at hge
          rcases Nat.lt_or_ge k mid with h1 | h1
          · omega
          · rcases Nat.lt_or_ge mid k with h2 | h2
            · have := hmono mid k h2 hk; omega
            · have : mid = k := by omega
              exact heq (this ▸ ht)
        exact ih lo ((mid : Int) - 1) (by omega) hlo (by omega) (by omega)

theorem utf8Sum_nil_of_eq_zero (cps : List Nat) (h : utf8Sum cps = 0) :
    cps = [] := by
  cases cps with
  | nil => rfl
  | cons cp t =>
    exfalso
    have h1 := one_le_utf8ByteLength cp
    simp [utf8Sum] at h
    omega

/-- Claim C3: for every source string (sequence of Unicode scalar values) and
every byte offset that is the UTF-8 offset of the start of a code point, the
lookup produced by `createByteOffsetLookup` returns the UTF-16 code-unit index
of that code point; offsets at or below 0 map to 0 and offsets at or beyond
the total UTF-8 byte length map to the total code-unit length. -/
theorem createByteOffsetLookup_correct (cps : List Nat)
    (h : ∀ cp ∈ cps, Scalar cp) :
    (∀ j, j ≤ cps.length →
      createByteOffsetLookup (encodeUTF16 cps) ((utf8Sum (cps.take j) : Nat) : Int) =
        cuSum (cps.take j))
    ∧ (∀ t : Int, t ≤ 0 → createByteOffsetLookup (encodeUTF16 cps) t = 0)
    ∧ (∀ t : Int, ((utf8Sum cps : Nat) : Int) ≤ t →
        createByteOffsetLookup (encodeUTF16 cps) t = cuSum cps) := by
  have hlen : (byteOffsetsOf (encodeUTF16 cps)).length = cps.length + 1 :=
    byteOffsetsOf_length cps h
  have hbo := byteOffsetsOf_getD cps h
  have hidx := indicesOf_getD cps h
  have hmono : ∀ a b : Nat, a < b → b < (byteOffsetsOf (encodeUTF16 cps)).length →
      (byteOffsetsOf (encodeUTF16 cps)).getD a 0 <
        (byteOffsetsOf (encodeUTF16 cps)).getD b 0 := by
    intro a b hab hb
    rw [hlen] at hb
    rw [hbo a (by omega), hbo b (by omega)]
    exact utf8Sum_take_lt cps a b hab (by omega)
  have hclamp0 : ∀ t : Int, t ≤ 0 → createByteOffsetLookup (encodeUTF16 cps) t = 0 := by
    intro t ht
    simp only [createByteOffsetLookup]
    rw [if_pos ht]
  have hclampHi : ∀ t : Int, ((utf8Sum cps : Nat) : Int) ≤ t →
      createByteOffsetLookup (encodeUTF16 cps) t = cuSum cps := by
    intro t ht
    by_cases ht0 : t ≤ 0
    · have hz : utf8Sum cps = 0 := by omega
      rw [hclamp0 t ht0, utf8Sum_nil_of_eq_zero cps hz]
      simp [cuSum]
    · simp only [createByteOffsetLookup]
      rw [if_neg ht0]
      have hlast : (byteOffsetsOf (encodeUTF16 cps)).length - 1 = cps.length := by
        omega
      rw [hlast, hbo cps.length (le_refl _), List.take_length]
      rw [if_pos ht, hidx cps.length (le_refl _), List.take_length]
  refine ⟨?_, hclamp0, hclampHi⟩
  intro j hj
  match Nat.eq_or_lt_of_le (Nat.zero_le j) with
  | Or.inl hj0 =>
    rw [← hj0]
    simp only [List.take_zero]
    have : ((utf8Sum ([] : List Nat) : Nat) : Int) ≤ 0 := by simp [utf8Sum]
    rw [hclamp0 _ this]
    simp [cuSum]
  | Or.inr hjpos =>
    have htpos : 0 < utf8Sum (cps.take j) := by
      have := utf8Sum_take_lt cps 0 j hjpos hj
      simpa [utf8Sum] using this
    match Nat.eq_or_lt_of_le hj with
    | Or.inl hjn =>
      subst hjn
      rw [List.take_length]
      exact hclampHi _ (le_refl _)
    | Or.inr hjn =>
      simp only [createByteOffsetLookup]
      rw [if_neg (by push_cast; omega)]
      have hlast : (byteOffsetsOf (encodeUTF16 cps)).length - 1 = cps.length := by
        omega
      rw [hlast, hbo cps.length (le_refl _), List.take_length]
      rw [if_neg (by
        push_cast
        have hlt2 := utf8Sum_take_lt cps j cps.length hjn (le_refl _)
        rw [List.take_length] at hlt2
        omega)]
      have hres := bsearchLoop_exact (byteOffsetsOf (encodeUTF16 cps))
        (indicesOf (encodeUTF16 cps)) ((utf8Sum (cps.take j) : Nat) : Int) j
        hmono (by omega) (by rw [hbo j hj])
        ((cps.length : Int) + 1 - 0).toNat 0 (cps.length : Int)
        (by omega) (by omega) (by exact_mod_cast Nat.le_of_lt hjn)
        (by push_cast; omega)
      rw [hres, hidx j hj]

/-- Closed instance of C3: on the three-code-point text h, e-acute, emoji
(1-, 2- and 4-byte UTF-8), byte offset 3 (start of the third code point) maps
to code-unit index 2, and out-of-range offsets clamp. -/
theorem createByteOffsetLookup_correct_witness :
    createByteOffsetLookup (encodeUTF16 [104, 233, 128512])
        ((utf8Sum ([104, 233, 128512].take 2) : Nat) : Int) =
      cuSum ([104, 233, 128512].take 2) :=
  (createByteOffsetLookup_correct [104, 233, 128512] (by decide)).1 2 (by decide)

/-! ## SWC AST model

SWC serializes its AST as a JSON-like tree; the plugin traverses it
untyped (`Object.keys` loops plus field accesses).  `JVal` models such
values.  Real SWC nodes all carry distinct `span` fields, so structural
equality of `JVal` coincides with JavaScript object identity for the
nodes of one parse. -/

inductive JVal where
  | null
  | bool (b : Bool)
  | num (n : Int)
  | str (s : String)
  | node (fields : List (String × JVal))
  | arr (elems : List JVal)

mutual

def JVal.beq : JVal → JVal → Bool
  | .null, .null => true
  | .bool a, .bool b => a == b
  | .num a, .num b => a == b
  | .str a, .str b => a == b
  | .node fs, .node gs => JVal.beqFieldList fs gs
  | .arr xs, .arr ys => JVal.beqValList xs ys
  | _, _ => false

def JVal.beqFieldList : List (String × JVal) → List (String × JVal) → Bool
  | [], [] => true
  | (k, v) :: r, (k', v') :: r' =>
    k == k' && JVal.beq v v' && JVal.beqFieldList r r'
  | _, _ => false

def JVal.beqValList : List JVal → List JVal → Bool
  | [], [] => true
  | v :: r, v' :: r' => JVal.beq v v' && JVal.beqValList r r'
  | _, _ => false

end

mutual

theorem JVal.beq_iff_eq : ∀ (a b : JVal), JVal.beq a b = true ↔ a = b
  | .null, b => by cases b <;> simp [JVal.beq]
  | .bool x, b => by cases b <;> simp [JVal.beq]
  | .num x, b => by cases b <;> simp [JVal.beq]
  | .str x, b => by cases b <;> simp [JVal.beq]
  | .node fs, b => by
    cases b <;> simp [JVal.beq]
    exact JVal.beqFieldList_iff_eq fs _
  | .arr xs, b => by
    cases b <;> simp [JVal.beq]
    exact JVal.beqValList_iff_eq xs _

theorem JVal.beqFieldList_iff_eq :
    ∀ (fs gs : List (String × JVal)), JVal.beqFieldList fs gs = true ↔ fs = gs
  | [], [] => by simp [JVal.beqFieldList]
  | [], _ :: _ => by simp [JVal.beqFieldList]
  | _ :: _, [] => by simp [JVal.beqFieldList]
  | (k, v) :: r, (k', v') :: r' => by
    simp [JVal.beqFieldList, JVal.beq_iff_eq v v',
      JVal.beqFieldList_iff_eq r r', and_assoc]

theorem JVal.beqValList_iff_eq :
    ∀ (xs ys : List JVal), JVal.beqValList xs ys = true ↔ xs = ys
  | [], [] => by simp [JVal.beqValList]
  | [], _ :: _ => by simp [JVal.beqValList]
  | _ :: _, [] => by simp [JVal.beqValList]
  | v :: r, v' :: r' => by
    simp [JVal.beqValList, JVal.beq_iff_eq v v', JVal.beqValList_iff_eq r r']

end

instance : DecidableEq JVal := fun a b =>
  decidable_of_iff (JVal.beq a b = true) (JVal.beq_iff_eq a b)

namespace JVal

/-- JavaScript truthiness. -/
def truthy : JVal → Bool
  | .null => false
  | .bool b => b
  | .num n => n ≠ 0
  | .str s => s ≠ ""
  | .node _ => true
  | .arr _ => true

/-- `isSwcNode` restricted to object values (SWC never nests arrays
directly inside arrays, and all array-valued fields are handled by the
surrounding iteration in the source). -/
def isNode : JVal → Bool
  | .node _ => true
  | _ => false

/-- `Array.isArray`. -/
def isArr : JVal → Bool
  | .arr _ => true
  | _ => false

/-- The elements of an array value (`[]` on non-arrays, which the
callers guard against with `isArr`). -/
def arrElems : JVal → List JVal
  | .arr elems => elems
  | _ => []

def lookupField : List (String × JVal) → String → Option JVal
  | [], _ => none
  | (k', v) :: rest, k => if k' = k then some v else lookupField rest k

/-- JavaScript property access `value[k]` (defined fields only). -/
def getField : JVal → String → Option JVal
  | .node fields, k => lookupField fields k
  | _, _ => none

end JVal

/-- `getNodeType` from the source. -/
def getNodeType (v : JVal) : Option String :=
  match v.getField "type" with
  | some (.str s) => some s
  | _ => none

/-- `getNodeArray` from the source: array values filtered to objects. -/
def getNodeArray : Option JVal → List JVal
  | some (.arr elems) => elems.filter JVal.isNode
  | _ => []

/-- `getIdentifierValue` from the source. -/
def getIdentifierValue : Option JVal → Option String
  | some n =>
    match n.getField "value" with
    | some (.str s) => some s
    | _ => none
  | none => none

/-- Numeric field of a nested object, e.g. `node.span.start`. -/
def getSpanNum (v : JVal) (outer inner : String) : Option Int :=
  match v.getField outer with
  | some sp =>
    match sp.getField inner with
    | some (.num n) => some n
    | _ => none
  | none => none

/-! ## Span utilities -/

/-- `getStart` from the source (spans are 1-based byte offsets; the model's
`toIndex` already returns a clamped natural number). -/
def getStart (node : JVal) (offset : Nat) (toIndex : Option (Int → Nat)) : Nat :=
  match getSpanNum node "span" "start" with
  | some st =>
    let absolute : Int := max 0 (st - 1 - offset)
    match toIndex with
    | some f => f absolute
    | none => absolute.toNat
  | none =>
    let raw : Int := match node.getField "start" with | some (.num n) => n | _ => 0
    (raw - offset).toNat

/-- `getEnd` from the source. -/
def getEnd (node : JVal) (offset : Nat) (toIndex : Option (Int → Nat)) : Nat :=
  match getSpanNum node "span" "end" with
  | some en =>
    let absolute : Int := max 0 (en - 1 - offset)
    match toIndex with
    | some f => f absolute
    | none => absolute.toNat
  | none =>
    let raw : Int := match node.getField "end" with | some (.num n) => n | _ => 0
    (raw - offset).toNat

/-- `getSpanWithParens` from the source. -/
def getSpanWithParens (node : JVal) (code : JStr) (offset : Nat)
    (toIndex : Option (Int → Nat)) : Nat × Nat :=
  let start := getStart node offset toIndex
  let e := getEnd node offset toIndex
  if start > 0 ∧ code.getD start 0 = 41 ∧ code.getD (start - 1) 0 = 40 then
    (start - 1, e)
  else (start, e)

/-- JavaScript `\s` character class (used by the trim loops). -/
def isJsWs (u : Nat) : Bool :=
  u = 9 || u = 10 || u = 11 || u = 12 || u = 13 || u = 32 || u = 160 ||
  u = 0x1680 || (0x2000 ≤ u && u ≤ 0x200A) || u = 0x2028 || u = 0x2029 ||
  u = 0x202F || u = 0x205F || u = 0x3000 || u = 0xFEFF

/-- The whitespace-consuming loop of `trimForReplacement`. -/
def trimWsEnd (code : JStr) (start : Nat) (e : Nat) : Nat :=
  if e > start ∧ isJsWs (code.getD (e - 1) 0) then trimWsEnd code start (e - 1)
  else e
  termination_by e
  decreasing_by omega

/-- `trimForReplacement` from the source. -/
def trimForReplacement (span : Nat × Nat) (code : JStr) : Nat × Nat :=
  let e1 := trimWsEnd code span.1 span.2
  if e1 > span.1 ∧ code.getD (e1 - 1) 0 = 59 then
    (span.1, trimWsEnd code span.1 (e1 - 1))
  else (span.1, e1)

/-- Inner loop of `findFirstTokenIndex`: skip to the end of a line. -/
def skipToLineEnd (code : JStr) (i : Nat) : Nat :=
  if i < code.length ∧ code.getD i 0 ≠ 10 ∧ code.getD i 0 ≠ 13 then
    skipToLineEnd code (i + 1)
  else i
  termination_by code.length - i
  decreasing_by omega

/-- Inner loop of `findFirstTokenIndex`: skip past a block comment. -/
def skipBlockComment (code : JStr) (i : Nat) : Nat :=
  if i < code.length then
    if code.getD i 0 = 42 ∧ code.getD (i + 1) 0 = 47 then i + 2
    else skipBlockComment code (i + 1)
  else i
  termination_by code.length - i
  decreasing_by omega

theorem le_skipToLineEnd (code : JStr) (i : Nat) : i ≤ skipToLineEnd code i := by
  by_cases h : i < code.length ∧ code.getD i 0 ≠ 10 ∧ code.getD i 0 ≠ 13
  · rw [skipToLineEnd, if_pos h]
    have h2 := le_skipToLineEnd code (i + 1)
    omega
  · rw [skipToLineEnd, if_neg h]
  termination_by code.length - i
  decreasing_by omega

theorem le_skipBlockComment (code : JStr) (i : Nat) :
    i ≤ skipBlockComment code i := by
  by_cases h : i < code.length
  · rw [skipBlockComment, if_pos h]
    by_cases h1 : code.getD i 0 = 42 ∧ code.getD (i + 1) 0 = 47
    · rw [if_pos h1]; omega
    · rw [if_neg h1]
      have h2 := le_skipBlockComment code (i + 1)
      omega
  · rw [skipBlockComment, if_neg h]
  termination_by code.length - i
  decreasing_by omega

/-- Main scanning loop of `findFirstTokenIndex`. -/
def findFirstTokenLoop (code : JStr) (shebangIndex : Nat) (i : Nat) : Nat :=
  if hlt : i < code.length then
    let c := code.getD i 0
    if isJsWs c then findFirstTokenLoop code shebangIndex (i + 1)
    else if c = 35 ∧ code.getD (i + 1) 0 = 33 ∧ i = shebangIndex then
      findFirstTokenLoop code shebangIndex (skipToLineEnd code (i + 2))
    else if c = 47 ∧ code.getD (i + 1) 0 = 47 then
      findFirstTokenLoop code shebangIndex (skipToLineEnd code (i + 2))
    else if c = 47 ∧ code.getD (i + 1) 0 = 42 then
      findFirstTokenLoop code shebangIndex (skipBlockComment code (i + 2))
    else i
  else i
  termination_by code.length - i
  decreasing_by
    · omega
    · have h := le_skipToLineEnd code (i + 2); omega
    · have h := le_skipToLineEnd code (i + 2); omega
    · have h := le_skipBlockComment code (i + 2); omega

/-- `findFirstTokenIndex` from the source. -/
def findFirstTokenIndex (code : JStr) : Nat :=
  let start := if code.getD 0 0 = 0xFEFF then 1 else 0
  findFirstTokenLoop code start start

/-- `TextEncoder().encode(s).length`: UTF-8 byte length of a UTF-16 code-unit
sequence (unpaired surrogates become U+FFFD, three bytes). -/
def utf8LengthOfUnits : List Nat → Nat
  | [] => 0
  | u :: rest =>
    if isHighSurrogate u then
      match rest with
      | l :: rest2 =>
        if isLowSurrogate l then 4 + utf8LengthOfUnits rest2
        else 3 + utf8LengthOfUnits (l :: rest2)
      | [] => 3
    else utf8ByteLength u + utf8LengthOfUnits rest

/-- `getSwcSpanBaseOffset` from the source. -/
def getSwcSpanBaseOffset (ast : JVal) (code : JStr) : Nat :=
  let moduleStart : Int := (getSpanNum ast "span" "start").getD 1
  let firstTokenIndex := findFirstTokenIndex code
  let firstTokenByteOffset := utf8LengthOfUnits (code.take firstTokenIndex)
  (moduleStart - firstTokenByteOffset - 1).toNat

/-- `startsWith` on code-unit lists. -/
def startsWithUnits : JStr → JStr → Bool
  | _, [] => true
  | [], _ :: _ => false
  | h :: hr, n :: nr => h = n && startsWithUnits hr nr

/-- JavaScript `String.prototype.includes`: some suffix starts with the
needle. -/
def jstrIncludes (hay needle : JStr) : Bool :=
  if startsWithUnits hay needle then true
  else
    match hay with
    | [] => false
    | _ :: t => jstrIncludes t needle

/-- `maybeContainsUseClient` from the source (`String.includes`). -/
def maybeContainsUseClient (code : JStr) : Bool :=
  jstrIncludes code (jstr "use client")

/-! ## Handler locator (`findInlineFunctions`) -/

/-- Keys never traversed by the generic loops. -/
def isSkippedKey (k : String) : Bool :=
  k = "start" || k = "end" || k = "type" || k = "loc" || k = "span" || k = "ctxt"

/-- The object children the traversal loops push for one node's fields, in
field order (arrays contribute their object elements). -/
def nodeChildren (fields : List (String × JVal)) : List JVal :=
  fields.flatMap fun kv =>
    if isSkippedKey kv.1 then []
    else if !kv.2.truthy then []
    else match kv.2 with
      | .arr elems => elems.filter JVal.isNode
      | .node f => [.node f]
      | _ => []

theorem sizeOf_lt_of_mem_nodeChildren {c : JVal} {fields : List (String × JVal)}
    (h : c ∈ nodeChildren fields) : sizeOf c < sizeOf (JVal.node fields) := by
  rw [nodeChildren, List.mem_flatMap] at h
  obtain ⟨kv, hkv, hc⟩ := h
  have hkvsize : sizeOf kv < sizeOf fields := List.sizeOf_lt_of_mem hkv
  have hvsize : sizeOf kv.2 < sizeOf kv := by
    obtain ⟨k, v⟩ := kv
    simp
    all_goals omega
  have hnode : sizeOf fields < sizeOf (JVal.node fields) := by
    simp
    all_goals omega
  split at hc
  · simp at hc
  · split at hc
    · simp at hc
    · split at hc
      · next elems heq =>
        have hmem : c ∈ elems := (List.mem_filter.mp hc).1
        have h1 : sizeOf c < sizeOf elems := List.sizeOf_lt_of_mem hmem
        have h2 : sizeOf elems < sizeOf kv.2 := by
          rw [heq]; simp; all_goals omega
        omega
      · next f heq =>
        simp at hc
        rw [hc, ← heq]
        omega
      · simp at hc

/-- Recursive form of the `findInlineFunctions` stack traversal: the explicit
stack visits a node, then its children in reverse field order, depth first;
the `WeakSet` guard never fires on the tree-shaped values modeled here. -/
def findInlineMatch (n : JVal) : Bool :=
  (match getNodeType n with
   | some t =>
     t = "ArrowFunctionExpression" || t = "FunctionExpression" ||
       t = "FunctionDeclaration"
   | none => false) &&
  (match n.getField "body" with
   | some body =>
     body.isNode && getNodeType body = some "BlockStatement" &&
     (match getNodeArray (body.getField "stmts") with
      | first :: _ =>
        getNodeType first = some "ExpressionStatement" &&
        (match first.getField "expression" with
         | some expr =>
           expr.isNode && getNodeType expr = some "StringLiteral" &&
           (match expr.getField "value" with
            | some (.str s) => s = "use client"
            | _ => false)
         | none => false)
      | [] => false)
   | none => false)

def findInlineRec (v : JVal) (parent : Option JVal) :
    List (JVal × Option JVal) :=
  match v with
  | .node fields =>
    (if findInlineMatch (.node fields) then [(JVal.node fields, parent)] else []) ++
      ((nodeChildren fields).reverse.attach.flatMap
        fun c => findInlineRec c.1 (some (.node fields)))
  | _ => []
  termination_by sizeOf v
  decreasing_by
    have hm := List.mem_reverse.mp c.2
    exact sizeOf_lt_of_mem_nodeChildren hm

/-- `findInlineFunctions` from the source. -/
def findInlineFunctions (ast : JVal) : List (JVal × Option JVal) :=
  if ast.isNode then findInlineRec ast none else []

/-! ## Scope and reference analyzer -/

/-- Property access defaulting to a non-object value, mirroring the
`isSwcNode` guards at call sites: a missing or non-object field behaves
like the source's `undefined`/`null` early returns. -/
def fieldOr (v : JVal) (k : String) : JVal := (v.getField k).getD JVal.null

theorem sizeOf_pos (v : JVal) : 1 ≤ sizeOf v := by
  cases v <;> simp <;> omega

theorem sizeOf_arrElems_le (v : JVal) : sizeOf v.arrElems ≤ sizeOf v := by
  cases v <;> simp [JVal.arrElems] <;> omega

theorem sizeOf_lt_of_getField {v w : JVal} {k : String}
    (h : v.getField k = some w) : sizeOf w < sizeOf v := by
  match v with
  | .node fields =>
    have hmem : ∃ k', (k', w) ∈ fields := by
      rw [JVal.getField] at h
      clear * - h
      induction fields with
      | nil => simp [JVal.lookupField] at h
      | cons kv rest ih =>
        obtain ⟨k', v'⟩ := kv
        rw [JVal.lookupField] at h
        split at h
        · obtain rfl : v' = w := Option.some_inj.mp h
          exact ⟨k', List.mem_cons_self _ _⟩
        · obtain ⟨k'', hk''⟩ := ih h
          exact ⟨k'', List.mem_cons_of_mem _ hk''⟩
    obtain ⟨k', hk'⟩ := hmem
    have h1 : sizeOf (k', w) < sizeOf fields := List.sizeOf_lt_of_mem hk'
    have h2 : sizeOf w < sizeOf (k', w) := by simp; all_goals omega
    have h3 : sizeOf fields < sizeOf (JVal.node fields) := by
      simp; all_goals omega
    omega
  | .null | .bool _ | .num _ | .str _ | .arr _ => simp [JVal.getField] at h

theorem sizeOf_fieldOr_le (v : JVal) (k : String) :
    sizeOf (fieldOr v k) ≤ sizeOf v := by
  rw [fieldOr]
  match h : v.getField k with
  | some w =>
    simp only [Option.getD_some]
    exact Nat.le_of_lt (sizeOf_lt_of_getField h)
  | none =>
    simp only [Option.getD_none]
    exact le_trans (by simp) (sizeOf_pos v)

theorem sizeOf_fieldOr_node_lt (fields : List (String × JVal)) (k : String) :
    sizeOf (fieldOr (JVal.node fields) k) < sizeOf (JVal.node fields) := by
  rw [fieldOr]
  match h : (JVal.node fields).getField k with
  | some w => simpa using sizeOf_lt_of_getField h
  | none =>
    simp only [Option.getD_none]
    have h3 : 1 ≤ sizeOf fields := by
      cases fields <;> simp <;> omega
    simp
    omega

theorem sizeOf_lt_of_mem_getNodeArray {w u : JVal}
    (h : w ∈ getNodeArray (some u)) : sizeOf w < sizeOf u := by
  match u with
  | .arr elems =>
    have hmem : w ∈ elems := by
      rw [getNodeArray] at h
      exact (List.mem_filter.mp h).1
    have h1 : sizeOf w < sizeOf elems := List.sizeOf_lt_of_mem hmem
    have h2 : sizeOf elems < sizeOf (JVal.arr elems) := by
      simp; all_goals omega
    omega
  | .null => simp [getNodeArray] at h
  | .bool _ => simp [getNodeArray] at h
  | .num _ => simp [getNodeArray] at h
  | .str _ => simp [getNodeArray] at h
  | .node _ => simp [getNodeArray] at h

theorem sizeOf_lt_of_mem_getNodeArray_getField {w v : JVal} {k : String}
    (h : w ∈ getNodeArray (v.getField k)) : sizeOf w < sizeOf v := by
  match ho : v.getField k with
  | some u =>
    have h1 := sizeOf_lt_of_mem_getNodeArray (ho ▸ h)
    have h2 := sizeOf_lt_of_getField ho
    omega
  | none => rw [ho] at h; simp [getNodeArray] at h

theorem sizeOf_filter_le (p : JVal → Bool) (l : List JVal) :
    sizeOf (l.filter p) ≤ sizeOf l := by
  induction l with
  | nil => simp
  | cons x rest ih =>
    rw [List.filter_cons]
    split
    · simp; omega
    · simp; omega

theorem sizeOf_getNodeArray_le (u : JVal) :
    sizeOf (getNodeArray (some u)) ≤ sizeOf u := by
  match u with
  | .arr elems =>
    rw [getNodeArray]
    have h1 := sizeOf_filter_le JVal.isNode elems
    have h2 : sizeOf elems < sizeOf (JVal.arr elems) := by
      simp; all_goals omega
    omega
  | .null => simp [getNodeArray]
  | .bool b => simp [getNodeArray]
  | .num n => simp [getNodeArray]
  | .str s => simp [getNodeArray]
  | .node fs => simp [getNodeArray]

theorem sizeOf_getNodeArray_getField_lt (fields : List (String × JVal))
    (k : String) :
    sizeOf (getNodeArray ((JVal.node fields).getField k)) <
      sizeOf (JVal.node fields) := by
  match ho : (JVal.node fields).getField k with
  | some u =>
    have h1 := sizeOf_getNodeArray_le u
    have h2 := sizeOf_lt_of_getField ho
    omega
  | none =>
    have h3 : 1 ≤ sizeOf fields := by cases fields <;> simp <;> omega
    simp [getNodeArray]
    omega

theorem sizeOf_fieldOr_lt_cons (x : JVal) (k : String) (rest : List JVal) :
    sizeOf (fieldOr x k) < sizeOf (x :: rest) := by
  have h1 := sizeOf_fieldOr_le x k
  have h2 : 1 ≤ sizeOf rest := by cases rest <;> simp <;> omega
  simp
  all_goals omega

theorem sizeOf_head_lt_cons (x : JVal) (rest : List JVal) :
    sizeOf x < sizeOf (x :: rest) := by
  have h2 : 1 ≤ sizeOf rest := by cases rest <;> simp <;> omega
  simp
  all_goals omega

theorem sizeOf_tail_lt_cons (x : JVal) (rest : List JVal) :
    sizeOf rest < sizeOf (x :: rest) := by
  have h2 : 1 ≤ sizeOf x := sizeOf_pos x
  simp
  all_goals omega

theorem sizeOf_fieldOr_node_lt_norm (fields : List (String × JVal))
    (k : String) : sizeOf (fieldOr (JVal.node fields) k) < 1 + sizeOf fields := by
  have h := sizeOf_fieldOr_node_lt fields k
  simpa using h

theorem sizeOf_getNodeArray_getField_lt_norm (fields : List (String × JVal))
    (k : String) :
    sizeOf (getNodeArray ((JVal.node fields).getField k)) < 1 + sizeOf fields := by
  have h := sizeOf_getNodeArray_getField_lt fields k
  simpa using h

theorem sizeOf_fieldOr_lt_cons_norm (x : JVal) (k : String) (rest : List JVal) :
    sizeOf (fieldOr x k) < 1 + sizeOf x + sizeOf rest := by
  have h := sizeOf_fieldOr_lt_cons x k rest
  simpa using h

theorem sizeOf_head_lt_cons_norm (x : JVal) (rest : List JVal) :
    sizeOf x < 1 + sizeOf x + sizeOf rest := by
  have h := sizeOf_head_lt_cons x rest
  simpa using h

theorem sizeOf_tail_lt_cons_norm (x : JVal) (rest : List JVal) :
    sizeOf rest < 1 + sizeOf x + sizeOf rest := by
  have h := sizeOf_tail_lt_cons x rest
  simpa using h

/-- Insertion-ordered set add (JavaScript `Set.prototype.add`). -/
def nsAdd (s : List String) (n : String) : List String :=
  if n ∈ s then s else s ++ [n]

/-- The `isSwcNode` guard plus `getIdentifierValue` plus JavaScript
truthiness of the resulting name, as used for function and class names. -/
def identName (v : JVal) (k : String) : Option String :=
  match getIdentifierValue (v.getField k) with
  | some s => if s = "" then none else some s
  | none => none

mutual

/-- `collectDeclaredFromPattern` from the source. -/
def collectDeclaredFromPattern (pattern : JVal) (target : List String) :
    List String :=
  match pattern with
  | .node fields =>
    let p := JVal.node fields
    match getNodeType p with
    | none => target
    | some patternType =>
      if patternType = "Parameter" then
        collectDeclaredFromPattern (fieldOr p "pat") target
      else if patternType = "Identifier" then
        match p.getField "value" with
        | some (.str s) => nsAdd target s
        | _ => target
      else if patternType = "ObjectPattern" then
        cdpPropsLoop (getNodeArray (p.getField "properties")) target
      else if patternType = "ArrayPattern" then
        cdpElemsLoop (getNodeArray (p.getField "elements")) target
      else if patternType = "RestElement" then
        collectDeclaredFromPattern (fieldOr p "argument") target
      else if patternType = "AssignmentPattern" then
        collectDeclaredFromPattern (fieldOr p "left") target
      else target
  | _ => target
  termination_by sizeOf pattern
  decreasing_by
    all_goals simp_wf
    all_goals first
      | exact sizeOf_fieldOr_node_lt _ _
      | exact sizeOf_getNodeArray_getField_lt _ _
      | exact sizeOf_fieldOr_node_lt_norm _ _
      | exact sizeOf_getNodeArray_getField_lt_norm _ _

def cdpPropsLoop (props : List JVal) (target : List String) : List String :=
  match props with
  | [] => target
  | prop :: rest =>
    let target :=
      if getNodeType prop = some "KeyValuePatternProperty" then
        collectDeclaredFromPattern (fieldOr prop "value") target
      else if getNodeType prop = some "AssignmentPatternProperty" then
        collectDeclaredFromPattern (fieldOr prop "key") target
      else if getNodeType prop = some "RestElement" then
        collectDeclaredFromPattern (fieldOr prop "argument") target
      else target
    cdpPropsLoop rest target
  termination_by sizeOf props
  decreasing_by
    all_goals simp_wf
    all_goals first
      | exact sizeOf_fieldOr_lt_cons _ _ _
      | exact sizeOf_tail_lt_cons _ _
      | exact sizeOf_fieldOr_lt_cons_norm _ _ _
      | exact sizeOf_tail_lt_cons_norm _ _

def cdpElemsLoop (elems : List JVal) (target : List String) : List String :=
  match elems with
  | [] => target
  | element :: rest =>
    let target :=
      if getNodeType element = some "RestElement" then
        collectDeclaredFromPattern (fieldOr element "argument") target
      else collectDeclaredFromPattern element target
    cdpElemsLoop rest target
  termination_by sizeOf elems
  decreasing_by
    all_goals simp_wf
    all_goals first
      | exact sizeOf_fieldOr_lt_cons _ _ _
      | exact sizeOf_head_lt_cons _ _
      | exact sizeOf_tail_lt_cons _ _
      | exact sizeOf_fieldOr_lt_cons_norm _ _ _
      | exact sizeOf_head_lt_cons_norm _ _
      | exact sizeOf_tail_lt_cons_norm _ _

end

theorem sizeOf_getNodeArray_getField_le (v : JVal) (k : String) :
    sizeOf (getNodeArray (v.getField k)) ≤ sizeOf v := by
  match ho : v.getField k with
  | some u =>
    have h1 := sizeOf_getNodeArray_le u
    have h2 := sizeOf_lt_of_getField ho
    omega
  | none =>
    have h1 := sizeOf_pos v
    simp [getNodeArray]
    omega

def TS_VALUE_WRAPPERS : List String :=
  ["TsAsExpression", "TsTypeAssertion", "TsNonNullExpression",
   "TsSatisfiesExpression", "TsInstantiation"]

/-- `isTypeOnlyNode` from the source; the `type.startsWith("Ts")` test is
taken on the code-unit list (`startsWithUnits`), which agrees with
JavaScript's `startsWith` on UTF-16 strings. -/
def isTypeOnlyNode (v : JVal) : Bool :=
  match getNodeType v with
  | none => false
  | some t =>
    startsWithUnits (jstr t) (jstr "Ts") && !TS_VALUE_WRAPPERS.contains t &&
      !(t = "TsEnumDeclaration" || t = "TsConstEnumDeclaration")

/-- `isIdentifierReference` from the source.  Field comparisons such as
`parent.init === node` become structural equality, which agrees with
object identity on span-carrying SWC trees. -/
def isIdentifierReference (node : JVal) (parent : Option JVal) : Bool :=
  match parent with
  | none => true
  | some parent =>
    match getNodeType parent with
    | none => true
    | some pt =>
      if pt = "VariableDeclarator" then
        decide (parent.getField "init" = some node)
      else if pt = "FunctionDeclaration" || pt = "FunctionExpression" ||
          pt = "ArrowFunctionExpression" then
        decide (parent.getField "body" = some node) ||
          decide (parent.getField "returnType" = some node) ||
          decide (parent.getField "typeParameters" = some node) ||
          decide (parent.getField "asserts" = some node)
      else if pt = "ClassDeclaration" || pt = "ClassExpression" then
        decide (parent.getField "superClass" = some node)
      else if pt = "ClassMethod" || pt = "ClassPrivateMethod" ||
          pt = "ClassProperty" || pt = "ClassPrivateProperty" then
        !(decide (parent.getField "key" = some node) &&
          !(fieldOr parent "computed").truthy)
      else if pt = "KeyValueProperty" then
        !(decide (parent.getField "key" = some node) &&
          !(fieldOr parent "computed").truthy)
      else if pt = "MemberExpression" || pt = "OptionalMemberExpression" then
        !(decide (parent.getField "property" = some node) &&
          !(fieldOr parent "computed").truthy)
      else if pt = "LabeledStatement" || pt = "BreakStatement" ||
          pt = "ContinueStatement" || pt = "ImportSpecifier" ||
          pt = "ImportDefaultSpecifier" || pt = "ImportNamespaceSpecifier" then
        false
      else if pt = "ExportSpecifier" then
        decide (parent.getField "local" = some node)
      else true

/-- `isDeclared` from the source. -/
def isDeclared (scopes : List (List String)) (name : String) : Bool :=
  scopes.any fun s => name ∈ s

/-- The import/export node types on which `collectReferences` returns
without descending. -/
def isRefSkippedType (t : String) : Bool :=
  t = "ImportDeclaration" || t = "ImportSpecifier" ||
  t = "ImportDefaultSpecifier" || t = "ImportNamespaceSpecifier" ||
  t = "ExportDeclaration" || t = "ExportNamedDeclaration" ||
  t = "ExportAllDeclaration" || t = "ExportDefaultDeclaration"

/-- Update the innermost scope (`scopes[scopes.length - 1]` mutation). -/
def modifyLast (f : List String → List String) :
    List (List String) → List (List String)
  | [] => []
  | [s] => [f s]
  | s :: rest => s :: modifyLast f rest

mutual

/-- `collectReferences` from the source, with the mutable scope stack and
the `out` set threaded as state.  `scopes.concat(scope)` shares the scope
sets with the caller, so the callee's final stack (same length, sets
updated in place) replaces the caller's stack positions. -/
def collectReferences (v : JVal) (scopes : List (List String))
    (out : List String) (parent : Option JVal) :
    List (List String) × List String :=
  match v with
  | .node fields =>
    let node := JVal.node fields
    if isTypeOnlyNode node then (scopes, out)
    else
      match getNodeType node with
      | none => (scopes, out)
      | some nodeType =>
        if nodeType = "Identifier" then
          match node.getField "value" with
          | some (.str name) =>
            if name ≠ "" ∧ isIdentifierReference node parent ∧
                ¬ isDeclared scopes name then
              (scopes, nsAdd out name)
            else (scopes, out)
          | _ => (scopes, out)
        else if isRefSkippedType nodeType then (scopes, out)
        else if nodeType = "FunctionDeclaration" ∨
            nodeType = "FunctionExpression" ∨
            nodeType = "ArrowFunctionExpression" then
          let scope0 : List String :=
            match identName node "identifier" with
            | some n => [n]
            | none => []
          let st1 := crParamsLoop (getNodeArray (node.getField "params"))
            scope0 scopes out
          let res := collectReferences (fieldOr node "body")
            (st1.2.1 ++ [st1.1]) st1.2.2 (some node)
          (res.1.dropLast, res.2)
        else if nodeType = "BlockStatement" then
          let res := crStmtsLoop (getNodeArray (node.getField "stmts")) node
            (scopes ++ [[]]) out
          (res.1.dropLast, res.2)
        else if nodeType = "Program" then
          let res := crStmtsLoop (getNodeArray (node.getField "body")) node
            (scopes ++ [[]]) out
          (res.1.dropLast, res.2)
        else if nodeType = "VariableDeclaration" then
          crDeclsLoop (getNodeArray (node.getField "declarations")) scopes out
        else if nodeType = "ClassDeclaration" ∨ nodeType = "ClassExpression" then
          let scopes1 :=
            match identName node "identifier" with
            | some n => modifyLast (fun s => nsAdd s n) scopes
            | none => scopes
          let st :=
            if (fieldOr node "superClass").truthy then
              collectReferences (fieldOr node "superClass") scopes1 out
                (some node)
            else (scopes1, out)
          crClassBodyLoop (getNodeArray ((fieldOr node "body").getField "body"))
            st.1 st.2
        else if nodeType = "ObjectMethod" ∨ nodeType = "ClassMethod" ∨
            nodeType = "ClassPrivateMethod" ∨ nodeType = "ClassProperty" ∨
            nodeType = "ClassPrivateProperty" ∨ nodeType = "ObjectProperty" then
          let st :=
            if (fieldOr node "key").truthy ∧
                node.getField "computed" = some (.bool true) then
              collectReferences (fieldOr node "key") scopes out (some node)
            else (scopes, out)
          collectReferences (fieldOr node "value") st.1 st.2 (some node)
        else
          crFieldsLoop fields node scopes out
  | _ => (scopes, out)
  termination_by sizeOf v
  decreasing_by
    all_goals simp_wf
    all_goals first
      | omega
      | exact sizeOf_fieldOr_node_lt _ _
      | exact sizeOf_fieldOr_node_lt_norm _ _
      | exact sizeOf_getNodeArray_getField_lt _ _
      | exact sizeOf_getNodeArray_getField_lt_norm _ _
      | exact sizeOf_fieldOr_lt_cons _ _ _
      | exact sizeOf_fieldOr_lt_cons_norm _ _ _
      | exact sizeOf_head_lt_cons _ _
      | exact sizeOf_head_lt_cons_norm _ _
      | exact sizeOf_tail_lt_cons _ _
      | exact sizeOf_tail_lt_cons_norm _ _
      | (apply Nat.lt_of_le_of_lt (sizeOf_getNodeArray_getField_le _ _);
         first
           | exact sizeOf_fieldOr_node_lt _ _
           | exact sizeOf_fieldOr_node_lt_norm _ _)
      | (apply Nat.lt_of_le_of_lt (sizeOf_fieldOr_le _ _); omega)
      | (apply Nat.lt_of_le_of_lt (sizeOf_fieldOr_le _ _); simp;
         all_goals omega)
      | (apply Nat.lt_of_le_of_lt (sizeOf_arrElems_le _); omega)
      | (simp; all_goals omega)
      | (apply Nat.lt_of_le_of_lt (sizeOf_fieldOr_le _ _); simp;
         all_goals omega)
      | (apply Nat.lt_of_le_of_lt (sizeOf_arrElems_le _); simp;
         all_goals omega)

def crParamsLoop (params : List JVal) (scope : List String)
    (scopes : List (List String)) (out : List String) :
    List String × List (List String) × List String :=
  match params with
  | [] => (scope, scopes, out)
  | p :: rest =>
    let scope1 := collectDeclaredFromPattern p scope
    if getNodeType p = some "AssignmentPattern" then
      let res := collectReferences (fieldOr p "right") (scopes ++ [scope1]) out
        (some p)
      crParamsLoop rest (res.1.getLastD []) res.1.dropLast res.2
    else
      crParamsLoop rest scope1 scopes out
  termination_by sizeOf params
  decreasing_by
    all_goals simp_wf
    all_goals first
      | omega
      | exact sizeOf_fieldOr_node_lt _ _
      | exact sizeOf_fieldOr_node_lt_norm _ _
      | exact sizeOf_getNodeArray_getField_lt _ _
      | exact sizeOf_getNodeArray_getField_lt_norm _ _
      | exact sizeOf_fieldOr_lt_cons _ _ _
      | exact sizeOf_fieldOr_lt_cons_norm _ _ _
      | exact sizeOf_head_lt_cons _ _
      | exact sizeOf_head_lt_cons_norm _ _
      | exact sizeOf_tail_lt_cons _ _
      | exact sizeOf_tail_lt_cons_norm _ _
      | (apply Nat.lt_of_le_of_lt (sizeOf_getNodeArray_getField_le _ _);
         first
           | exact sizeOf_fieldOr_node_lt _ _
           | exact sizeOf_fieldOr_node_lt_norm _ _)
      | (apply Nat.lt_of_le_of_lt (sizeOf_fieldOr_le _ _); omega)
      | (apply Nat.lt_of_le_of_lt (sizeOf_fieldOr_le _ _); simp;
         all_goals omega)
      | (apply Nat.lt_of_le_of_lt (sizeOf_arrElems_le _); omega)
      | (simp; all_goals omega)
      | (apply Nat.lt_of_le_of_lt (sizeOf_fieldOr_le _ _); simp;
         all_goals omega)
      | (apply Nat.lt_of_le_of_lt (sizeOf_arrElems_le _); simp;
         all_goals omega)

def crStmtsLoop (stmts : List JVal) (parentNode : JVal)
    (scopes : List (List String)) (out : List String) :
    List (List String) × List String :=
  match stmts with
  | [] => (scopes, out)
  | stmt :: rest =>
    let res := collectReferences stmt scopes out (some parentNode)
    crStmtsLoop rest parentNode res.1 res.2
  termination_by sizeOf stmts
  decreasing_by
    all_goals simp_wf
    all_goals first
      | omega
      | exact sizeOf_fieldOr_node_lt _ _
      | exact sizeOf_fieldOr_node_lt_norm _ _
      | exact sizeOf_getNodeArray_getField_lt _ _
      | exact sizeOf_getNodeArray_getField_lt_norm _ _
      | exact sizeOf_fieldOr_lt_cons _ _ _
      | exact sizeOf_fieldOr_lt_cons_norm _ _ _
      | exact sizeOf_head_lt_cons _ _
      | exact sizeOf_head_lt_cons_norm _ _
      | exact sizeOf_tail_lt_cons _ _
      | exact sizeOf_tail_lt_cons_norm _ _
      | (apply Nat.lt_of_le_of_lt (sizeOf_getNodeArray_getField_le _ _);
         first
           | exact sizeOf_fieldOr_node_lt _ _
           | exact sizeOf_fieldOr_node_lt_norm _ _)
      | (apply Nat.lt_of_le_of_lt (sizeOf_fieldOr_le _ _); omega)
      | (apply Nat.lt_of_le_of_lt (sizeOf_fieldOr_le _ _); simp;
         all_goals omega)
      | (apply Nat.lt_of_le_of_lt (sizeOf_arrElems_le _); omega)
      | (simp; all_goals omega)
      | (apply Nat.lt_of_le_of_lt (sizeOf_fieldOr_le _ _); simp;
         all_goals omega)
      | (apply Nat.lt_of_le_of_lt (sizeOf_arrElems_le _); simp;
         all_goals omega)

def crDeclsLoop (decls : List JVal) (scopes : List (List String))
    (out : List String) : List (List String) × List String :=
  match decls with
  | [] => (scopes, out)
  | decl :: rest =>
    let scopes1 := modifyLast
      (fun s => collectDeclaredFromPattern (fieldOr decl "id") s) scopes
    let res := collectReferences (fieldOr decl "init") scopes1 out (some decl)
    crDeclsLoop rest res.1 res.2
  termination_by sizeOf decls
  decreasing_by
    all_goals simp_wf
    all_goals first
      | omega
      | exact sizeOf_fieldOr_node_lt _ _
      | exact sizeOf_fieldOr_node_lt_norm _ _
      | exact sizeOf_getNodeArray_getField_lt _ _
      | exact sizeOf_getNodeArray_getField_lt_norm _ _
      | exact sizeOf_fieldOr_lt_cons _ _ _
      | exact sizeOf_fieldOr_lt_cons_norm _ _ _
      | exact sizeOf_head_lt_cons _ _
      | exact sizeOf_head_lt_cons_norm _ _
      | exact sizeOf_tail_lt_cons _ _
      | exact sizeOf_tail_lt_cons_norm _ _
      | (apply Nat.lt_of_le_of_lt (sizeOf_getNodeArray_getField_le _ _);
         first
           | exact sizeOf_fieldOr_node_lt _ _
           | exact sizeOf_fieldOr_node_lt_norm _ _)
      | (apply Nat.lt_of_le_of_lt (sizeOf_fieldOr_le _ _); omega)
      | (apply Nat.lt_of_le_of_lt (sizeOf_fieldOr_le _ _); simp;
         all_goals omega)
      | (apply Nat.lt_of_le_of_lt (sizeOf_arrElems_le _); omega)
      | (simp; all_goals omega)
      | (apply Nat.lt_of_le_of_lt (sizeOf_fieldOr_le _ _); simp;
         all_goals omega)
      | (apply Nat.lt_of_le_of_lt (sizeOf_arrElems_le _); simp;
         all_goals omega)

def crClassBodyLoop (elements : List JVal) (scopes : List (List String))
    (out : List String) : List (List String) × List String :=
  match elements with
  | [] => (scopes, out)
  | element :: rest =>
    let res := collectReferences element scopes out (some element)
    crClassBodyLoop rest res.1 res.2
  termination_by sizeOf elements
  decreasing_by
    all_goals simp_wf
    all_goals first
      | omega
      | exact sizeOf_fieldOr_node_lt _ _
      | exact sizeOf_fieldOr_node_lt_norm _ _
      | exact sizeOf_getNodeArray_getField_lt _ _
      | exact sizeOf_getNodeArray_getField_lt_norm _ _
      | exact sizeOf_fieldOr_lt_cons _ _ _
      | exact sizeOf_fieldOr_lt_cons_norm _ _ _
      | exact sizeOf_head_lt_cons _ _
      | exact sizeOf_head_lt_cons_norm _ _
      | exact sizeOf_tail_lt_cons _ _
      | exact sizeOf_tail_lt_cons_norm _ _
      | (apply Nat.lt_of_le_of_lt (sizeOf_getNodeArray_getField_le _ _);
         first
           | exact sizeOf_fieldOr_node_lt _ _
           | exact sizeOf_fieldOr_node_lt_norm _ _)
      | (apply Nat.lt_of_le_of_lt (sizeOf_fieldOr_le _ _); omega)
      | (apply Nat.lt_of_le_of_lt (sizeOf_fieldOr_le _ _); simp;
         all_goals omega)
      | (apply Nat.lt_of_le_of_lt (sizeOf_arrElems_le _); omega)
      | (simp; all_goals omega)
      | (apply Nat.lt_of_le_of_lt (sizeOf_fieldOr_le _ _); simp;
         all_goals omega)
      | (apply Nat.lt_of_le_of_lt (sizeOf_arrElems_le _); simp;
         all_goals omega)

def crFieldsLoop (fields : List (String × JVal)) (parentNode : JVal)
    (scopes : List (List String)) (out : List String) :
    List (List String) × List String :=
  match fields with
  | [] => (scopes, out)
  | (k, value) :: rest =>
    let st :=
      if isSkippedKey k then (scopes, out)
      else if !value.truthy then (scopes, out)
      else if value.isArr then
        crArrChildLoop value.arrElems parentNode scopes out
      else if value.isNode ∧ getNodeType value ≠ none then
        let r1 := collectReferences value scopes out (some parentNode)
        let e := fieldOr value "expression"
        if e.isNode ∧ getNodeType e ≠ none then
          collectReferences e r1.1 r1.2 (some parentNode)
        else r1
      else (scopes, out)
    crFieldsLoop rest parentNode st.1 st.2
  termination_by sizeOf fields
  decreasing_by
    all_goals simp_wf
    all_goals first
      | omega
      | exact sizeOf_fieldOr_node_lt _ _
      | exact sizeOf_fieldOr_node_lt_norm _ _
      | exact sizeOf_getNodeArray_getField_lt _ _
      | exact sizeOf_getNodeArray_getField_lt_norm _ _
      | exact sizeOf_fieldOr_lt_cons _ _ _
      | exact sizeOf_fieldOr_lt_cons_norm _ _ _
      | exact sizeOf_head_lt_cons _ _
      | exact sizeOf_head_lt_cons_norm _ _
      | exact sizeOf_tail_lt_cons _ _
      | exact sizeOf_tail_lt_cons_norm _ _
      | (apply Nat.lt_of_le_of_lt (sizeOf_getNodeArray_getField_le _ _);
         first
           | exact sizeOf_fieldOr_node_lt _ _
           | exact sizeOf_fieldOr_node_lt_norm _ _)
      | (apply Nat.lt_of_le_of_lt (sizeOf_fieldOr_le _ _); omega)
      | (apply Nat.lt_of_le_of_lt (sizeOf_fieldOr_le _ _); simp;
         all_goals omega)
      | (apply Nat.lt_of_le_of_lt (sizeOf_arrElems_le _); omega)
      | (simp; all_goals omega)
      | (apply Nat.lt_of_le_of_lt (sizeOf_fieldOr_le _ _); simp;
         all_goals omega)
      | (apply Nat.lt_of_le_of_lt (sizeOf_arrElems_le _); simp;
         all_goals omega)

def crArrChildLoop (elems : List JVal) (parentNode : JVal)
    (scopes : List (List String)) (out : List String) :
    List (List String) × List String :=
  match elems with
  | [] => (scopes, out)
  | child :: rest =>
    let st :=
      if child.isNode then
        let r1 :=
          if getNodeType child ≠ none then
            collectReferences child scopes out (some parentNode)
          else (scopes, out)
        let e := fieldOr child "expression"
        if e.isNode ∧ getNodeType e ≠ none then
          collectReferences e r1.1 r1.2 (some parentNode)
        else r1
      else (scopes, out)
    crArrChildLoop rest parentNode st.1 st.2
  termination_by sizeOf elems
  decreasing_by
    all_goals simp_wf
    all_goals first
      | omega
      | exact sizeOf_fieldOr_node_lt _ _
      | exact sizeOf_fieldOr_node_lt_norm _ _
      | exact sizeOf_getNodeArray_getField_lt _ _
      | exact sizeOf_getNodeArray_getField_lt_norm _ _
      | exact sizeOf_fieldOr_lt_cons _ _ _
      | exact sizeOf_fieldOr_lt_cons_norm _ _ _
      | exact sizeOf_head_lt_cons _ _
      | exact sizeOf_head_lt_cons_norm _ _
      | exact sizeOf_tail_lt_cons _ _
      | exact sizeOf_tail_lt_cons_norm _ _
      | (apply Nat.lt_of_le_of_lt (sizeOf_getNodeArray_getField_le _ _);
         first
           | exact sizeOf_fieldOr_node_lt _ _
           | exact sizeOf_fieldOr_node_lt_norm _ _)
      | (apply Nat.lt_of_le_of_lt (sizeOf_fieldOr_le _ _); omega)
      | (apply Nat.lt_of_le_of_lt (sizeOf_fieldOr_le _ _); simp;
         all_goals omega)
      | (apply Nat.lt_of_le_of_lt (sizeOf_arrElems_le _); omega)
      | (simp; all_goals omega)
      | (apply Nat.lt_of_le_of_lt (sizeOf_fieldOr_le _ _); simp;
         all_goals omega)
      | (apply Nat.lt_of_le_of_lt (sizeOf_arrElems_le _); simp;
         all_goals omega)

end

/-! ## Safety checks -/

/-- The `export`-wrapper unwrapping shared by `collectScopeDeclarations`
and `collectTopLevelDeclarationInfo` (the source repeats these lines). -/
def scopeDeclTarget (stmt : JVal) : JVal :=
  if getNodeType stmt = some "ExportDeclaration" then
    match stmt.getField "declaration" with
    | some d => if d.isNode then d else stmt
    | none => stmt
  else stmt

/-- Name lookup `getIdentifierValue(identifier) ?? getIdentifierValue(id)`. -/
def declaredNameOf (target : JVal) : Option String :=
  match getIdentifierValue (target.getField "identifier") with
  | some s => some s
  | none => getIdentifierValue (target.getField "id")

/-- One statement's contribution in `collectScopeDeclarations`. -/
def csdStmtOne (targetFunctionNode : Option JVal) (out : List String)
    (stmt : JVal) : List String :=
  let target := scopeDeclTarget stmt
  if targetFunctionNode = some target then out
  else
    match getNodeType target with
    | none => out
    | some targetType =>
      if targetType = "VariableDeclaration" then
        (getNodeArray (target.getField "declarations")).foldl
          (fun o decl => collectDeclaredFromPattern (fieldOr decl "id") o) out
      else if targetType = "FunctionDeclaration" ∨
          targetType = "ClassDeclaration" ∨
          targetType = "TsEnumDeclaration" ∨
          targetType = "TsConstEnumDeclaration" then
        match declaredNameOf target with
        | some name => if name = "" then out else nsAdd out name
        | none => out
      else if targetType = "ImportDeclaration" then
        (getNodeArray (target.getField "specifiers")).foldl
          (fun o spec =>
            match getIdentifierValue (spec.getField "local") with
            | some localName =>
              if localName = "" then o else nsAdd o localName
            | none => o) out
      else out

/-- `collectScopeDeclarations` from the source. -/
def collectScopeDeclarations (scopeNode : JVal) (out : List String)
    (targetFunctionNode : Option JVal) : List String :=
  match getNodeType scopeNode with
  | none => out
  | some scopeType =>
    if scopeType = "FunctionDeclaration" ∨ scopeType = "FunctionExpression" ∨
        scopeType = "ArrowFunctionExpression" then
      let out1 :=
        match identName scopeNode "identifier" with
        | some n => nsAdd out n
        | none => out
      (getNodeArray (scopeNode.getField "params")).foldl
        (fun o param => collectDeclaredFromPattern param o) out1
    else if scopeType = "CatchClause" then
      collectDeclaredFromPattern (fieldOr scopeNode "param") out
    else
      let stmts :=
        if scopeType = "Program" then getNodeArray (scopeNode.getField "body")
        else if scopeType = "BlockStatement" then
          getNodeArray (scopeNode.getField "stmts")
        else []
      stmts.foldl (csdStmtOne targetFunctionNode) out

/-- `isScopeNodeType` from the source. -/
def isScopeNodeType (nodeType : Option String) : Bool :=
  nodeType = some "Program" || nodeType = some "BlockStatement" ||
  nodeType = some "FunctionDeclaration" ||
  nodeType = some "FunctionExpression" ||
  nodeType = some "ArrowFunctionExpression" || nodeType = some "CatchClause"

/-- `isCallableIdentifierUse` from the source. -/
def isCallableIdentifierUse (node : JVal) (parent : Option JVal) : Bool :=
  match parent with
  | none => false
  | some parent =>
    match getNodeType parent with
    | none => false
    | some pt =>
      ((pt = "CallExpression" || pt = "OptionalCallExpression" ||
          pt = "NewExpression") &&
        decide (parent.getField "callee" = some node)) ||
      (pt = "TaggedTemplateExpression" &&
        decide (parent.getField "tag" = some node))

/-- The per-node match tested by `hasUnsafeCallableUsages` when a stack
entry is popped. -/
def unsafeIdentMatch (v : JVal) (parent : Option JVal) (shadow : Nat)
    (name : String) : Bool :=
  getNodeType v = some "Identifier" &&
  decide (v.getField "value" = some (.str name)) &&
  shadow = 0 &&
  isIdentifierReference v parent &&
  isCallableIdentifierUse v parent

/-- Recursive form of the `hasUnsafeCallableUsages` stack traversal (an
any-search; traversal order does not affect the boolean result).  The
shadow counter increments below every scope node that rebinds `name`. -/
def hasUnsafeRec (v : JVal) (parent : Option JVal) (shadow : Nat)
    (name : String) (target : JVal) : Bool :=
  if v = target then false
  else if unsafeIdentMatch v parent shadow name then true
  else
    match v with
    | .node fields =>
      let scopeShadow :=
        if isScopeNodeType (getNodeType (.node fields)) then
          if name ∈ collectScopeDeclarations (.node fields) [] (some target)
          then 1 else 0
        else 0
      (nodeChildren fields).attach.any fun c =>
        hasUnsafeRec c.1 (some (.node fields)) (shadow + scopeShadow) name
          target
    | _ => false
  termination_by sizeOf v
  decreasing_by
    exact sizeOf_lt_of_mem_nodeChildren c.2

/-- `hasUnsafeCallableUsages` from the source. -/
def hasUnsafeCallableUsages (ast : JVal) (name : String)
    (targetFunctionNode : JVal) : Bool :=
  hasUnsafeRec ast none 0 name targetFunctionNode

/-! ## Import table and declaration table -/

/-- JavaScript `Map.prototype.set`: overwrite in place, else append. -/
def mapSet {α : Type} (m : List (String × α)) (k : String) (v : α) :
    List (String × α) :=
  if (m.map Prod.fst).contains k then
    m.map fun kv => if kv.1 = k then (k, v) else kv
  else m ++ [(k, v)]

def mapGet {α : Type} : List (String × α) → String → Option α
  | [], _ => none
  | kv :: rest, k => if kv.1 = k then some kv.2 else mapGet rest k

/-- `code.slice(a, b)` on code units (indices already clamped to `Nat`). -/
def jstrSlice (code : JStr) (a b : Nat) : JStr :=
  (code.drop a).take (b - a)

/-- JavaScript `String.prototype.trim` (whitespace at both ends). -/
def jstrTrim (s : JStr) : JStr :=
  ((s.dropWhile isJsWs).reverse.dropWhile isJsWs).reverse

/-- `ImportInfo` from the source: the import statement node and the
verbatim slice of the whole statement. -/
abbrev ImportInfo := JVal × JStr

/-- `buildImportMap` from the source. -/
def buildImportMap (ast : JVal) (code : JStr) (offset : Nat)
    (toIndex : Option (Int → Nat)) : List (String × ImportInfo) :=
  (getNodeArray (ast.getField "body")).foldl
    (fun m stmt =>
      if getNodeType stmt ≠ some "ImportDeclaration" then m
      else if stmt.getField "typeOnly" = some (.bool true) then m
      else
        let importCode := jstrSlice code (getStart stmt offset toIndex)
          (getEnd stmt offset toIndex)
        (getNodeArray (stmt.getField "specifiers")).foldl
          (fun m spec =>
            let specType := getNodeType spec
            match getIdentifierValue (spec.getField "local") with
            | none => m
            | some localName =>
              if localName = "" then m
              else if specType = some "ImportSpecifier" then
                if spec.getField "isTypeOnly" = some (.bool true) then m
                else mapSet m localName (stmt, importCode)
              else if specType = some "ImportDefaultSpecifier" then
                mapSet m localName (stmt, importCode)
              else if specType = some "ImportNamespaceSpecifier" then
                mapSet m localName (stmt, importCode)
              else m) m)
    []

structure DeclarationInfo where
  node : JVal
  code : JStr
  declared : List String
  dependencies : List String
  deriving DecidableEq

/-- `collectTopLevelDeclarationInfo` from the source. -/
def collectTopLevelDeclarationInfo (stmt : JVal) (code : JStr) (offset : Nat)
    (toIndex : Option (Int → Nat)) : Option DeclarationInfo :=
  let target := scopeDeclTarget stmt
  match getNodeType target with
  | none => none
  | some targetType =>
    if targetType ≠ "FunctionDeclaration" ∧
        targetType ≠ "VariableDeclaration" ∧
        targetType ≠ "ClassDeclaration" ∧
        targetType ≠ "TsEnumDeclaration" ∧
        targetType ≠ "TsConstEnumDeclaration" then
      none
    else
      let declared : List String :=
        if targetType = "FunctionDeclaration" then
          match getIdentifierValue (target.getField "identifier") with
          | some name => if name = "" then [] else [name]
          | none => []
        else if targetType = "VariableDeclaration" then
          (getNodeArray (target.getField "declarations")).foldl
            (fun d decl => collectDeclaredFromPattern (fieldOr decl "id") d) []
        else
          match declaredNameOf target with
          | some name => if name = "" then [] else [name]
          | none => []
      let deps := (collectReferences target [declared] [] none).2
      some
        { node := target
          code := jstrSlice code (getStart target offset toIndex)
            (getEnd target offset toIndex)
          declared := declared
          dependencies := deps }

/-- `buildDeclarationMap` from the source. -/
def buildDeclarationMap (ast : JVal) (code : JStr) (offset : Nat)
    (toIndex : Option (Int → Nat)) : List (String × DeclarationInfo) :=
  (getNodeArray (ast.getField "body")).foldl
    (fun m stmt =>
      match collectTopLevelDeclarationInfo stmt code offset toIndex with
      | none => m
      | some info => info.declared.foldl (fun m name => mapSet m name info) m)
    []

/-! ## Globals, options, and small utilities -/

/-- The curated `GLOBALS` set from the source. -/
def GLOBALS : List String :=
  ["undefined", "NaN", "Infinity", "global", "console", "window", "document",
   "Document", "DocumentFragment", "Element", "Node", "EventTarget", "self",
   "globalThis", "navigator", "history", "location", "performance",
   "setTimeout", "clearTimeout", "setInterval", "clearInterval",
   "setImmediate", "clearImmediate", "queueMicrotask",
   "requestAnimationFrame", "cancelAnimationFrame", "requestIdleCallback",
   "cancelIdleCallback", "structuredClone", "atob", "btoa", "fetch",
   "Headers", "Request", "Response", "FormData", "URL", "URLSearchParams",
   "AbortController", "AbortSignal", "ReadableStream", "WritableStream",
   "TransformStream", "Event", "CustomEvent", "MouseEvent", "SubmitEvent",
   "KeyboardEvent", "MessageEvent", "StorageEvent", "HTMLElement",
   "HTMLFormElement", "HTMLInputElement", "HTMLButtonElement",
   "HTMLDivElement", "SVGElement", "SVGSVGElement", "DOMException",
   "DOMParser", "CSSStyleSheet", "CSSStyleDeclaration", "ShadowRoot",
   "MutationObserver", "IntersectionObserver", "ResizeObserver", "File",
   "FileList", "FileReader", "Blob", "TextEncoder", "TextDecoder", "Intl",
   "crypto", "Crypto", "Map", "Set", "WeakMap", "WeakSet", "Array", "Object",
   "String", "Number", "Boolean", "Symbol", "BigInt", "Math", "Date",
   "Error", "Promise", "arguments", "alert", "confirm", "prompt",
   "HTMLImageElement", "HTMLTextAreaElement"]

/-- The `unresolved` option values. -/
inductive UnresolvedPolicy where
  | error
  | warn
  | ignore
  deriving DecidableEq

structure PluginOptions where
  unresolved : Option UnresolvedPolicy
  strict : Option Bool

/-- External collaborators consumed by the transform: the SWC printer, the
SHA-1 hex digest, `path.resolve`, and the host's `emitFile` reference ids
(indexed by emission order). -/
structure HostEnv where
  printFn : JVal → JStr
  sha1hex : JStr → JStr
  resolvePath : JStr → JStr
  emitRef : Nat → JStr

structure Replacement where
  start : Nat
  stop : Nat
  replacement : JStr
  deriving DecidableEq

structure EmittedChunk where
  id : JStr
  fileName : JStr
  moduleSideEffects : Bool
  deriving DecidableEq

/-- Stable insertion sort (JavaScript engines' `Array.sort` is stable);
structurally recursive so concrete runs reduce in the kernel. -/
def insertSorted {α : Type} (le : α → α → Bool) (x : α) :
    List α → List α
  | [] => [x]
  | y :: rest => if le y x then y :: insertSorted le x rest else x :: y :: rest

def stableSortBy {α : Type} (le : α → α → Bool) (l : List α) : List α :=
  l.foldl (fun acc x => insertSorted le x acc) []

/-- `"\0inline-client:"` (the reserved inline-module id marker,
`INLINE_ID_PREFIX` in the source). -/
def INLINE_ID_MARKER : JStr := 0 :: jstr "inline-client:"

/-- `path.isAbsolute` for forward-slashed POSIX ids. -/
def isAbsolutePath (s : JStr) : Bool := s.headD 0 = 47

/-- `path.basename` for forward-slashed ids: the part after the last `/`. -/
def basename (s : JStr) : JStr :=
  ((s.reverse.takeWhile fun u => u ≠ 47)).reverse

/-- `path.dirname` for forward-slashed ids. -/
def dirname (s : JStr) : JStr :=
  let rest := s.reverse.dropWhile fun u => u ≠ 47
  match rest with
  | [] => jstr "."
  | _ :: [] => jstr "/"
  | _ :: more => more.reverse

/-- `path.join(dir, name)` for the synthesized inline module path. -/
def joinPath (dir name : JStr) : JStr := dir ++ [47] ++ name

/-- `.replaceAll("\\", "/")`. -/
def replaceBackslashes (s : JStr) : JStr :=
  s.map fun u => if u = 92 then 47 else u

/-- `.replace(/\.[^.]+$/, "")`: strip a final extension. -/
def stripExt (s : JStr) : JStr :=
  let r := s.reverse.takeWhile fun u => u ≠ 46
  if r.length = s.length then s
  else if r.length = 0 then s
  else s.take (s.length - r.length - 1)

def isAllowedBaseChar (u : Nat) : Bool :=
  (48 ≤ u && u ≤ 57) || (65 ≤ u && u ≤ 90) || (97 ≤ u && u ≤ 122) ||
  u = 95 || u = 45

theorem length_dropWhile_le {α : Type} (p : α → Bool) (l : List α) :
    (l.dropWhile p).length ≤ l.length := by
  induction l with
  | nil => simp [List.dropWhile]
  | cons x rest ih =>
    rw [List.dropWhile]
    split
    · simp; omega
    · simp

/-- `.replace(/[^a-zA-Z0-9_-]+/g, "_")`: collapse each maximal run of
disallowed characters into one underscore. -/
def sanitizeRuns : List Nat → List Nat
  | [] => []
  | u :: rest =>
    if isAllowedBaseChar u then u :: sanitizeRuns rest
    else 95 :: sanitizeRuns (rest.dropWhile fun x => !isAllowedBaseChar x)
  termination_by l => l.length
  decreasing_by
    · simp
    · have h := length_dropWhile_le (fun x => !isAllowedBaseChar x) rest
      simp
      omega

/-- `.replace(/\.tsx?$/, ".js")` on the chunk file name. -/
def tsxToJs (s : JStr) : JStr :=
  if jstr ".tsx" <:+ s then s.take (s.length - 4) ++ jstr ".js"
  else if jstr ".ts" <:+ s then s.take (s.length - 3) ++ jstr ".js"
  else s

/-- JavaScript `String(n)` for a natural number. -/
def decStr (n : Nat) : JStr :=
  if n < 10 then [48 + n]
  else decStr (n / 10) ++ [48 + n % 10]
  termination_by n
  decreasing_by
    have : n / 10 < n := Nat.div_lt_self (by omega) (by omega)
    omega

/-- `sanitizedBasename` of the source id (extension stripped, disallowed
runs replaced by underscores). -/
def sanitizedBasename (absoluteId : JStr) : JStr :=
  sanitizeRuns (stripExt (basename absoluteId))

/-- The 12-hex content hash of one handler chunk: SHA-1 over the file hash,
the handler start index in decimal, and the canonical module path. -/
def chunkHash (env : HostEnv) (fileHash : JStr) (startIdx : Nat)
    (normalizedId : JStr) : JStr :=
  (env.sha1hex (fileHash ++ decStr startIdx ++ normalizedId)).take 12

/-- The chunk file name `<sanitizedBasename>.<12-hex>.client.tsx`. -/
def chunkFileName (env : HostEnv) (absoluteId : JStr) (fileHash : JStr)
    (startIdx : Nat) (normalizedId : JStr) : JStr :=
  sanitizedBasename absoluteId ++ jstr "." ++
    chunkHash env fileHash startIdx normalizedId ++ jstr ".client.tsx"

/-! ## Diagnostics -/

def sideEffectMsg (absoluteId snippet : JStr) : JStr :=
  jstr "[use-client] side-effect imports are not allowed in files with inline handlers (" ++
    absoluteId ++ jstr ")." ++
    (if snippet = [] then [] else jstr " Offending import: " ++ snippet)

def parseFailMsg (absoluteId emsg : JStr) : JStr :=
  jstr "[use-client] failed to parse " ++ absoluteId ++ jstr ": " ++ emsg

def callableMsg (functionName : String) (absoluteId : JStr) : JStr :=
  jstr "[use-client] inline function declaration \"" ++ jstr functionName ++
    jstr "\" in " ++ absoluteId ++
    jstr " is used as a callable value. Only pass extracted handlers as values (for example to JSX attributes)."

def unresolvedMsg (absoluteId : JStr) (unresolved : List String) : JStr :=
  jstr "[use-client] inline handler in " ++ absoluteId ++
    jstr " references values that are not available in the client bundle: " ++
    List.intercalate (jstr ", ") (unresolved.map jstr)

/-! ## Transitive dependency closure (the worklist loop) -/

def nodeMapHas {α : Type} (m : List (JVal × α)) (k : JVal) : Bool :=
  m.any fun kv => kv.1 = k

def nodeMapSet {α : Type} (m : List (JVal × α)) (k : JVal) (v : α) :
    List (JVal × α) :=
  if nodeMapHas m k then m.map fun kv => if kv.1 = k then (k, v) else kv
  else m ++ [(k, v)]

/-- Accumulators of the worklist loop.  `trace` records the popped names in
order; it is a specification-only observer and feeds no other output. -/
structure ClosureAcc where
  requiredImports : List (JVal × ImportInfo)
  requiredDeclarations : List (JVal × DeclarationInfo)
  trace : List String

/-- The `for (const dep of declInfo.dependencies)` enqueue step. -/
def closeStepDeps (deps : List String) (pending seen : List String) :
    List String × List String :=
  deps.foldl
    (fun ps dep =>
      if ¬ ps.2.contains dep ∧ ¬ GLOBALS.contains dep then
        (ps.1 ++ [dep], nsAdd ps.2 dep)
      else ps)
    (pending, seen)

/-- The `while (pending.length > 0)` loop, fuelled; the fuel passed by the
caller is proven sufficient (the loop always drains `pending`), so the
fuelled form coincides with the source's unbounded loop. -/
def closeWorklist (fuel : Nat) (importMap : List (String × ImportInfo))
    (declMap : List (String × DeclarationInfo)) (pending seen : List String)
    (acc : ClosureAcc) : ClosureAcc × List String :=
  match fuel with
  | 0 => (acc, pending)
  | fuel + 1 =>
    match pending.getLast? with
    | none => (acc, [])
    | some name =>
      let pending1 := pending.dropLast
      if name = "" then closeWorklist fuel importMap declMap pending1 seen acc
      else
        let acc1 := { acc with trace := acc.trace ++ [name] }
        match mapGet importMap name with
        | some importInfo =>
          closeWorklist fuel importMap declMap pending1 seen
            { acc1 with
              requiredImports :=
                nodeMapSet acc1.requiredImports importInfo.1 importInfo }
        | none =>
          match mapGet declMap name with
          | some declInfo =>
            if ¬ nodeMapHas acc1.requiredDeclarations declInfo.node then
              let acc2 := { acc1 with
                requiredDeclarations :=
                  acc1.requiredDeclarations ++ [(declInfo.node, declInfo)] }
              let ps := closeStepDeps declInfo.dependencies pending1 seen
              closeWorklist fuel importMap declMap ps.1 ps.2 acc2
            else closeWorklist fuel importMap declMap pending1 seen acc1
          | none => closeWorklist fuel importMap declMap pending1 seen acc1

/-- All dependency names over the declaration table (the only names the
loop can ever enqueue). -/
def declMapDeps (declMap : List (String × DeclarationInfo)) : List String :=
  declMap.flatMap fun kv => kv.2.dependencies

/-- Fuel passed to `closeWorklist`; proven sufficient for the loop to
drain its worklist. -/
def closureFuel (declMap : List (String × DeclarationInfo))
    (pending : List String) : Nat :=
  pending.length + 2 * (declMapDeps declMap).length + 1

/-! ## The transform handler -/

def dummySpan : JVal :=
  .node [("start", .num 0), ("end", .num 0), ("ctxt", .num 0)]

/-- Object spread `{ ...v, k: newV }`: replace the field in place, else
append it. -/
def setField (v : JVal) (k : String) (newV : JVal) : JVal :=
  match v with
  | .node fields =>
    .node
      (if (fields.map Prod.fst).contains k then
        fields.map fun kv => if kv.1 = k then (k, newV) else kv
      else fields ++ [(k, newV)])
  | x => x

/-- `stripUseClientDirective` from the source. -/
def stripUseClientDirective (fnNode : JVal) : JVal :=
  let body := fieldOr fnNode "body"
  let stmts := getNodeArray (body.getField "stmts")
  match stmts with
  | first :: restStmts =>
    if decide (getNodeType first = some "ExpressionStatement") &&
        (match first.getField "expression" with
          | some expr =>
            expr.isNode &&
            decide (getNodeType expr = some "StringLiteral") &&
            decide (expr.getField "value" = some (.str "use client"))
          | none => false) then
      if body.isNode then
        setField fnNode "body" (setField body "stmts" (.arr restStmts))
      else fnNode
    else fnNode
  | [] => fnNode

/-- `toExportableFunctionExpression` from the source. -/
def toExportableFunctionExpression (fnNode : JVal) : JVal :=
  if getNodeType fnNode = some "FunctionDeclaration" then
    setField fnNode "type" (.str "FunctionExpression")
  else fnNode

/-- Result of one iteration of the per-handler loop: an optional planned
replacement, the emitted chunk (if any), warnings, and registry writes. -/
structure HandlerStepOut where
  replacement : Option Replacement
  chunks : List EmittedChunk
  warnings : List JStr
  registrySets : List (JStr × JStr)
  deriving DecidableEq

/-- The replacement planner: the final branch tree of the per-handler
loop, choosing the replacement text from the handler's syntactic form
and parent context. -/
def plannedReplacement (nodeType parentType : Option String)
    (functionName : Option String) (span : Nat × Nat)
    (replacementValue : JStr) : Option Replacement :=
  let isNamedDefaultFunction : Bool :=
    decide (parentType = some "ExportDefaultDeclaration") &&
    decide (nodeType = some "FunctionExpression") &&
    (match functionName with | some n => decide (n ≠ "") | none => false)
  if decide (nodeType = some "FunctionDeclaration") ||
      isNamedDefaultFunction then
    match functionName with
    | none => none
    | some n =>
      if n = "" then none
      else if parentType = some "ExportDefaultDeclaration" then
        some ⟨span.1, span.2,
          jstr "const " ++ jstr n ++ jstr " = " ++ replacementValue ++
            jstr "; export default " ++ jstr n ++ jstr ";"⟩
      else
        let exportPre :=
          if parentType = some "ExportDeclaration" then jstr "export "
          else []
        some ⟨span.1, span.2,
          exportPre ++ jstr "const " ++ jstr n ++ jstr " = " ++
            replacementValue ++ jstr ";"⟩
  else some ⟨span.1, span.2, replacementValue⟩

/-- The emitting tail of the per-handler loop (everything after the
unresolved-policy check): closure, module synthesis, chunk emission, and
the planned replacement. -/
def handlerEmit (env : HostEnv) (code absoluteId : JStr) (offset : Nat)
    (toIdx : Int → Nat) (importMap : List (String × ImportInfo))
    (declMap : List (String × DeclarationInfo))
    (fileHash normalizedId : JStr) (unresolvedPolicy : UnresolvedPolicy)
    (emitCount : Nat) (node : JVal)
    (nodeType parentType : Option String) (functionName : Option String)
    (span : Nat × Nat) (unresolved pending0 : List String) :
    HandlerStepOut :=
  let cleanedFn := stripUseClientDirective node
  let exportableFn := toExportableFunctionExpression cleanedFn
  let exportModule : JVal := .node
    [("type", .str "Module"), ("span", dummySpan),
     ("body", .arr [.node
       [("type", .str "ExportDefaultExpression"), ("span", dummySpan),
        ("expression", exportableFn)]]),
     ("interpreter", .null), ("shebang", .null)]
  let exportedHandlerCode := env.printFn exportModule
  let warns :=
    if unresolved ≠ [] ∧ unresolvedPolicy = .warn then
      [unresolvedMsg absoluteId unresolved]
    else []
  let closed := closeWorklist (closureFuel declMap pending0) importMap
    declMap pending0 pending0 ⟨[], [], []⟩
  let acc := closed.1
  let sortedImports := stableSortBy
    (fun a b : ImportInfo =>
      getStart a.1 offset (some toIdx) ≤ getStart b.1 offset (some toIdx))
    (acc.requiredImports.map Prod.snd)
  let importCode :=
    if sortedImports ≠ [] then
      List.intercalate (jstr "\n")
        (sortedImports.map fun info => jstrTrim info.2) ++ jstr "\n\n"
    else []
  let sortedDeclarations := stableSortBy
    (fun a b : DeclarationInfo =>
      getStart a.node offset (some toIdx) ≤
        getStart b.node offset (some toIdx))
    (acc.requiredDeclarations.map Prod.snd)
  let declarationCode :=
    if sortedDeclarations ≠ [] then
      List.intercalate (jstr "\n\n")
        (sortedDeclarations.map fun info => jstrTrim info.code) ++
        jstr "\n\n"
    else []
  let startIdx := getStart node offset (some toIdx)
  let hash := chunkHash env fileHash startIdx normalizedId
  let fileName := sanitizedBasename absoluteId ++ jstr "." ++ hash ++
    jstr ".client.tsx"
  let inlineModulePath := joinPath (dirname absoluteId) fileName
  let moduleId := INLINE_ID_MARKER ++ inlineModulePath
  let moduleCode := jstr "\"use client\";\n\n" ++ importCode ++
    declarationCode ++ exportedHandlerCode ++ jstr "\n"
  let registrySets := [(moduleId, moduleCode)]
  let chunk : EmittedChunk :=
    { id := moduleId
      fileName := jstr "assets/" ++ tsxToJs fileName
      moduleSideEffects := false }
  let refId := env.emitRef emitCount
  let replacementValue := jstr "new URL(import.meta.ROLLUP_FILE_URL_" ++
    refId ++ jstr ").pathname"
  ⟨plannedReplacement nodeType parentType functionName span
    replacementValue, [chunk], warns, registrySets⟩

/-- One iteration of the `for (const { node, parent } of inlineFunctions)`
loop of the transform handler. -/
def processOneHandler (env : HostEnv) (code absoluteId : JStr) (offset : Nat)
    (toIdx : Int → Nat) (ast : JVal)
    (importMap : List (String × ImportInfo))
    (declMap : List (String × DeclarationInfo))
    (fileHash normalizedId : JStr) (unresolvedPolicy : UnresolvedPolicy)
    (emitCount : Nat) (node : JVal) (parent : Option JVal) :
    Except JStr HandlerStepOut :=
  let nodeType := getNodeType node
  let parentType := match parent with | some p => getNodeType p | none => none
  let functionName := getIdentifierValue (node.getField "identifier")
  let isNamedDefaultFunction : Bool :=
    decide (parentType = some "ExportDefaultDeclaration") &&
    decide (nodeType = some "FunctionExpression") &&
    (match functionName with | some n => decide (n ≠ "") | none => false)
  let needsCallableGuard : Bool :=
    decide (nodeType = some "FunctionDeclaration") || isNamedDefaultFunction
  let guardErr : Option JStr :=
    if needsCallableGuard then
      match functionName with
      | some n =>
        if n ≠ "" ∧ hasUnsafeCallableUsages ast n node then
          some (callableMsg n absoluteId)
        else none
      | none => none
    else none
  match guardErr with
  | some m => .error m
  | none =>
    let spanTarget :=
      if (decide (nodeType = some "FunctionDeclaration") &&
            (decide (parentType = some "ExportDeclaration") ||
              decide (parentType = some "ExportDefaultDeclaration"))) ||
          isNamedDefaultFunction then
        parent.getD node
      else node
    let rawSpan := getSpanWithParens spanTarget code offset (some toIdx)
    let span := trimForReplacement rawSpan code
    if span.2 > code.length ∨ span.1 ≥ span.2 then
      .ok ⟨none, [], [], []⟩
    else
      let freeRefs := (collectReferences node [[]] [] none).2
      let pending0 := freeRefs.filter fun name => ¬ GLOBALS.contains name
      let unresolved := pending0.filter fun name =>
        mapGet importMap name = none ∧ mapGet declMap name = none
      if unresolved ≠ [] ∧ unresolvedPolicy = .error then
        .error (unresolvedMsg absoluteId unresolved)
      else
        .ok (handlerEmit env code absoluteId offset toIdx importMap declMap
          fileHash normalizedId unresolvedPolicy emitCount node nodeType
          parentType functionName span unresolved pending0)

/-- The per-handler loop, threading the emission counter and the
accumulated outputs. -/
def processHandlers (env : HostEnv) (code absoluteId : JStr) (offset : Nat)
    (toIdx : Int → Nat) (ast : JVal)
    (importMap : List (String × ImportInfo))
    (declMap : List (String × DeclarationInfo))
    (fileHash normalizedId : JStr) (unresolvedPolicy : UnresolvedPolicy) :
    List (JVal × Option JVal) → Nat → List Replacement → List EmittedChunk →
    List JStr → List (JStr × JStr) →
    Except JStr (List Replacement × List EmittedChunk × List JStr ×
      List (JStr × JStr))
  | [], _, reps, chunks, warns, regs => .ok (reps, chunks, warns, regs)
  | (node, parent) :: rest, emitCount, reps, chunks, warns, regs =>
    match processOneHandler env code absoluteId offset toIdx ast importMap
        declMap fileHash normalizedId unresolvedPolicy emitCount node parent
      with
    | .error m => .error m
    | .ok step =>
      processHandlers env code absoluteId offset toIdx ast importMap declMap
        fileHash normalizedId unresolvedPolicy rest
        (emitCount + step.chunks.length) (reps ++ step.replacement.toList)
        (chunks ++ step.chunks) (warns ++ step.warnings)
        (regs ++ step.registrySets)

/-- Right-to-left application of the replacement plan. -/
def spliceOne (code : JStr) (r : Replacement) : JStr :=
  code.take r.start ++ r.replacement ++ code.drop r.stop

def applyReplacements (code : JStr) (rs : List Replacement) : JStr :=
  (stableSortBy (fun a b : Replacement => b.start ≤ a.start) rs).foldl
    spliceOne code

/-- Result of one transform call: the rewritten code (or nothing), the
emitted chunks, warnings, and registry writes, in order. -/
structure TransformOut where
  out : Option JStr
  chunks : List EmittedChunk
  warnings : List JStr
  registrySets : List (JStr × JStr)
  deriving DecidableEq

/-- The transform hook of `inlineClientHandlers`, with `parseSync`'s result
supplied as an oracle argument (`.error` models a parser throw). -/
def transformHandler (env : HostEnv) (opts : PluginOptions) (code id : JStr)
    (parsed : Except JStr JVal) : Except JStr TransformOut :=
  if id.headD 0 = 0 then .ok ⟨none, [], [], []⟩
  else if ¬ maybeContainsUseClient code then .ok ⟨none, [], [], []⟩
  else
    let strictMode := opts.strict = some true
    let unresolvedPolicy := opts.unresolved.getD
      (if strictMode then .error else .warn)
    let absoluteId := if isAbsolutePath id then id else env.resolvePath id
    match parsed with
    | .error emsg =>
      let m := parseFailMsg absoluteId emsg
      if strictMode then .error m else .ok ⟨none, [], [m], []⟩
    | .ok ast =>
      let offset := getSwcSpanBaseOffset ast code
      let toIdx := createByteOffsetLookup code
      let inlineFunctions := findInlineFunctions ast
      if inlineFunctions.length = 0 then .ok ⟨none, [], [], []⟩
      else
        let sideEffectImports := (getNodeArray (ast.getField "body")).filter
          fun stmt =>
            getNodeType stmt = some "ImportDeclaration" ∧
            getNodeArray (stmt.getField "specifiers") = [] ∧
            stmt.getField "typeOnly" ≠ some (.bool true)
        match sideEffectImports with
        | first :: _ =>
          let snippet := jstrTrim (jstrSlice code
            (getStart first offset (some toIdx))
            (getEnd first offset (some toIdx)))
          .error (sideEffectMsg absoluteId snippet)
        | [] =>
          let importMap := buildImportMap ast code offset (some toIdx)
          let declMap := buildDeclarationMap ast code offset (some toIdx)
          let fileHash := (env.sha1hex code).take 12
          let normalizedId := replaceBackslashes (env.resolvePath absoluteId)
          match processHandlers env code absoluteId offset toIdx ast importMap
              declMap fileHash normalizedId unresolvedPolicy inlineFunctions
              0 [] [] [] []
            with
          | .error m => .error m
          | .ok (reps, chunks, warns, regs) =>
            if reps = [] then .ok ⟨none, chunks, warns, regs⟩
            else .ok ⟨some (applyReplacements code reps), chunks, warns, regs⟩

/-! ## Inline client registry and plugin instances -/

def jmapSet (m : List (JStr × JStr)) (k v : JStr) : List (JStr × JStr) :=
  if (m.map Prod.fst).contains k then
    m.map fun kv => if kv.1 = k then (k, v) else kv
  else m ++ [(k, v)]

def jmapGet : List (JStr × JStr) → JStr → Option JStr
  | [], _ => none
  | kv :: rest, k => if kv.1 = k then some kv.2 else jmapGet rest k

/-- Modelled from the spec: `createInlineClientRegistry` is code of this
repository whose implementation is not among the provided sources (only its
callers in `inlineClientHandlers` are).  Per the spec's registry semantics,
each call creates a fresh per-instance map from inline module ids to
synthesized module text — never process-global — cleared at build start. -/
structure InlineClientRegistry where
  entries : List (JStr × JStr)
  deriving DecidableEq

def InlineClientRegistry.set (r : InlineClientRegistry) (k v : JStr) :
    InlineClientRegistry := ⟨jmapSet r.entries k v⟩

def InlineClientRegistry.get (r : InlineClientRegistry) (k : JStr) :
    Option JStr := jmapGet r.entries k

def InlineClientRegistry.clear (_ : InlineClientRegistry) :
    InlineClientRegistry := ⟨[]⟩

def emptyRegistry : InlineClientRegistry := ⟨[]⟩

/-- Observable registry effects of the plugin hooks: `buildStart` clears
one instance's registry; a transform call appends its registry writes. -/
inductive PluginEvent where
  | buildStart (i : Nat)
  | transformSets (i : Nat) (sets : List (JStr × JStr))

def eventInstance : PluginEvent → Nat
  | .buildStart i => i
  | .transformSets i _ => i

/-- System state: one registry per plugin instance (each
`inlineClientHandlers()` call constructs its own). -/
def SysState := Nat → InlineClientRegistry

def initialSys : SysState := fun _ => emptyRegistry

def stepEvent (σ : SysState) : PluginEvent → SysState
  | .buildStart i => fun j => if j = i then (σ i).clear else σ j
  | .transformSets i sets => fun j =>
    if j = i then sets.foldl (fun r kv => r.set kv.1 kv.2) (σ i) else σ j

def runEvents (σ : SysState) (evs : List PluginEvent) : SysState :=
  evs.foldl stepEvent σ

/-- The `load` hook of `inlineClientHandlers`, reading one instance's
registry (returns the stored module text for inline ids, declines
otherwise). -/
def pluginLoad (σ : SysState) (i : Nat) (id : JStr) : Option JStr :=
  if INLINE_ID_MARKER <+: id then (σ i).get id else none

/-! ## Registry isolation (C1) -/

theorem stepEvent_other {σ : SysState} {e : PluginEvent} {B : Nat}
    (h : eventInstance e ≠ B) : stepEvent σ e B = σ B := by
  cases e with
  | buildStart i =>
    have hne : B ≠ i := fun hBi => h (by simpa [eventInstance] using hBi.symm)
    simp only [stepEvent]
    rw [if_neg hne]
  | transformSets i sets =>
    have hne : B ≠ i := fun hBi => h (by simpa [eventInstance] using hBi.symm)
    simp only [stepEvent]
    rw [if_neg hne]

theorem stepEvent_congr {σ σ' : SysState} {B : Nat} (h : σ B = σ' B)
    (e : PluginEvent) : stepEvent σ e B = stepEvent σ' e B := by
  cases e with
  | buildStart i =>
    simp only [stepEvent]
    split
    · rfl
    · exact h
  | transformSets i sets =>
    simp only [stepEvent]
    split
    · next hBi => rw [← hBi, h]
    · exact h

theorem runEvents_congr {B : Nat} :
    ∀ (evs : List PluginEvent) (σ σ' : SysState), σ B = σ' B →
      runEvents σ evs B = runEvents σ' evs B := by
  intro evs
  induction evs with
  | nil => intro σ σ' h; exact h
  | cons e rest ih =>
    intro σ σ' h
    rw [runEvents, List.foldl_cons, runEvents, List.foldl_cons]
    exact ih (stepEvent σ e) (stepEvent σ' e) (stepEvent_congr h e)

theorem runEvents_local {B : Nat} :
    ∀ (evs : List PluginEvent) (σ : SysState),
      runEvents σ evs B =
        runEvents σ (evs.filter fun e => eventInstance e = B) B := by
  intro evs
  induction evs with
  | nil => intro σ; rfl
  | cons e rest ih =>
    intro σ
    rw [runEvents, List.foldl_cons, List.filter_cons]
    split
    · next hkeep =>
      rw [runEvents, List.foldl_cons]
      exact ih (stepEvent σ e)
    · next hdrop =>
      have hne : eventInstance e ≠ B := by simpa using hdrop
      calc List.foldl stepEvent (stepEvent σ e) rest B
          = runEvents (stepEvent σ e) rest B := rfl
        _ = runEvents (stepEvent σ e)
            (rest.filter fun x => eventInstance x = B) B := ih _
        _ = runEvents σ (rest.filter fun x => eventInstance x = B) B :=
            runEvents_congr _ _ _ (stepEvent_other hne)

theorem jmapGet_jmapSet_origin (m : List (JStr × JStr)) (k v id t : JStr)
    (h : jmapGet (jmapSet m k v) id = some t) :
    (id = k ∧ t = v) ∨ jmapGet m id = some t := by
  rw [jmapSet] at h
  split at h
  · -- overwrite in place
    clear * - h
    induction m with
    | nil => simp [jmapGet] at h
    | cons kv rest ih =>
      rw [List.map_cons] at h
      by_cases hkk : kv.1 = k
      · rw [if_pos hkk, jmapGet] at h
        rw [jmapGet]
        by_cases hid : k = id
        · rw [if_pos hid] at h
          exact Or.inl ⟨hid.symm, (Option.some_inj.mp h).symm⟩
        · rw [if_neg hid] at h
          rw [if_neg (by rw [hkk]; exact hid)]
          exact ih h
      · rw [if_neg hkk, jmapGet] at h
        rw [jmapGet]
        by_cases hid : kv.1 = id
        · rw [if_pos hid] at h
          rw [if_pos hid]
          exact Or.inr h
        · rw [if_neg hid] at h
          rw [if_neg hid]
          exact ih h
  · -- append
    clear * - h
    induction m with
    | nil =>
      rw [List.nil_append, jmapGet] at h
      by_cases hid : k = id
      · rw [if_pos hid] at h
        exact Or.inl ⟨hid.symm, (Option.some_inj.mp h).symm⟩
      · rw [if_neg hid] at h
        simp [jmapGet] at h
    | cons kv rest ih =>
      rw [List.cons_append, jmapGet] at h
      rw [jmapGet]
      by_cases hid : kv.1 = id
      · rw [if_pos hid] at h
        rw [if_pos hid]
        exact Or.inr h
      · rw [if_neg hid] at h
        rw [if_neg hid]
        exact ih h

theorem regGet_foldlSets_origin (id t : JStr) :
    ∀ (sets : List (JStr × JStr)) (r : InlineClientRegistry),
      (sets.foldl (fun r kv => r.set kv.1 kv.2) r).get id = some t →
      r.get id = some t ∨ (id, t) ∈ sets := by
  intro sets
  induction sets with
  | nil => intro r h; exact Or.inl h
  | cons kv rest ih =>
    intro r h
    rw [List.foldl_cons] at h
    match ih (r.set kv.1 kv.2) h with
    | Or.inr hmem => exact Or.inr (List.mem_cons_of_mem _ hmem)
    | Or.inl hget =>
      match jmapGet_jmapSet_origin r.entries kv.1 kv.2 id t hget with
      | Or.inl ⟨hid, ht⟩ =>
        refine Or.inr ?_
        rw [hid, ht]
        exact List.mem_cons_self _ _
      | Or.inr hr => exact Or.inl hr

theorem runEvents_get_origin {B : Nat} {id t : JStr} :
    ∀ (evs : List PluginEvent) (σ : SysState),
      (runEvents σ evs B).get id = some t →
      (σ B).get id = some t ∨
        ∃ sets, PluginEvent.transformSets B sets ∈ evs ∧ (id, t) ∈ sets := by
  intro evs
  induction evs with
  | nil => intro σ h; exact Or.inl h
  | cons e rest ih =>
    intro σ h
    rw [runEvents, List.foldl_cons] at h
    match ih (stepEvent σ e) h with
    | Or.inr ⟨sets, hmem, hp⟩ =>
      exact Or.inr ⟨sets, List.mem_cons_of_mem _ hmem, hp⟩
    | Or.inl hget =>
      cases e with
      | buildStart i =>
        simp only [stepEvent] at hget
        split at hget
        · simp [InlineClientRegistry.clear, InlineClientRegistry.get,
            jmapGet] at hget
        · exact Or.inl hget
      | transformSets i sets =>
        simp only [stepEvent] at hget
        split at hget
        · next hBi =>
          match regGet_foldlSets_origin id t sets (σ i) hget with
          | Or.inl hg => exact Or.inl (hBi ▸ hg)
          | Or.inr hp =>
            refine Or.inr ⟨sets, ?_, hp⟩
            rw [hBi]
            exact List.mem_cons_self _ _
        · exact Or.inl hget

/-- Claim C1: the inline-module registry is scoped per plugin instance
(modelled from the spec, since `createInlineClientRegistry` is not among
the provided sources): a transform-time write by instance A never changes
instance B's registry, B's registry depends only on B's own events, any
text returned by B's load hook was written by one of B's own transform
calls, and a build start clears B's registry. -/
theorem inlineClientRegistry_isolated (A B : Nat) (hAB : A ≠ B) :
    (∀ (σ : SysState) (sets : List (JStr × JStr)),
      stepEvent σ (.transformSets A sets) B = σ B)
    ∧ (∀ (evs : List PluginEvent) (σ : SysState),
        runEvents σ evs B =
          runEvents σ (evs.filter fun e => eventInstance e = B) B)
    ∧ (∀ (evs : List PluginEvent) (id t : JStr),
        pluginLoad (runEvents initialSys evs) B id = some t →
        ∃ sets, PluginEvent.transformSets B sets ∈ evs ∧ (id, t) ∈ sets)
    ∧ (∀ (evs : List PluginEvent) (σ : SysState),
        runEvents σ (evs ++ [.buildStart B]) B = emptyRegistry) := by
  refine ⟨?_, ?_, ?_, ?_⟩
  · intro σ sets
    exact stepEvent_other (by simpa [eventInstance] using hAB)
  · intro evs σ
    exact runEvents_local evs σ
  · intro evs id t h
    rw [pluginLoad] at h
    split at h
    · match runEvents_get_origin evs initialSys h with
      | Or.inl hinit =>
        exfalso
        simp [initialSys, emptyRegistry, InlineClientRegistry.get,
          jmapGet] at hinit
      | Or.inr hw => exact hw
    · exact absurd h (by simp)
  · intro evs σ
    rw [runEvents, List.foldl_append]
    show stepEvent (runEvents σ evs) (.buildStart B) B = emptyRegistry
    simp only [stepEvent]
    rfl

/-- Closed instance of C1: with two instances 0 and 1, a write by
instance 0 is invisible to instance 1's load hook and state. -/
theorem inlineClientRegistry_isolated_witness :
    stepEvent initialSys
        (.transformSets 0 [(jstr "id", jstr "text")]) 1 = initialSys 1 :=
  (inlineClientRegistry_isolated 0 1 (by decide)).1 initialSys
    [(jstr "id", jstr "text")]

/-! ## Worklist termination (C10) -/

theorem mem_nsAdd (s : List String) (n x : String) :
    x ∈ nsAdd s n ↔ x ∈ s ∨ x = n := by
  rw [nsAdd]
  split
  · next hmem =>
    constructor
    · exact Or.inl
    · intro h
      match h with
      | Or.inl h1 => exact h1
      | Or.inr h1 => exact h1 ▸ hmem
  · simp

theorem nsAdd_nodup (s : List String) (n : String) (h : s.Nodup) :
    (nsAdd s n).Nodup := by
  rw [nsAdd]
  split
  · exact h
  · next hnm => simpa [List.nodup_append] using ⟨h, fun hx => hnm hx⟩

theorem contains_iff_mem (s : List String) (x : String) :
    s.contains x = true ↔ x ∈ s := by
  simp [List.contains]

/-- Number of not-yet-seen dependency names over the declaration table. -/
def unseenCount (declMap : List (String × DeclarationInfo))
    (seen : List String) : Nat :=
  ((declMapDeps declMap).filter fun d => !seen.contains d).length

theorem length_filter_implies {α : Type} (l : List α) (p p' : α → Bool)
    (himp : ∀ x ∈ l, p' x = true → p x = true) :
    (l.filter p').length ≤ (l.filter p).length := by
  induction l with
  | nil => simp
  | cons x rest ih =>
    have ihr := ih fun y hy => himp y (List.mem_cons_of_mem _ hy)
    rw [List.filter_cons, List.filter_cons]
    by_cases hp' : p' x = true
    · rw [if_pos hp', if_pos (himp x (List.mem_cons_self _ _) hp')]
      simpa using ihr
    · rw [if_neg hp']
      split
      · simp
        omega
      · exact ihr

theorem length_filter_lt_of_mem {α : Type} (l : List α) (p p' : α → Bool)
    (d : α) (hd : d ∈ l) (hpd : p d = true) (hp'd : p' d = false)
    (himp : ∀ x ∈ l, p' x = true → p x = true) :
    (l.filter p').length < (l.filter p).length := by
  induction l with
  | nil => simp at hd
  | cons x rest ih =>
    have himpr : ∀ y ∈ rest, p' y = true → p y = true :=
      fun y hy => himp y (List.mem_cons_of_mem _ hy)
    rw [List.filter_cons, List.filter_cons]
    by_cases hxd : x = d
    · subst hxd
      rw [if_pos hpd, if_neg (by rw [hp'd]; exact Bool.false_ne_true)]
      have := length_filter_implies rest p p' himpr
      simp
      omega
    · have hdr : d ∈ rest := by
        match hd with
        | List.Mem.head _ => exact absurd rfl hxd
        | List.Mem.tail _ h => exact h
      have ihr := ih hdr himpr
      by_cases hp' : p' x = true
      · rw [if_pos hp', if_pos (himp x (List.mem_cons_self _ _) hp')]
        simpa using ihr
      · rw [if_neg hp']
        split
        · simp
          omega
        · exact ihr

theorem nsAdd_filter_implies (seen : List String) (dep : String) :
    ∀ x, (!(nsAdd seen dep).contains x) = true →
      (!seen.contains x) = true := by
  intro x h
  simp only [Bool.not_eq_true', ← Bool.not_eq_true] at h ⊢
  intro hc
  exact h (by
    rw [contains_iff_mem] at hc ⊢
    rw [mem_nsAdd]
    exact Or.inl hc)

theorem unseenCount_nsAdd_le (declMap : List (String × DeclarationInfo))
    (seen : List String) (dep : String) :
    unseenCount declMap (nsAdd seen dep) ≤ unseenCount declMap seen :=
  length_filter_implies _ _ _ (fun x _ => nsAdd_filter_implies seen dep x)

theorem unseenCount_nsAdd_lt (declMap : List (String × DeclarationInfo))
    (seen : List String) (dep : String) (hmem : dep ∈ declMapDeps declMap)
    (hns : dep ∉ seen) :
    unseenCount declMap (nsAdd seen dep) < unseenCount declMap seen := by
  refine length_filter_lt_of_mem _ _ _ dep hmem ?_ ?_
    (fun x _ => nsAdd_filter_implies seen dep x)
  · simp only [Bool.not_eq_true']
    rw [← Bool.not_eq_true]
    intro hc
    exact hns ((contains_iff_mem seen dep).mp hc)
  · have h1 : (nsAdd seen dep).contains dep = true := by
      rw [contains_iff_mem, mem_nsAdd]
      exact Or.inr rfl
    rw [h1]
    rfl

theorem mapGet_mem_declMapDeps (declMap : List (String × DeclarationInfo))
    (name : String) (declInfo : DeclarationInfo)
    (h : mapGet declMap name = some declInfo) :
    ∀ d ∈ declInfo.dependencies, d ∈ declMapDeps declMap := by
  induction declMap with
  | nil => simp [mapGet] at h
  | cons kv rest ih =>
    rw [mapGet] at h
    split at h
    · intro d hd
      rw [declMapDeps, List.flatMap_cons]
      rw [Option.some_inj] at h
      exact List.mem_append_left _ (h ▸ hd)
    · intro d hd
      have hr := ih h d hd
      rw [declMapDeps, List.flatMap_cons]
      exact List.mem_append_right _ hr

theorem closeStepDeps_bundle (declMap : List (String × DeclarationInfo)) :
    ∀ (deps : List String), (∀ d ∈ deps, d ∈ declMapDeps declMap) →
    ∀ (pending seen : List String),
      pending.Nodup → (∀ x ∈ pending, x ∈ seen) →
      (closeStepDeps deps pending seen).1.Nodup ∧
      (∀ x ∈ (closeStepDeps deps pending seen).1,
        x ∈ (closeStepDeps deps pending seen).2) ∧
      (∀ x ∈ seen, x ∈ (closeStepDeps deps pending seen).2) ∧
      (∀ x ∈ (closeStepDeps deps pending seen).1,
        x ∈ pending ∨ x ∉ seen) ∧
      (closeStepDeps deps pending seen).1.length +
          2 * unseenCount declMap (closeStepDeps deps pending seen).2 ≤
        pending.length + 2 * unseenCount declMap seen := by
  intro deps
  induction deps with
  | nil =>
    intro _ pending seen hnd hsub
    refine ⟨hnd, ?_, ?_, ?_, le_refl _⟩
    · exact hsub
    · exact fun x hx => hx
    · exact fun x hx => Or.inl hx
  | cons dep rest ih =>
    intro hdeps pending seen hnd hsub
    have hdep : dep ∈ declMapDeps declMap := hdeps dep (List.mem_cons_self _ _)
    have hrest : ∀ d ∈ rest, d ∈ declMapDeps declMap :=
      fun d hd => hdeps d (List.mem_cons_of_mem _ hd)
    have hstep : closeStepDeps (dep :: rest) pending seen =
        if ¬ seen.contains dep ∧ ¬ GLOBALS.contains dep then
          closeStepDeps rest (pending ++ [dep]) (nsAdd seen dep)
        else closeStepDeps rest pending seen := by
      rw [closeStepDeps, List.foldl_cons]
      split
      · rfl
      · rfl
    rw [hstep]
    split
    · next hcond =>
      have hdns : dep ∉ seen := fun hmem =>
        hcond.1 ((contains_iff_mem seen dep).mpr hmem)
      have hnd1 : (pending ++ [dep]).Nodup := by
        rw [List.nodup_append]
        refine ⟨hnd, List.nodup_singleton _, ?_⟩
        intro x hx
        simp only [List.mem_singleton]
        intro hxd
        exact hdns (hxd ▸ hsub x hx)
      have hsub1 : ∀ x ∈ pending ++ [dep], x ∈ nsAdd seen dep := by
        intro x hx
        rw [mem_nsAdd]
        match List.mem_append.mp hx with
        | Or.inl h1 => exact Or.inl (hsub x h1)
        | Or.inr h1 => exact Or.inr (by simpa using h1)
      obtain ⟨c1, c2, c3, c4, c5⟩ := ih hrest (pending ++ [dep])
        (nsAdd seen dep) hnd1 hsub1
      refine ⟨c1, c2, ?_, ?_, ?_⟩
      · intro x hx
        exact c3 x ((mem_nsAdd seen dep x).mpr (Or.inl hx))
      · intro x hx
        match c4 x hx with
        | Or.inl h1 =>
          match List.mem_append.mp h1 with
          | Or.inl h2 => exact Or.inl h2
          | Or.inr h2 =>
            have hxd : x = dep := by simpa using h2
            exact Or.inr (hxd ▸ hdns)
        | Or.inr h1 =>
          refine Or.inr fun hmem => h1 ?_
          rw [mem_nsAdd]
          exact Or.inl hmem
      · have hlt := unseenCount_nsAdd_lt declMap seen dep hdep hdns
        have hlen : (pending ++ [dep]).length = pending.length + 1 := by
          simp
        omega
    · exact ih hrest pending seen hnd hsub

theorem closeWorklist_invariant (importMap : List (String × ImportInfo))
    (declMap : List (String × DeclarationInfo)) :
    ∀ (fuel : Nat) (pending seen : List String) (acc : ClosureAcc),
      pending.length + 2 * unseenCount declMap seen < fuel →
      pending.Nodup → (∀ x ∈ pending, x ∈ seen) →
      acc.trace.Nodup → (∀ x ∈ acc.trace, x ∈ seen) →
      (∀ x ∈ acc.trace, x ∉ pending) →
      (closeWorklist fuel importMap declMap pending seen acc).2 = [] ∧
        (closeWorklist fuel importMap declMap pending seen acc).1.trace.Nodup
    := by
  intro fuel
  induction fuel with
  | zero => intro pending seen acc hμ; omega
  | succ n ih =>
    intro pending seen acc hμ hnd hsub htnd htsub htdisj
    rw [closeWorklist]
    dsimp only
    split
    · exact ⟨rfl, htnd⟩
    · next name heq =>
      have hne : pending ≠ [] := by
        intro h
        rw [h] at heq
        simp at heq
      have hsplit : pending.dropLast ++ [name] = pending := by
        have h1 := List.dropLast_append_getLast hne
        have h2 : pending.getLast hne = name := by
          have h3 := List.getLast?_eq_getLast pending hne
          rw [h3, Option.some_inj] at heq
          exact heq
        rw [h2] at h1
        exact h1
      have hnamemem : name ∈ pending := by
        rw [← hsplit]
        exact List.mem_append_right _ (by simp)
      have hnd1 : pending.dropLast.Nodup := by
        rw [← hsplit] at hnd
        exact (List.nodup_append.mp hnd).1
      have hname_not1 : name ∉ pending.dropLast := by
        rw [← hsplit] at hnd
        have h2 := (List.nodup_append.mp hnd).2.2
        intro hmem
        exact h2 hmem (by simp)
      have hsub1 : ∀ x ∈ pending.dropLast, x ∈ seen := by
        intro x hx
        refine hsub x ?_
        rw [← hsplit]
        exact List.mem_append_left _ hx
      have hlen1 : pending.dropLast.length + 1 = pending.length := by
        rw [← hsplit]
        simp
      have htdisj1 : ∀ x ∈ acc.trace, x ∉ pending.dropLast := by
        intro x hx hmem
        refine htdisj x hx ?_
        rw [← hsplit]
        exact List.mem_append_left _ hmem
      have htnd2 : (acc.trace ++ [name]).Nodup := by
        rw [List.nodup_append]
        refine ⟨htnd, List.nodup_singleton _, ?_⟩
        intro x hx
        simp only [List.mem_singleton]
        intro hxn
        exact htdisj x hx (hxn ▸ hnamemem)
      have htsub2 : ∀ x ∈ acc.trace ++ [name], x ∈ seen := by
        intro x hx
        match List.mem_append.mp hx with
        | Or.inl h1 => exact htsub x h1
        | Or.inr h1 =>
          have hx2 : x = name := by simpa using h1
          rw [hx2]
          exact hsub name hnamemem
      have htdisj2 : ∀ x ∈ acc.trace ++ [name], x ∉ pending.dropLast := by
        intro x hx hmem
        match List.mem_append.mp hx with
        | Or.inl h1 => exact htdisj1 x h1 hmem
        | Or.inr h1 =>
          have hx2 : x = name := by simpa using h1
          rw [hx2] at hmem
          exact hname_not1 hmem
      split
      · exact ih pending.dropLast seen acc (by omega) hnd1 hsub1 htnd
          htsub htdisj1
      · split
        · exact ih pending.dropLast seen _ (by omega) hnd1 hsub1 htnd2
            htsub2 htdisj2
        · split
          · next declInfo hdm =>
            split
            · obtain ⟨c1, c2, c3, c4, c5⟩ := closeStepDeps_bundle declMap
                declInfo.dependencies
                (mapGet_mem_declMapDeps declMap name declInfo hdm)
                pending.dropLast seen hnd1 hsub1
              refine ih _ _ _ (by omega) c1 c2 htnd2 ?_ ?_
              · intro x hx
                exact c3 x (htsub2 x hx)
              · intro x hx hmem
                match c4 x hmem with
                | Or.inl h1 => exact htdisj2 x hx h1
                | Or.inr h1 => exact h1 (htsub2 x hx)
            · exact ih pending.dropLast seen _ (by omega) hnd1 hsub1 htnd2
                htsub2 htdisj2
          · exact ih pending.dropLast seen _ (by omega) hnd1 hsub1 htnd2
              htsub2 htdisj2

/-- Claim C10: the transitive-closure worklist loop terminates within its
measure: names are enqueued only when unseen and the seen set grows, so
the fuel the transform supplies always drains the worklist, and the list
of processed (popped) names is duplicate-free — each distinct name is
processed at most once. -/
theorem closeWorklist_terminates (importMap : List (String × ImportInfo))
    (declMap : List (String × DeclarationInfo)) (pending : List String)
    (hnd : pending.Nodup) :
    (closeWorklist (closureFuel declMap pending) importMap declMap pending
        pending ⟨[], [], []⟩).2 = [] ∧
    (closeWorklist (closureFuel declMap pending) importMap declMap pending
        pending ⟨[], [], []⟩).1.trace.Nodup := by
  have hcount : unseenCount declMap pending ≤ (declMapDeps declMap).length :=
    List.length_filter_le _ _
  refine closeWorklist_invariant importMap declMap (closureFuel declMap
    pending) pending pending ⟨[], [], []⟩ ?_ hnd (fun x hx => hx)
    List.nodup_nil (by simp) (by simp)
  rw [closureFuel]
  omega

/-- Closed instance of C10: a two-element worklist against a one-entry
declaration table drains and processes each name once. -/
theorem closeWorklist_terminates_witness :
    (closeWorklist (closureFuel [] ["a", "b"]) [] []
        ["a", "b"] ["a", "b"] ⟨[], [], []⟩).2 = [] ∧
    (closeWorklist (closureFuel [] ["a", "b"]) [] []
        ["a", "b"] ["a", "b"] ⟨[], [], []⟩).1.trace.Nodup :=
  closeWorklist_terminates [] [] ["a", "b"] (by decide)

/-! ## Scope-stack invariant of the reference analyzer (C8) -/

/-- Relation between the scope stack and out set before and after one
analyzer step: the stack keeps its length, every scope only grows, the
out set only grows, and every name added to out was, at the time it was
added, absent from every scope of the incoming stack. -/
def StackInv (scopes : List (List String)) (out : List String)
    (r : List (List String) × List String) : Prop :=
  r.1.length = scopes.length ∧
  (∀ i x, x ∈ scopes.getD i [] → x ∈ r.1.getD i []) ∧
  (∀ n ∈ out, n ∈ r.2) ∧
  (∀ n ∈ r.2, n ∈ out ∨ ∀ i, n ∉ scopes.getD i [])

theorem StackInv.refl (scopes : List (List String)) (out : List String) :
    StackInv scopes out (scopes, out) :=
  ⟨rfl, fun _ _ h => h, fun _ h => h, fun n hn => Or.inl hn⟩

theorem StackInv.trans {scopes : List (List String)} {out : List String}
    {r r' : List (List String) × List String}
    (h1 : StackInv scopes out r) (h2 : StackInv r.1 r.2 r') :
    StackInv scopes out r' := by
  obtain ⟨l1, g1, m1, a1⟩ := h1
  obtain ⟨l2, g2, m2, a2⟩ := h2
  refine ⟨l2.trans l1, ?_, ?_, ?_⟩
  · exact fun i x hx => g2 i x (g1 i x hx)
  · exact fun n hn => m2 n (m1 n hn)
  · intro n hn
    match a2 n hn with
    | Or.inl h3 =>
      match a1 n h3 with
      | Or.inl h4 => exact Or.inl h4
      | Or.inr h4 => exact Or.inr h4
    | Or.inr h3 =>
      refine Or.inr fun i hmem => h3 i (g1 i n hmem)

theorem getD_append_lt {l : List (List String)} {s : List String} {i : Nat}
    (h : i < l.length) : (l ++ [s]).getD i [] = l.getD i [] := by
  rw [List.getD_eq_getElem?_getD, List.getD_eq_getElem?_getD,
    List.getElem?_append_left h]

theorem getD_dropLast {l : List (List String)} {i : Nat}
    (h : i + 1 < l.length) : l.dropLast.getD i [] = l.getD i [] := by
  rw [List.getD_eq_getElem?_getD, List.getD_eq_getElem?_getD,
    List.dropLast_eq_take, List.getElem?_take, if_pos (by omega)]

theorem getD_ge_length {l : List (List String)} {i : Nat}
    (h : l.length ≤ i) : l.getD i [] = [] := by
  rw [List.getD_eq_getElem?_getD, List.getElem?_eq_none (by omega)]
  rfl

/-- Inner call on a pushed stack, result popped: the push/pop bracket of
`collectReferences` preserves the invariant. -/
theorem StackInv.pushPop {scopes : List (List String)} {out : List String}
    {s : List String} {r : List (List String) × List String}
    (h : StackInv (scopes ++ [s]) out r) :
    StackInv scopes out (r.1.dropLast, r.2) := by
  obtain ⟨l1, g1, m1, a1⟩ := h
  rw [List.length_append, List.length_singleton] at l1
  refine ⟨?_, ?_, m1, ?_⟩
  · rw [List.length_dropLast, l1]
    simp
  · intro i x hx
    by_cases hi : i < scopes.length
    · have h2 := g1 i x (by rwa [getD_append_lt hi])
      rwa [getD_dropLast (by omega)]
    · rw [getD_ge_length (by omega)] at hx
      simp at hx
  · intro n hn
    match a1 n hn with
    | Or.inl h2 => exact Or.inl h2
    | Or.inr h2 =>
      refine Or.inr fun i hmem => ?_
      by_cases hi : i < scopes.length
      · exact h2 i (by rwa [getD_append_lt hi])
      · rw [getD_ge_length (by omega)] at hmem
        simp at hmem

theorem modifyLast_length (f : List String → List String) :
    ∀ (l : List (List String)), (modifyLast f l).length = l.length := by
  intro l
  induction l with
  | nil => rfl
  | cons s rest ih =>
    match rest with
    | [] => rfl
    | t :: more =>
      rw [show modifyLast f (s :: t :: more) =
        s :: modifyLast f (t :: more) from rfl]
      simp only [List.length_cons]
      rw [ih]
      simp

theorem modifyLast_getD_grow {f : List String → List String}
    (hf : ∀ (s : List String), ∀ x ∈ s, x ∈ f s) :
    ∀ (l : List (List String)) (i : Nat) (x : String),
      x ∈ l.getD i [] → x ∈ (modifyLast f l).getD i [] := by
  intro l
  induction l with
  | nil => intro i x hx; simpa using hx
  | cons s rest ih =>
    intro i x hx
    match rest with
    | [] =>
      rw [show modifyLast f [s] = [f s] from rfl]
      match i with
      | 0 =>
        rw [List.getD_cons_zero] at hx ⊢
        exact hf s x hx
      | j + 1 =>
        rw [List.getD_cons_succ, getD_ge_length (by simp)] at hx
        simp at hx
    | t :: more =>
      rw [show modifyLast f (s :: t :: more) =
        s :: modifyLast f (t :: more) from rfl]
      match i with
      | 0 => rwa [List.getD_cons_zero] at hx ⊢
      | j + 1 =>
        rw [List.getD_cons_succ] at hx ⊢
        exact ih j x hx

theorem StackInv.modifyLastGrow {scopes : List (List String)}
    {out : List String} {f : List String → List String}
    (hf : ∀ s x, x ∈ s → x ∈ f s) :
    StackInv scopes out (modifyLast f scopes, out) :=
  ⟨modifyLast_length f scopes, fun i x hx => modifyLast_getD_grow hf scopes i x hx,
   fun _ h => h, fun n hn => Or.inl hn⟩

theorem mem_of_not_isDeclared {scopes : List (List String)} {name : String}
    (h : ¬ isDeclared scopes name) : ∀ i, name ∉ scopes.getD i [] := by
  intro i hmem
  refine h ?_
  rw [isDeclared, List.any_eq_true]
  by_cases hi : i < scopes.length
  · refine ⟨scopes.getD i [], ?_, by simpa using hmem⟩
    have h2 : scopes.getD i [] = scopes[i] := by
      rw [List.getD_eq_getElem?_getD, List.getElem?_eq_getElem hi]
      rfl
    rw [h2]
    exact List.getElem_mem hi
  · rw [getD_ge_length (by omega)] at hmem
    simp at hmem

/-- Names are only added to out: adds by `nsAdd` keep the invariant when
the added name misses every scope. -/
theorem StackInv.addName {scopes : List (List String)} {out : List String}
    {name : String} (h : ∀ i, name ∉ scopes.getD i []) :
    StackInv scopes out (scopes, nsAdd out name) := by
  refine ⟨rfl, fun _ _ hx => hx, ?_, ?_⟩
  · intro n hn
    rw [nsAdd]
    split
    · exact hn
    · exact List.mem_append_left _ hn
  · intro n hn
    rw [mem_nsAdd] at hn
    match hn with
    | Or.inl h1 => exact Or.inl h1
    | Or.inr h1 => exact Or.inr (h1 ▸ h)

theorem dropLast_append_getLastD {l : List (List String)} (h : l ≠ []) :
    l.dropLast ++ [l.getLastD []] = l := by
  match l with
  | [] => exact absurd rfl h
  | x :: xs =>
    rw [List.getLastD_eq_getLast?, List.getLast?_eq_getLast _ (by simp)]
    simpa using List.dropLast_append_getLast (l := x :: xs) (by simp)

mutual

theorem collectDeclaredFromPattern_mono (pattern : JVal)
    (target : List String) :
    ∀ x ∈ target, x ∈ collectDeclaredFromPattern pattern target := by
  intro x hx
  rw [collectDeclaredFromPattern.eq_def]
  split
  · dsimp only
    split
    · exact hx
    · split
      · exact collectDeclaredFromPattern_mono _ _ x hx
      · split
        · split
          · next s heq => exact (mem_nsAdd _ _ _).mpr (Or.inl hx)
          · exact hx
        · split
          · exact cdpPropsLoop_mono _ _ x hx
          · split
            · exact cdpElemsLoop_mono _ _ x hx
            · split
              · exact collectDeclaredFromPattern_mono _ _ x hx
              · split
                · exact collectDeclaredFromPattern_mono _ _ x hx
                · exact hx
  · exact hx
  termination_by sizeOf pattern
  decreasing_by
    all_goals simp_wf
    all_goals (try subst_vars)
    all_goals first
      | exact sizeOf_fieldOr_node_lt _ _
      | exact sizeOf_getNodeArray_getField_lt _ _
      | exact sizeOf_fieldOr_node_lt_norm _ _
      | exact sizeOf_getNodeArray_getField_lt_norm _ _

theorem cdpPropsLoop_mono (props : List JVal) (target : List String) :
    ∀ x ∈ target, x ∈ cdpPropsLoop props target := by
  intro x hx
  rw [cdpPropsLoop.eq_def]
  split
  · exact hx
  · next prop rest =>
    dsimp only
    refine cdpPropsLoop_mono _ _ x ?_
    split
    · exact collectDeclaredFromPattern_mono _ _ x hx
    · split
      · exact collectDeclaredFromPattern_mono _ _ x hx
      · split
        · exact collectDeclaredFromPattern_mono _ _ x hx
        · exact hx
  termination_by sizeOf props
  decreasing_by
    all_goals simp_wf
    all_goals (try subst_vars)
    all_goals first
      | exact sizeOf_fieldOr_lt_cons _ _ _
      | exact sizeOf_tail_lt_cons _ _
      | exact sizeOf_fieldOr_lt_cons_norm _ _ _
      | exact sizeOf_tail_lt_cons_norm _ _

theorem cdpElemsLoop_mono (elems : List JVal) (target : List String) :
    ∀ x ∈ target, x ∈ cdpElemsLoop elems target := by
  intro x hx
  rw [cdpElemsLoop.eq_def]
  split
  · exact hx
  · next element rest =>
    dsimp only
    refine cdpElemsLoop_mono _ _ x ?_
    split
    · exact collectDeclaredFromPattern_mono _ _ x hx
    · exact collectDeclaredFromPattern_mono _ _ x hx
  termination_by sizeOf elems
  decreasing_by
    all_goals simp_wf
    all_goals (try subst_vars)
    all_goals first
      | exact sizeOf_fieldOr_lt_cons _ _ _
      | exact sizeOf_head_lt_cons _ _
      | exact sizeOf_tail_lt_cons _ _
      | exact sizeOf_fieldOr_lt_cons_norm _ _ _
      | exact sizeOf_head_lt_cons_norm _ _
      | exact sizeOf_tail_lt_cons_norm _ _

end

theorem getD_append_self {l : List (List String)} {s : List String} :
    (l ++ [s]).getD l.length [] = s := by
  rw [List.getD_eq_getElem?_getD, List.getElem?_append_right (le_refl _)]
  simp

/-- Growing the innermost (pushed) scope preserves the invariant. -/
theorem StackInv.lastGrow {scopes : List (List String)} {s s' out}
    (h : ∀ x ∈ s, x ∈ s') :
    StackInv (scopes ++ [s]) out (scopes ++ [s'], out) := by
  refine ⟨by simp, ?_, fun _ hx => hx, fun n hn => Or.inl hn⟩
  intro i x hx
  by_cases hi : i < scopes.length
  · rwa [getD_append_lt hi] at hx ⊢
  · by_cases hieq : i = scopes.length
    · subst hieq
      rw [getD_append_self] at hx ⊢
      exact h x hx
    · rw [getD_ge_length (by simp; omega)] at hx
      simp at hx

set_option maxHeartbeats 1600000

mutual

/-- The analyzer only grows scopes and `out`, and every name it adds to
`out` was free in (absent from every scope of) the incoming stack. -/
theorem collectReferences_inv (v : JVal) (scopes : List (List String))
    (out : List String) (parent : Option JVal) :
    StackInv scopes out (collectReferences v scopes out parent) := by
  rw [collectReferences.eq_def]
  split
  · dsimp only
    split
    · exact StackInv.refl _ _
    · split
      · exact StackInv.refl _ _
      · split
        · split
          · split
            · next h => exact StackInv.addName (mem_of_not_isDeclared h.2.2)
            · exact StackInv.refl _ _
          · exact StackInv.refl _ _
        · split
          · exact StackInv.refl _ _
          · split
            · exact StackInv.pushPop
                (StackInv.trans (crParamsLoop_inv _ _ scopes out _ rfl)
                  (collectReferences_inv _ _ _ _))
            · split
              · exact StackInv.pushPop (crStmtsLoop_inv _ _ _ _)
              · split
                · exact StackInv.pushPop (crStmtsLoop_inv _ _ _ _)
                · split
                  · exact crDeclsLoop_inv _ _ _
                  · split
                    · split
                      · split
                        · exact ((StackInv.modifyLastGrow
                            (fun s x hx => (mem_nsAdd s _ x).mpr
                              (Or.inl hx))).trans
                            (collectReferences_inv _ _ _ _)).trans
                            (crClassBodyLoop_inv _ _ _)
                        · exact (collectReferences_inv _ _ _ _).trans
                            (crClassBodyLoop_inv _ _ _)
                      · split
                        · exact (StackInv.modifyLastGrow
                            (fun s x hx => (mem_nsAdd s _ x).mpr
                              (Or.inl hx))).trans
                            (crClassBodyLoop_inv _ _ _)
                        · exact crClassBodyLoop_inv _ _ _
                    · split
                      · split
                        · exact (collectReferences_inv _ _ _ _).trans
                            (collectReferences_inv _ _ _ _)
                        · exact collectReferences_inv _ _ _ _
                      · exact crFieldsLoop_inv _ _ _ _
  · exact StackInv.refl _ _
  termination_by sizeOf v
  decreasing_by
    all_goals simp_wf
    all_goals (try subst_vars)
    all_goals first
      | omega
      | exact sizeOf_fieldOr_node_lt _ _
      | exact sizeOf_fieldOr_node_lt_norm _ _
      | exact sizeOf_getNodeArray_getField_lt _ _
      | exact sizeOf_getNodeArray_getField_lt_norm _ _
      | exact sizeOf_fieldOr_lt_cons _ _ _
      | exact sizeOf_fieldOr_lt_cons_norm _ _ _
      | exact sizeOf_head_lt_cons _ _
      | exact sizeOf_head_lt_cons_norm _ _
      | exact sizeOf_tail_lt_cons _ _
      | exact sizeOf_tail_lt_cons_norm _ _
      | (apply Nat.lt_of_le_of_lt (sizeOf_getNodeArray_getField_le _ _);
         first
           | exact sizeOf_fieldOr_node_lt _ _
           | exact sizeOf_fieldOr_node_lt_norm _ _)
      | (apply Nat.lt_of_le_of_lt (sizeOf_fieldOr_le _ _); omega)
      | (apply Nat.lt_of_le_of_lt (sizeOf_fieldOr_le _ _); simp;
         all_goals omega)
      | (apply Nat.lt_of_le_of_lt (sizeOf_arrElems_le _); omega)
      | (simp; all_goals omega)
      | (apply Nat.lt_of_le_of_lt (sizeOf_fieldOr_le _ _); simp;
         all_goals omega)
      | (apply Nat.lt_of_le_of_lt (sizeOf_arrElems_le _); simp;
         all_goals omega)

/-- Parameter loop: stated over the virtual stack `scopes ++ [scope]`,
since the source keeps the function scope in a separate variable. -/
theorem crParamsLoop_inv (params : List JVal) (scope : List String)
    (scopes : List (List String)) (out : List String)
    (r : List String × List (List String) × List String)
    (hr : crParamsLoop params scope scopes out = r) :
    StackInv (scopes ++ [scope]) out (r.2.1 ++ [r.1], r.2.2) := by
  rw [crParamsLoop.eq_def] at hr
  split at hr
  · subst hr
    exact StackInv.refl _ _
  · next p rest =>
    dsimp only at hr
    split at hr
    · subst hr
      have h2 := collectReferences_inv (fieldOr p "right")
        (scopes ++ [collectDeclaredFromPattern p scope]) out (some p)
      generalize hres : collectReferences (fieldOr p "right")
        (scopes ++ [collectDeclaredFromPattern p scope]) out (some p) = res
        at h2 ⊢
      have hne : res.1 ≠ [] := by
        have hl := h2.1
        intro hcon
        rw [hcon] at hl
        simp at hl
      have h3 := crParamsLoop_inv rest (res.1.getLastD []) res.1.dropLast
        res.2 _ rfl
      rw [dropLast_append_getLastD hne] at h3
      exact (StackInv.lastGrow
        (collectDeclaredFromPattern_mono p scope)).trans (h2.trans h3)
    · subst hr
      exact (StackInv.lastGrow
        (collectDeclaredFromPattern_mono p scope)).trans
        (crParamsLoop_inv rest (collectDeclaredFromPattern p scope)
          scopes out _ rfl)
  termination_by sizeOf params
  decreasing_by
    all_goals simp_wf
    all_goals (try subst_vars)
    all_goals first
      | omega
      | exact sizeOf_fieldOr_lt_cons _ _ _
      | exact sizeOf_fieldOr_lt_cons_norm _ _ _
      | exact sizeOf_head_lt_cons _ _
      | exact sizeOf_head_lt_cons_norm _ _
      | exact sizeOf_tail_lt_cons _ _
      | exact sizeOf_tail_lt_cons_norm _ _

theorem crStmtsLoop_inv (stmts : List JVal) (parentNode : JVal)
    (scopes : List (List String)) (out : List String) :
    StackInv scopes out (crStmtsLoop stmts parentNode scopes out) := by
  rw [crStmtsLoop.eq_def]
  split
  · exact StackInv.refl _ _
  · next stmt rest =>
    dsimp only
    exact (collectReferences_inv stmt scopes out (some parentNode)).trans
      (crStmtsLoop_inv rest parentNode _ _)
  termination_by sizeOf stmts
  decreasing_by
    all_goals simp_wf
    all_goals (try subst_vars)
    all_goals first
      | omega
      | exact sizeOf_head_lt_cons _ _
      | exact sizeOf_head_lt_cons_norm _ _
      | exact sizeOf_tail_lt_cons _ _
      | exact sizeOf_tail_lt_cons_norm _ _

theorem crDeclsLoop_inv (decls : List JVal) (scopes : List (List String))
    (out : List String) :
    StackInv scopes out (crDeclsLoop decls scopes out) := by
  rw [crDeclsLoop.eq_def]
  split
  · exact StackInv.refl _ _
  · next decl rest =>
    dsimp only
    exact ((StackInv.modifyLastGrow
      (fun s x hx =>
        collectDeclaredFromPattern_mono (fieldOr decl "id") s x hx)).trans
      (collectReferences_inv (fieldOr decl "init") _ _ (some decl))).trans
      (crDeclsLoop_inv rest _ _)
  termination_by sizeOf decls
  decreasing_by
    all_goals simp_wf
    all_goals (try subst_vars)
    all_goals first
      | omega
      | exact sizeOf_fieldOr_lt_cons _ _ _
      | exact sizeOf_fieldOr_lt_cons_norm _ _ _
      | exact sizeOf_tail_lt_cons _ _
      | exact sizeOf_tail_lt_cons_norm _ _

theorem crClassBodyLoop_inv (elements : List JVal)
    (scopes : List (List String)) (out : List String) :
    StackInv scopes out (crClassBodyLoop elements scopes out) := by
  rw [crClassBodyLoop.eq_def]
  split
  · exact StackInv.refl _ _
  · next element rest =>
    dsimp only
    exact (collectReferences_inv element scopes out (some element)).trans
      (crClassBodyLoop_inv rest _ _)
  termination_by sizeOf elements
  decreasing_by
    all_goals simp_wf
    all_goals (try subst_vars)
    all_goals first
      | omega
      | exact sizeOf_head_lt_cons _ _
      | exact sizeOf_head_lt_cons_norm _ _
      | exact sizeOf_tail_lt_cons _ _
      | exact sizeOf_tail_lt_cons_norm _ _

theorem crFieldsLoop_inv (fields : List (String × JVal)) (parentNode : JVal)
    (scopes : List (List String)) (out : List String) :
    StackInv scopes out (crFieldsLoop fields parentNode scopes out) := by
  rw [crFieldsLoop.eq_def]
  split
  · exact StackInv.refl _ _
  · dsimp only
    refine StackInv.trans ?_ (crFieldsLoop_inv _ parentNode _ _)
    split
    · exact StackInv.refl _ _
    · split
      · exact StackInv.refl _ _
      · split
        · exact crArrChildLoop_inv _ _ _ _
        · split
          · split
            · exact (collectReferences_inv _ scopes out
                (some parentNode)).trans
                (collectReferences_inv _ _ _ (some parentNode))
            · exact collectReferences_inv _ scopes out (some parentNode)
          · exact StackInv.refl _ _
  termination_by sizeOf fields
  decreasing_by
    all_goals simp_wf
    all_goals (try subst_vars)
    all_goals first
      | omega
      | exact sizeOf_fieldOr_node_lt _ _
      | exact sizeOf_fieldOr_node_lt_norm _ _
      | exact sizeOf_fieldOr_lt_cons _ _ _
      | exact sizeOf_fieldOr_lt_cons_norm _ _ _
      | exact sizeOf_tail_lt_cons _ _
      | exact sizeOf_tail_lt_cons_norm _ _
      | (apply Nat.lt_of_le_of_lt (sizeOf_fieldOr_le _ _); omega)
      | (apply Nat.lt_of_le_of_lt (sizeOf_fieldOr_le _ _); simp;
         all_goals omega)
      | (apply Nat.lt_of_le_of_lt (sizeOf_arrElems_le _); omega)
      | (simp; all_goals omega)
      | (apply Nat.lt_of_le_of_lt (sizeOf_fieldOr_le _ _); simp;
         all_goals omega)
      | (apply Nat.lt_of_le_of_lt (sizeOf_arrElems_le _); simp;
         all_goals omega)

theorem crArrChildLoop_inv (elems : List JVal) (parentNode : JVal)
    (scopes : List (List String)) (out : List String) :
    StackInv scopes out (crArrChildLoop elems parentNode scopes out) := by
  rw [crArrChildLoop.eq_def]
  split
  · exact StackInv.refl _ _
  · dsimp only
    refine StackInv.trans ?_ (crArrChildLoop_inv _ parentNode _ _)
    split
    · split
      · refine StackInv.trans ?_
          (collectReferences_inv _ _ _ (some parentNode))
        split
        · exact collectReferences_inv _ scopes out (some parentNode)
        · exact StackInv.refl _ _
      · split
        · exact collectReferences_inv _ scopes out (some parentNode)
        · exact StackInv.refl _ _
    · exact StackInv.refl _ _
  termination_by sizeOf elems
  decreasing_by
    all_goals simp_wf
    all_goals (try subst_vars)
    all_goals first
      | omega
      | exact sizeOf_fieldOr_lt_cons _ _ _
      | exact sizeOf_fieldOr_lt_cons_norm _ _ _
      | exact sizeOf_head_lt_cons _ _
      | exact sizeOf_head_lt_cons_norm _ _
      | exact sizeOf_tail_lt_cons _ _
      | exact sizeOf_tail_lt_cons_norm _ _
      | (apply Nat.lt_of_le_of_lt (sizeOf_fieldOr_le _ _); omega)
      | (apply Nat.lt_of_le_of_lt (sizeOf_fieldOr_le _ _); simp;
         all_goals omega)

end

/-- A minimal top-level function declaration, used to instantiate C8. -/
def c8body : JVal :=
  .node [("type", .str "BlockStatement"), ("stmts", .arr [])]

def c8stmt : JVal :=
  .node [("type", .str "FunctionDeclaration"),
    ("identifier", .node [("type", .str "Identifier"), ("value", .str "f")]),
    ("params", .arr []),
    ("body", c8body)]

def c8info : DeclarationInfo := ⟨c8stmt, [], ["f"], []⟩

/-- The analyzer does nothing on an empty block body. -/
theorem emptyBlock_collectReferences (scopes : List (List String))
    (out : List String) (parent : Option JVal) :
    collectReferences (.node [("type", .str "BlockStatement"),
      ("stmts", .arr [])]) scopes out parent = (scopes, out) := by
  rw [collectReferences.eq_def]
  simp +decide [isTypeOnlyNode, getNodeType, JVal.getField, JVal.lookupField,
    isRefSkippedType, getNodeArray, crStmtsLoop.eq_def]

theorem c8stmt_collectReferences :
    collectReferences c8stmt [["f"]] [] none = ([["f"]], []) := by
  rw [collectReferences.eq_def]
  simp +decide [c8stmt, c8body, isTypeOnlyNode, getNodeType, JVal.getField,
    JVal.lookupField, isRefSkippedType, getNodeArray, identName,
    getIdentifierValue, fieldOr, emptyBlock_collectReferences,
    crParamsLoop.eq_def, TS_VALUE_WRAPPERS]

theorem c8stmt_info :
    collectTopLevelDeclarationInfo c8stmt [] 0 none = some c8info := by
  have hA : scopeDeclTarget c8stmt = c8stmt := by decide
  have hB : getNodeType c8stmt = some "FunctionDeclaration" := by decide
  have hC : getIdentifierValue (c8stmt.getField "identifier") = some "f" := by
    decide
  rw [collectTopLevelDeclarationInfo]
  simp +decide [hA, hB, hC, c8stmt_collectReferences, c8info, jstrSlice]

/-- Claim C8: for every top-level value declaration accepted by
`collectTopLevelDeclarationInfo` (function, variable(s) with destructured
names, class, or enum, optionally unwrapped from one export wrapper), the
resulting entry's dependency set — the free references computed with the
declared names seeded in the initial scope stack — contains no name from
the same entry's declared set. -/
theorem declarationInfo_deps_disjoint (stmt : JVal) (code : JStr)
    (offset : Nat) (toIndex : Option (Int → Nat)) (info : DeclarationInfo)
    (h : collectTopLevelDeclarationInfo stmt code offset toIndex = some info) :
    ∀ n ∈ info.dependencies, n ∉ info.declared := by
  rw [collectTopLevelDeclarationInfo] at h
  dsimp only at h
  split at h
  · exact absurd h (by simp)
  · split at h
    · exact absurd h (by simp)
    · have h2 := Option.some.inj h
      subst h2
      dsimp only
      intro n hn hmem
      rcases (collectReferences_inv _ _ _ _).2.2.2 n hn with h1 | h3
      · simp at h1
      · exact h3 0 (by simpa using hmem)

/-- Closed instance of C8: the entry built for a minimal top-level
function declaration has dependencies disjoint from its declared name. -/
theorem declarationInfo_deps_disjoint_witness :
    collectTopLevelDeclarationInfo c8stmt [] 0 none = some c8info ∧
    ∀ n ∈ c8info.dependencies, n ∉ c8info.declared :=
  ⟨c8stmt_info,
   declarationInfo_deps_disjoint c8stmt [] 0 none c8info c8stmt_info⟩

/-! ## Callable-use safety check (C6) -/

/-- Chains of traversal steps: `ChainTo root ancestors leaf` holds when
`leaf` is reached from `root` through the object children relation, with
`ancestors` listing the visited inner nodes from `root` down to the
parent of `leaf`. -/
inductive ChainTo : JVal → List JVal → JVal → Prop where
  | nil (v : JVal) : ChainTo v [] v
  | cons (fields : List (String × JVal)) (c : JVal) (rest : List JVal)
      (leaf : JVal) (hc : c ∈ nodeChildren fields)
      (h : ChainTo c rest leaf) :
      ChainTo (.node fields) (JVal.node fields :: rest) leaf

/-- A scope node that rebinds `name` (the target function's own
declaration does not count, matching `collectScopeDeclarations`). -/
def rebindsName (name : String) (target : JVal) (a : JVal) : Bool :=
  isScopeNodeType (getNodeType a) &&
  decide (name ∈ collectScopeDeclarations a [] (some target))

/-- The parent of the chain's leaf: the last ancestor, or the incoming
parent when the chain is empty. -/
def lastParent (p : Option JVal) : List JVal → Option JVal
  | [] => p
  | a :: rest => lastParent (some a) rest

theorem scopeShadow_eq (name : String) (target : JVal)
    (fields : List (String × JVal)) :
    (if isScopeNodeType (getNodeType (.node fields)) then
      if name ∈ collectScopeDeclarations (.node fields) [] (some target)
      then 1 else 0
     else 0) =
    if rebindsName name target (.node fields) then 1 else 0 := by
  rw [rebindsName]
  by_cases h1 : isScopeNodeType (getNodeType (JVal.node fields)) = true
  · by_cases h2 :
      name ∈ collectScopeDeclarations (JVal.node fields) [] (some target)
    · simp [h1, h2]
    · simp [h1, h2]
  · simp [Bool.not_eq_true] at h1
    simp [h1]

theorem filter_cons_shadow (name : String) (target : JVal) (shadow : Nat)
    (fields : List (String × JVal)) (anc : List JVal) :
    shadow + (List.filter (fun a => rebindsName name target a)
      (JVal.node fields :: anc)).length =
    shadow + (if isScopeNodeType (getNodeType (.node fields)) then
        if name ∈ collectScopeDeclarations (.node fields) [] (some target)
        then 1 else 0 else 0) +
      (List.filter (fun a => rebindsName name target a) anc).length := by
  rw [scopeShadow_eq, List.filter_cons]
  by_cases hreb : rebindsName name target (JVal.node fields) = true
  · simp only [hreb, if_true, List.length_cons]
    omega
  · rw [Bool.not_eq_true] at hreb
    simp only [hreb, Bool.false_eq_true, if_false]
    omega

theorem hasUnsafeRec_iff (v : JVal) (parent : Option JVal) (shadow : Nat)
    (name : String) (target : JVal) :
    hasUnsafeRec v parent shadow name target = true ↔
    ∃ ancestors leaf, ChainTo v ancestors leaf ∧
      leaf ≠ target ∧ (∀ a ∈ ancestors, a ≠ target) ∧
      unsafeIdentMatch leaf (lastParent parent ancestors)
        (shadow +
          (ancestors.filter (fun a => rebindsName name target a)).length)
        name = true := by
  rw [hasUnsafeRec.eq_def]
  split
  · next heq =>
    subst heq
    simp only [Bool.false_eq_true, false_iff]
    rintro ⟨ancestors, leaf, hchain, hleaf, hanc, hmatch⟩
    cases hchain with
    | nil => exact hleaf rfl
    | cons fields c rest leaf hc h => exact hanc _ (by simp) rfl
  · next hne =>
    split
    · next hm =>
      simp only [true_iff]
      exact ⟨[], v, ChainTo.nil v, hne, by simp, by simpa using hm⟩
    · next hnm =>
      split
      · next fields =>
        dsimp only
        rw [List.any_eq_true]
        constructor
        · rintro ⟨c, hcmem, hcrec⟩
          have hih := (hasUnsafeRec_iff c.1 (some (.node fields))
            (shadow + (if isScopeNodeType (getNodeType (.node fields)) then
              if name ∈ collectScopeDeclarations (.node fields) []
                (some target) then 1 else 0 else 0)) name target).mp hcrec
          obtain ⟨anc, leaf, hchain, hleaf, hanc, hmatch⟩ := hih
          refine ⟨JVal.node fields :: anc, leaf,
            ChainTo.cons fields c.1 anc leaf c.2 hchain, hleaf, ?_, ?_⟩
          · intro a ha
            rcases List.mem_cons.mp ha with h1 | h1
            · subst h1; exact hne
            · exact hanc a h1
          · rw [show lastParent parent (JVal.node fields :: anc) =
                lastParent (some (JVal.node fields)) anc from rfl,
              filter_cons_shadow]
            exact hmatch
        · rintro ⟨ancestors, leaf, hchain, hleaf, hanc, hmatch⟩
          cases hchain with
          | nil =>
            exfalso
            rw [show lastParent parent ([] : List JVal) = parent from rfl]
              at hmatch
            simp at hmatch
            rw [hmatch] at hnm
            simp at hnm
          | cons fields2 c rest leaf2 hc h =>
            refine ⟨⟨c, hc⟩, List.mem_attach _ _, ?_⟩
            refine (hasUnsafeRec_iff c (some (.node fields)) _ name
              target).mpr ⟨rest, leaf, h, hleaf, ?_, ?_⟩
            · intro a ha
              exact hanc a (List.mem_cons_of_mem _ ha)
            · rw [show lastParent parent (JVal.node fields :: rest) =
                lastParent (some (JVal.node fields)) rest from rfl,
                filter_cons_shadow] at hmatch
              exact hmatch
      · next hnode =>
        simp only [Bool.false_eq_true, false_iff]
        rintro ⟨ancestors, leaf, hchain, hleaf, hanc, hmatch⟩
        cases hchain with
        | nil =>
          simp only [unsafeIdentMatch, Bool.and_eq_true,
            decide_eq_true_eq] at hmatch
          have hid := hmatch.1.1.1.1
          cases v with
          | node fields => exact hnode fields rfl
          | null => simp [getNodeType, JVal.getField] at hid
          | bool b => simp [getNodeType, JVal.getField] at hid
          | num x => simp [getNodeType, JVal.getField] at hid
          | str s => simp [getNodeType, JVal.getField] at hid
          | arr l => simp [getNodeType, JVal.getField] at hid
        | cons fields c rest leaf hc h => exact hnode fields rfl
  termination_by sizeOf v
  decreasing_by
    all_goals simp_wf
    all_goals (try subst_vars)
    all_goals first
      | exact sizeOf_lt_of_mem_nodeChildren c.2
      | exact sizeOf_lt_of_mem_nodeChildren hc

theorem filter_eq_nil_of_false {f : JVal → Bool} {l : List JVal}
    (h : ∀ a ∈ l, f a = false) : l.filter f = [] := by
  induction l with
  | nil => rfl
  | cons x xs ih =>
    rw [List.filter_cons]
    simp only [h x (by simp), Bool.false_eq_true, if_false]
    exact ih fun a ha => h a (List.mem_cons_of_mem _ ha)

/-- Claim C6: for a handler that is a function declaration (bare or
export-prefixed) or a named export-default function, a use of its name as
a call target, new target, or tagged-template tag anywhere outside the
handler aborts the transform with a fatal error naming the handler; and
`hasUnsafeCallableUsages` holds exactly when such a use is reachable
through a chain of ancestors none of which is a scope that rebinds the
name (shadowed occurrences are ignored). -/
theorem callableUsage_aborts
    (env : HostEnv) (code absoluteId : JStr) (offset : Nat) (toIdx : Int → Nat)
    (ast : JVal) (importMap : List (String × ImportInfo))
    (declMap : List (String × DeclarationInfo)) (fileHash normalizedId : JStr)
    (policy : UnresolvedPolicy) (emitCount : Nat) (node : JVal)
    (parent : Option JVal) (n : String)
    (hname : getIdentifierValue (node.getField "identifier") = some n)
    (hn : n ≠ "")
    (hform : getNodeType node = some "FunctionDeclaration" ∨
      ((match parent with | some p => getNodeType p | none => none) =
          some "ExportDefaultDeclaration" ∧
        getNodeType node = some "FunctionExpression"))
    (hcu : hasUnsafeCallableUsages ast n node = true) :
    processOneHandler env code absoluteId offset toIdx ast importMap declMap
        fileHash normalizedId policy emitCount node parent =
      .error (callableMsg n absoluteId) ∧
    (∀ (root : JVal) (nm : String) (target : JVal),
      hasUnsafeCallableUsages root nm target = true ↔
      ∃ ancestors leaf, ChainTo root ancestors leaf ∧
        leaf ≠ target ∧ (∀ a ∈ ancestors, a ≠ target) ∧
        (∀ a ∈ ancestors, rebindsName nm target a = false) ∧
        unsafeIdentMatch leaf (lastParent none ancestors) 0 nm = true) := by
  constructor
  · rcases hform with hf | ⟨hp, hf⟩
    · simp [processOneHandler, hname, hf, hn, hcu]
    · simp [processOneHandler, hname, hp, hf, hn, hcu]
  · intro root nm target
    rw [hasUnsafeCallableUsages, hasUnsafeRec_iff]
    constructor
    · rintro ⟨anc, leaf, hchain, hleaf, hanc, hmatch⟩
      have hS : 0 + (anc.filter
          (fun a => rebindsName nm target a)).length = 0 := by
        have hm2 := hmatch
        simp only [unsafeIdentMatch, Bool.and_eq_true,
          decide_eq_true_eq] at hm2
        exact hm2.1.1.2
      refine ⟨anc, leaf, hchain, hleaf, hanc, ?_, ?_⟩
      · intro a ha
        by_contra hcon
        rw [Bool.not_eq_false] at hcon
        have hmem : a ∈ anc.filter (fun a => rebindsName nm target a) :=
          List.mem_filter.mpr ⟨ha, hcon⟩
        have hlen : (anc.filter
            (fun a => rebindsName nm target a)).length = 0 := by omega
        rw [List.length_eq_zero] at hlen
        rw [hlen] at hmem
        simp at hmem
      · rw [hS] at hmatch
        exact hmatch
    · rintro ⟨anc, leaf, hchain, hleaf, hanc, hreb, hmatch⟩
      refine ⟨anc, leaf, hchain, hleaf, hanc, ?_⟩
      have hnil : anc.filter (fun a => rebindsName nm target a) = [] :=
        filter_eq_nil_of_false hreb
      rw [hnil]
      simpa using hmatch

/-- A program whose handler `g` is also called as `g()`, for C6. -/
def c6fn : JVal :=
  .node [("type", .str "FunctionDeclaration"),
    ("identifier", .node [("type", .str "Identifier"), ("value", .str "g")]),
    ("params", .arr []),
    ("body", .node [("type", .str "BlockStatement"), ("stmts", .arr [])])]

def c6callee : JVal := .node [("type", .str "Identifier"), ("value", .str "g")]

def c6call : JVal :=
  .node [("type", .str "CallExpression"), ("callee", c6callee),
    ("arguments", .arr [])]

def c6stmt : JVal :=
  .node [("type", .str "ExpressionStatement"), ("expression", c6call)]

def c6ast : JVal :=
  .node [("type", .str "Program"), ("body", .arr [c6fn, c6stmt])]

def c6env : HostEnv := ⟨fun _ => [], fun _ => [], fun _ => [], fun _ => []⟩

theorem c6callableUse : hasUnsafeCallableUsages c6ast "g" c6fn = true := by
  refine (hasUnsafeRec_iff c6ast none 0 "g" c6fn).mpr
    ⟨[c6ast, c6stmt, c6call], c6callee, ?_, by decide, by decide, ?_⟩
  · exact ChainTo.cons
      [("type", .str "Program"), ("body", .arr [c6fn, c6stmt])]
      c6stmt [c6stmt, c6call] c6callee (by decide)
      (ChainTo.cons
        [("type", .str "ExpressionStatement"), ("expression", c6call)]
        c6call [c6call] c6callee (by decide)
        (ChainTo.cons
          [("type", .str "CallExpression"), ("callee", c6callee),
            ("arguments", .arr [])]
          c6callee [] c6callee (by decide) (ChainTo.nil c6callee)))
  · decide

/-- Closed instance of C6: a program calling its inline handler `g()`
makes the per-handler transform step abort with the callable-use error. -/
theorem callableUsage_aborts_witness :
    hasUnsafeCallableUsages c6ast "g" c6fn = true ∧
    processOneHandler c6env [] [] 0 (fun _ => 0) c6ast [] [] [] []
        UnresolvedPolicy.warn 0 c6fn none = .error (callableMsg "g" []) :=
  ⟨c6callableUse,
   (callableUsage_aborts c6env [] [] 0 (fun _ => 0) c6ast [] [] [] []
     UnresolvedPolicy.warn 0 c6fn none "g" (by decide) (by decide)
     (Or.inl (by decide)) c6callableUse).1⟩

/-! ## Replacement planner forms (C7) -/

/-- Claim C7: for every handler, with U the
`new URL(import.meta.ROLLUP_FILE_URL_<ref>).pathname` expression, the
planner produces exactly: `const <Name> = U; export default <Name>;` for a
named export-default function, `export const <Name> = U;` for an
export-prefixed function declaration, `const <Name> = U;` for a bare
top-level function declaration, and U alone for an arrow or function
expression in expression position. -/
theorem replacement_forms (nodeType parentType functionName : Option String)
    (span : Nat × Nat) (rv : JStr) :
    (∀ n, functionName = some n → n ≠ "" →
      parentType = some "ExportDefaultDeclaration" →
      (nodeType = some "FunctionDeclaration" ∨
        nodeType = some "FunctionExpression") →
      plannedReplacement nodeType parentType functionName span rv =
        some ⟨span.1, span.2,
          jstr "const " ++ jstr n ++ jstr " = " ++ rv ++
            jstr "; export default " ++ jstr n ++ jstr ";"⟩) ∧
    (∀ n, functionName = some n → n ≠ "" →
      nodeType = some "FunctionDeclaration" →
      parentType = some "ExportDeclaration" →
      plannedReplacement nodeType parentType functionName span rv =
        some ⟨span.1, span.2,
          jstr "export const " ++ jstr n ++ jstr " = " ++ rv ++ jstr ";"⟩) ∧
    (∀ n, functionName = some n → n ≠ "" →
      nodeType = some "FunctionDeclaration" →
      parentType ≠ some "ExportDeclaration" →
      parentType ≠ some "ExportDefaultDeclaration" →
      plannedReplacement nodeType parentType functionName span rv =
        some ⟨span.1, span.2,
          jstr "const " ++ jstr n ++ jstr " = " ++ rv ++ jstr ";"⟩) ∧
    (nodeType ≠ some "FunctionDeclaration" →
      (¬ (parentType = some "ExportDefaultDeclaration" ∧
        nodeType = some "FunctionExpression" ∧
        ∃ n, functionName = some n ∧ n ≠ "")) →
      plannedReplacement nodeType parentType functionName span rv =
        some ⟨span.1, span.2, rv⟩) := by
  refine ⟨?_, ?_, ?_, ?_⟩
  · rintro n rfl hn hp hf
    rcases hf with hf | hf
    · simp [plannedReplacement, hf, hp, hn]
    · simp [plannedReplacement, hf, hp, hn]
  · rintro n rfl hn hf hp
    have hconst : jstr "export " ++ jstr "const " = jstr "export const " := by
      decide
    simp only [plannedReplacement, hf, hp]
    simp [hn, hconst]
  · rintro n rfl hn hf hp1 hp2
    simp [plannedReplacement, hf, hp1, hp2, hn]
  · intro hf hnd
    rw [plannedReplacement.eq_def]
    dsimp only
    rw [if_neg]
    simp only [Bool.or_eq_true, decide_eq_true_eq, Bool.and_eq_true]
    rintro (h1 | ⟨⟨hp, hn⟩, hname⟩)
    · exact hf h1
    · refine hnd ⟨hp, hn, ?_⟩
      match hfn : functionName with
      | some n =>
        simp at hname
        exact ⟨n, rfl, hname⟩
      | none =>
        simp at hname

/-- Closed instance of C7: a bare function declaration named `g` plans
`const g = U;`, and an arrow handler plans the bare URL expression. -/
theorem replacement_forms_witness :
    plannedReplacement (some "FunctionDeclaration") none (some "g") (0, 5)
        (jstr "U") =
      some ⟨0, 5, jstr "const " ++ jstr "g" ++ jstr " = " ++ jstr "U" ++
        jstr ";"⟩ ∧
    plannedReplacement (some "ArrowFunctionExpression") none none (0, 5)
        (jstr "U") = some ⟨0, 5, jstr "U"⟩ :=
  ⟨(replacement_forms (some "FunctionDeclaration") none (some "g") (0, 5)
      (jstr "U")).2.2.1 "g" rfl (by decide) rfl (by decide) (by decide),
   (replacement_forms (some "ArrowFunctionExpression") none none (0, 5)
      (jstr "U")).2.2.2 (by decide) (by simp)⟩

/-! ## Side-effect import check (C5) -/

/-- Claim C5: for a transformed module with at least one qualifying
handler, an import declaration with zero specifiers that is not type-only
makes the transform abort with a fatal module-level error whose message
carries the trimmed source slice of the offending import statement, and no
rewritten code is returned. -/
theorem sideEffectImport_aborts (env : HostEnv) (opts : PluginOptions) (code id : JStr)
    (ast first : JVal) (rest : List JVal)
    (hid : id.headD 0 ≠ 0)
    (hmay : maybeContainsUseClient code = true)
    (hfns : findInlineFunctions ast ≠ [])
    (hfilter : (getNodeArray (ast.getField "body")).filter
      (fun stmt =>
        getNodeType stmt = some "ImportDeclaration" ∧
        getNodeArray (stmt.getField "specifiers") = [] ∧
        stmt.getField "typeOnly" ≠ some (.bool true)) = first :: rest) :
    transformHandler env opts code id (.ok ast) =
      .error (sideEffectMsg
        (if isAbsolutePath id then id else env.resolvePath id)
        (jstrTrim (jstrSlice code
          (getStart first (getSwcSpanBaseOffset ast code)
            (some (createByteOffsetLookup code)))
          (getEnd first (getSwcSpanBaseOffset ast code)
            (some (createByteOffsetLookup code)))))) := by
  have hlen : findInlineFunctions ast ≠ [] → (findInlineFunctions ast).length ≠ 0 := by
    intro h hcon
    exact h (List.length_eq_zero.mp hcon)
  simp only [transformHandler]
  rw [if_neg hid, if_neg (by simp [hmay])]
  rw [if_neg (hlen hfns), hfilter]

theorem attach_flatMap {α β : Type} (l : List α) (g : α → List β) :
    (l.attach.flatMap fun c => g c.1) = l.flatMap g := by
  rw [List.flatMap_subtype, List.unattach_attach]
  intro x h
  rfl

/-- The stack traversal of `findInlineFunctions`, with the `attach`
bookkeeping removed. -/
theorem findInlineRec_step (fields : List (String × JVal))
    (parent : Option JVal) :
    findInlineRec (.node fields) parent =
    (if findInlineMatch (.node fields) then [(JVal.node fields, parent)]
      else []) ++
      ((nodeChildren fields).reverse.flatMap
        fun c => findInlineRec c (some (.node fields))) := by
  rw [findInlineRec.eq_def]
  dsimp only
  rw [attach_flatMap ((nodeChildren fields).reverse)
    (fun c => findInlineRec c (some (JVal.node fields)))]

abbrev c5strlit : JVal :=
  .node [("type", .str "StringLiteral"), ("value", .str "use client")]

abbrev c5dir : JVal :=
  .node [("type", .str "ExpressionStatement"), ("expression", c5strlit)]

abbrev c5block : JVal :=
  .node [("type", .str "BlockStatement"), ("stmts", .arr [c5dir])]

abbrev c5arrow : JVal :=
  .node [("type", .str "ArrowFunctionExpression"), ("params", .arr []),
    ("body", c5block)]

abbrev c5src : JVal :=
  .node [("type", .str "StringLiteral"), ("value", .str "./fx")]

abbrev c5import : JVal :=
  .node [("type", .str "ImportDeclaration"), ("specifiers", .arr []),
    ("source", c5src)]

abbrev c5ast : JVal :=
  .node [("type", .str "Module"), ("body", .arr [c5import, c5arrow])]

theorem c5rec_strlit (p : Option JVal) : findInlineRec c5strlit p = [] := by
  rw [findInlineRec_step]
  rw [show nodeChildren [("type", JVal.str "StringLiteral"),
    ("value", JVal.str "use client")] = [] from by decide]
  rw [if_neg (by decide)]
  rfl

theorem c5rec_dir (p : Option JVal) : findInlineRec c5dir p = [] := by
  rw [findInlineRec_step]
  rw [show nodeChildren [("type", JVal.str "ExpressionStatement"),
    ("expression", c5strlit)] = [c5strlit] from by decide]
  rw [if_neg (by decide)]
  simp [c5rec_strlit]

theorem c5rec_block (p : Option JVal) : findInlineRec c5block p = [] := by
  rw [findInlineRec_step]
  rw [show nodeChildren [("type", JVal.str "BlockStatement"),
    ("stmts", JVal.arr [c5dir])] = [c5dir] from by decide]
  rw [if_neg (by decide)]
  simp [c5rec_dir]

theorem c5rec_arrow (p : Option JVal) :
    findInlineRec c5arrow p = [(c5arrow, p)] := by
  rw [findInlineRec_step]
  rw [show nodeChildren [("type", JVal.str "ArrowFunctionExpression"),
    ("params", JVal.arr []), ("body", c5block)] = [c5block] from by decide]
  rw [if_pos (by decide)]
  simp [c5rec_block]

theorem c5rec_src (p : Option JVal) : findInlineRec c5src p = [] := by
  rw [findInlineRec_step]
  rw [show nodeChildren [("type", JVal.str "StringLiteral"),
    ("value", JVal.str "./fx")] = [] from by decide]
  rw [if_neg (by decide)]
  rfl

theorem c5rec_import (p : Option JVal) : findInlineRec c5import p = [] := by
  rw [findInlineRec_step]
  rw [show nodeChildren [("type", JVal.str "ImportDeclaration"),
    ("specifiers", JVal.arr []), ("source", c5src)] = [c5src] from by decide]
  rw [if_neg (by decide)]
  simp [c5rec_src]

theorem c5fns : findInlineFunctions c5ast = [(c5arrow, some c5ast)] := by
  rw [findInlineFunctions, if_pos (by decide)]
  rw [findInlineRec_step]
  rw [show nodeChildren [("type", JVal.str "Module"),
    ("body", JVal.arr [c5import, c5arrow])] = [c5import, c5arrow] from by
      decide]
  rw [if_neg (by decide)]
  simp [c5rec_import, c5rec_arrow]

def c5env : HostEnv := ⟨fun _ => [], fun _ => [], fun _ => [], fun _ => []⟩

/-- Closed instance of C5: a module with a side-effect import `./fx` and
one inline handler aborts with the side-effect-import error. -/
theorem sideEffectImport_aborts_witness :
    findInlineFunctions c5ast = [(c5arrow, some c5ast)] ∧
    transformHandler c5env ⟨none, none⟩ (jstr "\"use client\"")
        (jstr "/m.tsx") (.ok c5ast) =
      .error (sideEffectMsg
        (if isAbsolutePath (jstr "/m.tsx") then jstr "/m.tsx"
          else c5env.resolvePath (jstr "/m.tsx"))
        (jstrTrim (jstrSlice (jstr "\"use client\"")
          (getStart c5import
            (getSwcSpanBaseOffset c5ast (jstr "\"use client\""))
            (some (createByteOffsetLookup (jstr "\"use client\""))))
          (getEnd c5import
            (getSwcSpanBaseOffset c5ast (jstr "\"use client\""))
            (some (createByteOffsetLookup (jstr "\"use client\""))))))) :=
  ⟨c5fns,
   sideEffectImport_aborts c5env ⟨none, none⟩ (jstr "\"use client\"") (jstr "/m.tsx") c5ast
     c5import [] (by decide) (by decide)
     (by rw [c5fns]; simp) (by decide)⟩

/-! ## Modules without inline "use client" functions (C4) -/

/-- If no reachable node is an inline "use client" function, the finder
returns nothing. -/
theorem findInlineRec_empty (v : JVal) (parent : Option JVal)
    (h : ∀ ancestors leaf, ChainTo v ancestors leaf →
      findInlineMatch leaf = false) :
    findInlineRec v parent = [] := by
  match v with
  | .node fields =>
    rw [findInlineRec_step]
    rw [if_neg (by rw [h [] (.node fields) (ChainTo.nil _)]; simp)]
    rw [List.nil_append]
    rw [List.flatMap_eq_nil_iff]
    intro c hc
    refine findInlineRec_empty c (some (.node fields)) ?_
    intro anc leaf hchain
    exact h (JVal.node fields :: anc) leaf
      (ChainTo.cons fields c anc leaf (List.mem_reverse.mp hc) hchain)
  | .null | .bool _ | .num _ | .str _ | .arr _ =>
    rw [findInlineRec.eq_def]
  termination_by sizeOf v
  decreasing_by
    all_goals simp_wf
    all_goals (try subst_vars)
    all_goals first
      | exact sizeOf_lt_of_mem_nodeChildren (List.mem_reverse.mp hc)
      | (have h9 := sizeOf_lt_of_mem_nodeChildren (List.mem_reverse.mp hc);
         simp at h9; omega)

/-- Claim C4: a module whose text has no "use client" substring, and
likewise a module in which no reachable AST node is a block-bodied arrow,
function expression, or function declaration whose first statement is the
"use client" directive, is left unchanged by the transform: no output and
zero chunks. -/
theorem noUseClient_noop (env : HostEnv) (opts : PluginOptions) (code id : JStr)
    (parsed : Except JStr JVal) :
    (maybeContainsUseClient code = false →
      transformHandler env opts code id parsed = .ok ⟨none, [], [], []⟩) ∧
    (∀ ast : JVal,
      (∀ ancestors leaf, ChainTo ast ancestors leaf →
        findInlineMatch leaf = false) →
      transformHandler env opts code id (.ok ast) = .ok ⟨none, [], [], []⟩) := by
  constructor
  · intro h
    simp only [transformHandler]
    by_cases hid : id.headD 0 = 0
    · rw [if_pos hid]
    · rw [if_neg hid, if_pos (by simp [h])]
  · intro ast hno
    have hfe : findInlineFunctions ast = [] := by
      rw [findInlineFunctions]
      split
      · exact findInlineRec_empty ast none hno
      · rfl
    simp only [transformHandler]
    by_cases hid : id.headD 0 = 0
    · rw [if_pos hid]
    · rw [if_neg hid]
      by_cases hmay : maybeContainsUseClient code = true
      · rw [if_neg (by simp [hmay])]
        simp [hfe]
      · rw [if_pos (by simpa using hmay)]

abbrev c4ast : JVal := .node [("type", .str "Module"), ("body", .arr [])]

def c4env : HostEnv := ⟨fun _ => [], fun _ => [], fun _ => [], fun _ => []⟩

/-- Closed instance of C4: a module without the substring, and an empty
module parsed under a "use client" string, both pass through unchanged. -/
theorem noUseClient_noop_witness :
    transformHandler c4env ⟨none, none⟩ (jstr "export const x = 1;")
        (jstr "/m.tsx") (.ok .null) = .ok ⟨none, [], [], []⟩ ∧
    transformHandler c4env ⟨none, none⟩ (jstr "\"use client\"")
        (jstr "/m.tsx") (.ok c4ast) = .ok ⟨none, [], [], []⟩ :=
  ⟨(noUseClient_noop c4env ⟨none, none⟩ (jstr "export const x = 1;") (jstr "/m.tsx")
      (.ok .null)).1 (by decide),
   (noUseClient_noop c4env ⟨none, none⟩ (jstr "\"use client\"") (jstr "/m.tsx")
      (.ok c4ast)).2 c4ast (by
        intro anc leaf h
        cases h with
        | nil => decide
        | cons fields c rest leaf hc hch =>
          rw [show nodeChildren [("type", JVal.str "Module"),
            ("body", JVal.arr [])] = [] from by decide] at hc
          simp at hc)⟩

/-! ## Chunk naming (C9) -/

theorem decStr_digits (n : Nat) : ∀ u ∈ decStr n, 48 ≤ u ∧ u ≤ 57 := by
  intro u hu
  rw [decStr.eq_def] at hu
  split at hu
  · next h =>
    simp at hu
    omega
  · next h =>
    rcases List.mem_append.mp hu with h1 | h1
    · exact decStr_digits (n / 10) u h1
    · simp at h1
      have : n % 10 < 10 := Nat.mod_lt _ (by omega)
      omega
  termination_by n
  decreasing_by
    exact Nat.div_lt_self (by omega) (by omega)

theorem decStr_ne_nil (n : Nat) : decStr n ≠ [] := by
  rw [decStr.eq_def]
  split
  · simp
  · simp

theorem decStr_inj (m : Nat) : ∀ n, decStr m = decStr n → m = n := by
  intro n h
  rw [decStr.eq_def m, decStr.eq_def n] at h
  split at h
  · split at h
    · next h1 h2 =>
      simp at h
      omega
    · next h1 h2 =>
      have hl := congrArg List.length h
      simp at hl
      exact absurd hl (decStr_ne_nil _)
  · split at h
    · next h1 h2 =>
      have hl := congrArg List.length h
      simp at hl
      exact absurd hl (decStr_ne_nil _)
    · next h1 h2 =>
      obtain ⟨ha, hb⟩ := List.append_inj' h (by simp)
      have hq : m / 10 = n / 10 := decStr_inj (m / 10) (n / 10) ha
      simp at hb
      omega
  termination_by m
  decreasing_by
    exact Nat.div_lt_self (by omega) (by omega)

/-- A digit run followed by a `/`-headed tail tokenizes uniquely. -/
theorem digit_prefix_eq (d1 : JStr) : ∀ (d2 r1 r2 : JStr),
    (∀ u ∈ d1, 48 ≤ u ∧ u ≤ 57) → (∀ u ∈ d2, 48 ≤ u ∧ u ≤ 57) →
    r1.headD 0 = 47 → r2.headD 0 = 47 →
    d1 ++ r1 = d2 ++ r2 → d1 = d2 ∧ r1 = r2 := by
  induction d1 with
  | nil =>
    intro d2 r1 r2 hd1 hd2 hr1 hr2 he
    match d2 with
    | [] => exact ⟨rfl, he⟩
    | c :: t =>
      exfalso
      rw [List.nil_append] at he
      have : r1.headD 0 = c := by rw [he]; rfl
      have hc := hd2 c (by simp)
      omega
  | cons c t ih =>
    intro d2 r1 r2 hd1 hd2 hr1 hr2 he
    match d2 with
    | [] =>
      exfalso
      rw [List.nil_append] at he
      have : r2.headD 0 = c := by rw [← he]; rfl
      have hc := hd1 c (by simp)
      omega
    | c2 :: t2 =>
      rw [List.cons_append, List.cons_append] at he
      injection he with h1 h2
      obtain ⟨ha, hb⟩ := ih t2 r1 r2
        (fun u hu => hd1 u (List.mem_cons_of_mem _ hu))
        (fun u hu => hd2 u (List.mem_cons_of_mem _ hu)) hr1 hr2 h2
      exact ⟨by rw [h1, ha], hb⟩

/-- The hash key `fileHash ++ String(start) ++ normalizedId` splits
uniquely when the file hashes have equal length and both canonical paths
are absolute. -/
theorem key_split (f f2 n n2 : JStr) (s s2 : Nat)
    (hl : f.length = f2.length)
    (hn : n.headD 0 = 47) (hn2 : n2.headD 0 = 47)
    (he : f ++ decStr s ++ n = f2 ++ decStr s2 ++ n2) :
    f = f2 ∧ s = s2 ∧ n = n2 := by
  rw [List.append_assoc, List.append_assoc] at he
  obtain ⟨h1, h2⟩ := List.append_inj he hl
  obtain ⟨h3, h4⟩ := digit_prefix_eq (decStr s) (decStr s2) n n2
    (decStr_digits s) (decStr_digits s2) hn hn2 h2
  exact ⟨h1, decStr_inj s s2 h3, h4⟩

/-- Claim C9: chunk file names are deterministic and content-addressed.
They depend only on the digest function and the (basename, file hash,
handler start, canonical path) inputs — two invocations with identical
inputs (even on different plugin instances with the same digest) agree;
the hash component is 12 units long (12-hex for a hex digest); and, when
the truncated digest does not collide on the two keys, equal names force
equal file hashes, start positions, and canonical paths — names differ
whenever the source text's hash, the handler's start, or the module's
canonical path differs. -/
theorem chunkNames_contentAddressed (env env2 : HostEnv)
    (hsha : ∀ s, env2.sha1hex s = env.sha1hex s)
    (hlen : ∀ s, (env.sha1hex s).length = 40) :
    (∀ absoluteId fileHash normalizedId startIdx,
      chunkFileName env2 absoluteId fileHash startIdx normalizedId =
        chunkFileName env absoluteId fileHash startIdx normalizedId) ∧
    (∀ fileHash normalizedId startIdx,
      (chunkHash env fileHash startIdx normalizedId).length = 12) ∧
    (∀ absoluteId fileHash fileHash2 normalizedId normalizedId2
        startIdx startIdx2,
      fileHash.length = fileHash2.length →
      normalizedId.headD 0 = 47 → normalizedId2.headD 0 = 47 →
      ((env.sha1hex (fileHash ++ decStr startIdx ++ normalizedId)).take 12 =
          (env.sha1hex
            (fileHash2 ++ decStr startIdx2 ++ normalizedId2)).take 12 →
        fileHash ++ decStr startIdx ++ normalizedId =
          fileHash2 ++ decStr startIdx2 ++ normalizedId2) →
      chunkFileName env absoluteId fileHash startIdx normalizedId =
        chunkFileName env absoluteId fileHash2 startIdx2 normalizedId2 →
      fileHash = fileHash2 ∧ startIdx = startIdx2 ∧
        normalizedId = normalizedId2) := by
  refine ⟨?_, ?_, ?_⟩
  · intro aid f n s
    rw [chunkFileName, chunkFileName, chunkHash, chunkHash, hsha]
  · intro f n s
    rw [chunkHash, List.length_take, hlen]
    decide
  · intro aid f f2 n n2 s s2 hl hn hn2 hcol hname
    rw [chunkFileName, chunkFileName] at hname
    have h2 : chunkHash env f s n = chunkHash env f2 s2 n2 :=
      List.append_cancel_left (List.append_cancel_right hname)
    rw [chunkHash, chunkHash] at h2
    exact key_split f f2 n n2 s s2 hl hn hn2 (hcol h2)

def c9env : HostEnv :=
  ⟨fun _ => [], fun _ => List.replicate 40 48, fun _ => [], fun _ => []⟩

/-- Closed instance of C9: a concrete digest environment gives a
12-unit hash and stable names. -/
theorem chunkNames_contentAddressed_witness :
    (chunkHash c9env (jstr "abcdefabcdef") 3 (jstr "/m.tsx")).length = 12 ∧
    chunkFileName c9env (jstr "/m.tsx") (jstr "abcdefabcdef") 3
        (jstr "/m.tsx") =
      chunkFileName c9env (jstr "/m.tsx") (jstr "abcdefabcdef") 3
        (jstr "/m.tsx") ∧
    (jstr "abcdefabcdef" = jstr "abcdefabcdef" ∧ 3 = 3 ∧
      jstr "/m.tsx" = jstr "/m.tsx") :=
  have hc := chunkNames_contentAddressed c9env c9env (fun _ => rfl) (fun _ => by simp [c9env])
  ⟨hc.2.1 (jstr "abcdefabcdef") (jstr "/m.tsx") 3,
   hc.1 (jstr "/m.tsx") (jstr "abcdefabcdef") (jstr "/m.tsx") 3,
   hc.2.2 (jstr "/m.tsx") (jstr "abcdefabcdef") (jstr "abcdefabcdef")
     (jstr "/m.tsx") (jstr "/m.tsx") 3 3 rfl (by decide) (by decide)
     (fun _ => rfl) rfl⟩

/-! ## Unresolved-reference policy (C2) -/

theorem handlerEmit_warnings (env : HostEnv) (code absoluteId : JStr)
    (offset : Nat) (toIdx : Int → Nat)
    (importMap : List (String × ImportInfo))
    (declMap : List (String × DeclarationInfo))
    (fileHash normalizedId : JStr) (policy : UnresolvedPolicy)
    (emitCount : Nat) (node : JVal)
    (nodeType parentType functionName : Option String) (span : Nat × Nat)
    (unresolved pending0 : List String) :
    (handlerEmit env code absoluteId offset toIdx importMap declMap fileHash
        normalizedId policy emitCount node nodeType parentType functionName
        span unresolved pending0).warnings =
      (if unresolved ≠ [] ∧ policy = .warn then
        [unresolvedMsg absoluteId unresolved]
      else []) ∧
    (handlerEmit env code absoluteId offset toIdx importMap declMap fileHash
        normalizedId policy emitCount node nodeType parentType functionName
        span unresolved pending0).chunks.length = 1 := by
  constructor
  · rw [handlerEmit]
  · rfl

theorem handlerPolicy_aux (env : HostEnv) (code absoluteId : JStr)
    (offset : Nat) (toIdx : Int → Nat) (ast : JVal)
    (importMap : List (String × ImportInfo))
    (declMap : List (String × DeclarationInfo))
    (fileHash normalizedId : JStr) (policy : UnresolvedPolicy)
    (emitCount : Nat) (node : JVal) (parent : Option JVal)
    (span : Nat × Nat) (pending0 unresolved : List String)
    (hg1 : getNodeType node ≠ some "FunctionDeclaration")
    (hg2 : getNodeType node ≠ some "FunctionExpression")
    (hsp : trimForReplacement
      (getSpanWithParens node code offset (some toIdx)) code = span)
    (hp0 : ((collectReferences node [[]] [] none).2).filter
      (fun name => ¬ GLOBALS.contains name) = pending0)
    (hunres : pending0.filter (fun name =>
      mapGet importMap name = none ∧ mapGet declMap name = none) = unresolved)
    (hspan : ¬ (span.2 > code.length ∨ span.1 ≥ span.2)) :
    (unresolved ≠ [] ∧ policy = .error →
      processOneHandler env code absoluteId offset toIdx ast importMap declMap
          fileHash normalizedId policy emitCount node parent =
        .error (unresolvedMsg absoluteId unresolved)) ∧
    (¬ (unresolved ≠ [] ∧ policy = .error) →
      processOneHandler env code absoluteId offset toIdx ast importMap declMap
          fileHash normalizedId policy emitCount node parent =
        .ok (handlerEmit env code absoluteId offset toIdx importMap declMap
          fileHash normalizedId policy emitCount node (getNodeType node)
          (match parent with | some p => getNodeType p | none => none)
          (getIdentifierValue (node.getField "identifier")) span unresolved
          pending0)) := by
  constructor
  · intro hcase
    simp only [processOneHandler]
    simp only [hg1, hg2, decide_False, Bool.false_or, Bool.or_false,
      Bool.false_and, Bool.and_false, Bool.false_eq_true, if_false]
    rw [hsp, hp0, hunres]
    rw [if_neg hspan, if_pos hcase]
  · intro hcase
    simp only [processOneHandler]
    simp only [hg1, hg2, decide_False, Bool.false_or, Bool.or_false,
      Bool.false_and, Bool.and_false, Bool.false_eq_true, if_false]
    rw [hsp, hp0, hunres]
    rw [if_neg hspan, if_neg hcase]

abbrev c2ident : JVal :=
  .node [("type", .str "Identifier"), ("value", .str "helper")]

abbrev c2call : JVal :=
  .node [("type", .str "CallExpression"), ("callee", c2ident),
    ("arguments", .arr [])]

abbrev c2stmt : JVal :=
  .node [("type", .str "ExpressionStatement"), ("expression", c2call)]

abbrev c2body : JVal :=
  .node [("type", .str "BlockStatement"), ("stmts", .arr [c2stmt])]

abbrev c2node : JVal :=
  .node [("type", .str "ArrowFunctionExpression"),
    ("span", .node [("start", .num 1), ("end", .num 11)]),
    ("params", .arr []), ("body", c2body)]

theorem c2ev1 : collectReferences c2ident [[], [], []] []
    (some c2call) = ([[], [], []], ["helper"]) := by
  rw [collectReferences.eq_def]
  simp +decide [isTypeOnlyNode, getNodeType, JVal.getField, JVal.lookupField,
    isRefSkippedType, isIdentifierReference, isDeclared, nsAdd, fieldOr,
    TS_VALUE_WRAPPERS, startsWithUnits, jstr]
  all_goals decide

theorem c2fA : crFieldsLoop [("arguments", JVal.arr [])] c2call
    [[], [], []] ["helper"] = ([[], [], []], ["helper"]) := by
  rw [crFieldsLoop.eq_def]
  simp +decide [crArrChildLoop.eq_def, crFieldsLoop.eq_def, isSkippedKey,
    JVal.truthy, JVal.isArr, JVal.arrElems, JVal.isNode, getNodeType,
    JVal.getField, JVal.lookupField, fieldOr]

theorem c2fB : crFieldsLoop [("callee", c2ident), ("arguments", JVal.arr [])]
    c2call [[], [], []] [] = ([[], [], []], ["helper"]) := by
  rw [crFieldsLoop.eq_def]
  simp +decide [isSkippedKey, JVal.truthy, JVal.isArr, JVal.isNode,
    getNodeType, JVal.getField, JVal.lookupField, fieldOr, c2ev1, c2fA]

theorem c2fC : crFieldsLoop [("type", JVal.str "CallExpression"),
    ("callee", c2ident), ("arguments", JVal.arr [])]
    c2call [[], [], []] [] = ([[], [], []], ["helper"]) := by
  rw [crFieldsLoop.eq_def]
  simp +decide [isSkippedKey, c2fB]

theorem c2ev2 : collectReferences c2call [[], [], []] []
    (some c2stmt) = ([[], [], []], ["helper"]) := by
  rw [collectReferences.eq_def]
  simp +decide [isTypeOnlyNode, getNodeType, JVal.getField, JVal.lookupField,
    isRefSkippedType, c2fC, TS_VALUE_WRAPPERS, startsWithUnits, jstr]
  all_goals decide

theorem c2ev3 : collectReferences c2stmt [[], [], []] []
    (some c2body) = ([[], [], []], ["helper"]) := by
  rw [collectReferences.eq_def]
  simp +decide [isTypeOnlyNode, getNodeType, JVal.getField, JVal.lookupField,
    isRefSkippedType, crFieldsLoop.eq_def, isSkippedKey, JVal.truthy,
    JVal.isNode, JVal.isArr, fieldOr, c2ev2, TS_VALUE_WRAPPERS]
  all_goals decide

theorem c2ev4 : collectReferences c2body [[], []] []
    (some c2node) = ([[], []], ["helper"]) := by
  rw [collectReferences.eq_def]
  simp +decide [isTypeOnlyNode, getNodeType, JVal.getField, JVal.lookupField,
    isRefSkippedType, getNodeArray, crStmtsLoop.eq_def, c2ev3,
    TS_VALUE_WRAPPERS, startsWithUnits, jstr]
  all_goals decide

theorem c2freeRefs : (collectReferences c2node [[]] [] none).2 =
    ["helper"] := by
  rw [collectReferences.eq_def]
  simp +decide [isTypeOnlyNode, getNodeType, JVal.getField, JVal.lookupField,
    isRefSkippedType, getNodeArray, identName, getIdentifierValue, fieldOr,
    crParamsLoop.eq_def, c2ev4, TS_VALUE_WRAPPERS]
  all_goals decide


def c2env : HostEnv := ⟨fun _ => [], fun _ => [], fun _ => [], fun _ => []⟩

def c2info : DeclarationInfo := ⟨.null, [], ["helper"], ["missing"]⟩

def c2declMap : List (String × DeclarationInfo) := [("helper", c2info)]

def c2code : JStr := jstr "0123456789"

theorem c2span : trimForReplacement
    (getSpanWithParens c2node c2code 0 (some Int.toNat)) c2code = (0, 10) := by
  simp +decide [getSpanWithParens, getStart, getEnd, getSpanNum,
    JVal.getField, JVal.lookupField, trimForReplacement, trimWsEnd.eq_def,
    isJsWs, c2code, jstr]

/-- Claim C2 (amended): the unresolved set is computed from the handler's
DIRECT free references only — the names collected from the handler body
before the closure that are in neither the Import Table nor the
Declaration Table.  The policy is applied to that set with a message
listing every such name: error aborts the transform, warn emits exactly
that warning, and ignore (or an empty set) proceeds to emit the chunk
with no warning.  Names first reached as dependencies of required
declarations during the closure are never recorded as unresolved. -/
theorem unresolvedPolicy_directRefs
    (env : HostEnv) (code absoluteId : JStr) (offset : Nat) (toIdx : Int → Nat)
    (ast : JVal) (importMap : List (String × ImportInfo))
    (declMap : List (String × DeclarationInfo))
    (fileHash normalizedId : JStr) (policy : UnresolvedPolicy)
    (emitCount : Nat) (node : JVal) (parent : Option JVal)
    (span : Nat × Nat) (pending0 unresolved : List String)
    (hg1 : getNodeType node ≠ some "FunctionDeclaration")
    (hg2 : getNodeType node ≠ some "FunctionExpression")
    (hsp : trimForReplacement
      (getSpanWithParens node code offset (some toIdx)) code = span)
    (hp0 : ((collectReferences node [[]] [] none).2).filter
      (fun name => ¬ GLOBALS.contains name) = pending0)
    (hunres : pending0.filter (fun name =>
      mapGet importMap name = none ∧ mapGet declMap name = none) = unresolved)
    (hspan : ¬ (span.2 > code.length ∨ span.1 ≥ span.2)) :
    (unresolved ≠ [] ∧ policy = .error →
      processOneHandler env code absoluteId offset toIdx ast importMap declMap
          fileHash normalizedId policy emitCount node parent =
        .error (unresolvedMsg absoluteId unresolved)) ∧
    (¬ (unresolved ≠ [] ∧ policy = .error) →
      ∃ step, processOneHandler env code absoluteId offset toIdx ast importMap
          declMap fileHash normalizedId policy emitCount node parent =
          .ok step ∧
        step.warnings = (if unresolved ≠ [] ∧ policy = .warn then
          [unresolvedMsg absoluteId unresolved] else []) ∧
        step.chunks.length = 1) := by
  obtain ⟨h1, h2⟩ := handlerPolicy_aux env code absoluteId offset toIdx ast
    importMap declMap fileHash normalizedId policy emitCount node parent
    span pending0 unresolved hg1 hg2 hsp hp0 hunres hspan
  refine ⟨h1, fun hc => ⟨_, h2 hc, ?_, ?_⟩⟩
  · exact (handlerEmit_warnings _ _ _ _ _ _ _ _ _ _ _ _ _ _ _ _ _ _).1
  · exact (handlerEmit_warnings _ _ _ _ _ _ _ _ _ _ _ _ _ _ _ _ _ _).2

/-- Counterexample to C2 as stated: the handler calls `helper`, whose
declaration-table entry depends on `missing`; `missing` is non-global, is
processed by the closure (it is in the worklist trace), and is found in
neither table, yet under the `error` policy the transform does not abort
and emits no warning — dependency-reached unresolved names are silently
dropped. -/
theorem unresolvedDeps_dropped :
    GLOBALS.contains "missing" = false ∧
    mapGet ([] : List (String × ImportInfo)) "missing" = none ∧
    mapGet c2declMap "missing" = none ∧
    (closeWorklist (closureFuel c2declMap ["helper"]) [] c2declMap ["helper"]
        ["helper"] ⟨[], [], []⟩).1.trace = ["helper", "missing"] ∧
    ∃ step,
      processOneHandler c2env c2code (jstr "/m.tsx") 0 Int.toNat JVal.null []
          c2declMap [] (jstr "/m") UnresolvedPolicy.error 0 c2node none =
        .ok step ∧ step.warnings = [] := by
  refine ⟨by decide, by decide, by decide, by decide, ?_⟩
  obtain ⟨-, h2⟩ := handlerPolicy_aux c2env c2code (jstr "/m.tsx") 0
    Int.toNat JVal.null [] c2declMap [] (jstr "/m") UnresolvedPolicy.error 0
    c2node none (0, 10) ["helper"] [] (by decide) (by decide) c2span
    (by rw [c2freeRefs]; decide) (by decide) (by decide)
  refine ⟨_, h2 (by simp), ?_⟩
  rw [(handlerEmit_warnings _ _ _ _ _ _ _ _ _ _ _ _ _ _ _ _ _ _).1]
  simp

/-- Closed instance of the amended C2: with empty tables the direct free
reference `helper` is unresolved and the error policy aborts with the
message listing it. -/
theorem unresolvedPolicy_directRefs_witness :
    processOneHandler c2env c2code (jstr "/m.tsx") 0 Int.toNat JVal.null []
        [] [] (jstr "/m") UnresolvedPolicy.error 0 c2node none =
      .error (unresolvedMsg (jstr "/m.tsx") ["helper"]) :=
  (unresolvedPolicy_directRefs c2env c2code (jstr "/m.tsx") 0 Int.toNat JVal.null [] [] []
    (jstr "/m") UnresolvedPolicy.error 0 c2node none (0, 10) ["helper"]
    ["helper"] (by decide) (by decide) c2span (by rw [c2freeRefs]; decide)
    (by decide) (by decide)).1 ⟨by decide, rfl⟩

end UseClient
